import Mathlib

/-!
# Trie storage manager (`trie/trieStorageManager.go`)

A shallow embedding of the trie storage manager: the restore of snapshot
generations from disk, the constructor, the pruning-buffering counter, the
request queues, the worker functions that execute one request and the worker
loop that receives the requests.  Two smaller files follow it: the trie node
errors of `errors/missingTrieNodeError.go` (namespace `errors`) and the block
signing rater of `process/rating/blockSigningRater.go` (namespace `rating`).

Go values are embedded as follows.  `[]byte` is `List Nat`, `error` is
`Option Error` (`none` is `nil`), `int` is `Int` wrapped to 64 bits where the
code increments it, `uint32` is `Nat` reduced modulo `2^32` where the code
increments it, a buffered channel of requests is the list of pending entries
(oldest first), a leaves channel is named by a number and the closes performed
on channels are recorded in the world.
-/

namespace trie

/-- A Go byte slice. -/
abbrev Bytes := List Nat

/-- The error values that appear in the embedded code.  The four `ErrNil...`
sentinels and `ErrContextClosing` are package-level variables of package
`trie`; `ErrSyntax` and `ErrRange` are the `*strconv.NumError` values of
`strconv.Atoi` carrying the rejected string; `wrapped` is `fmt.Errorf` with
`%w`. -/
inductive Error where
  | ErrNilDatabase
  | ErrNilMarshalizer
  | ErrNilHasher
  | ErrNilCheckpointHashesHolder
  | ErrContextClosing
  | ErrSyntax (num : String)
  | ErrRange (num : String)
  | other (msg : String)
  | wrapped (msg : String) (err : Error)
  deriving DecidableEq, Repr

/-- Two's complement wrap-around of a Go `int` (64 bits). -/
def wrapInt (x : Int) : Int := (x + 2 ^ 63) % 2 ^ 64 - 2 ^ 63

/-- Wrap-around of a Go `uint32`. -/
def wrapUint32 (n : Nat) : Nat := n % 2 ^ 32

/-- The loop of `strconv.ParseUint` for base 10 and 64 bits: `n` is the value
read so far, the result is a range error as soon as the next digit overflows
a `uint64`, a syntax error at the first byte that is not a decimal digit. -/
def parseUintLoop (s0 : String) : List Char → Nat → Except Error Nat
  | [], n => .ok n
  | c :: cs, n =>
    if 48 ≤ c.toNat ∧ c.toNat ≤ 57 then
      if n ≥ (2 ^ 64 - 1) / 10 + 1 then .error (.ErrRange s0)
      else if n * 10 + (c.toNat - 48) > 2 ^ 64 - 1 then .error (.ErrRange s0)
      else parseUintLoop s0 cs (n * 10 + (c.toNat - 48))
    else .error (.ErrSyntax s0)

/-- Go `strconv.ParseUint(s, 10, 64)`, reporting errors against `s0`. -/
def ParseUint (s0 : String) (s : List Char) : Except Error Nat :=
  if s = [] then .error (.ErrSyntax s0) else parseUintLoop s0 s 0

/-- Go `strconv.Atoi` on a 64-bit platform, that is `strconv.ParseInt(s, 10, 0)`
(the fast path of `Atoi` for short strings returns the same results): an
optional sign `+` or `-`, then one or more decimal digits, whose value must
lie in `[-2^63, 2^63 - 1]`. -/
def Atoi (s : String) : Except Error Int :=
  match s.data with
  | [] => .error (.ErrSyntax s)
  | c :: cs =>
    let neg : Bool := c = '-'
    let digits := if c = '+' ∨ c = '-' then cs else c :: cs
    match ParseUint s digits with
    | .error err => .error err
    | .ok un =>
      if !neg ∧ un ≥ 2 ^ 63 then .error (.ErrRange s)
      else if neg ∧ un > 2 ^ 63 then .error (.ErrRange s)
      else .ok (if neg then -(un : Int) else (un : Int))

/-- Go `path.Join(dir, name)` for a clean, non-empty `dir` and a single path
element `name`. -/
def pathJoin (dir name : String) : String := dir ++ "/" ++ name

/-- The answers of `storage.Persister` / `temporary.DBWriteCacher`, an
interface implemented outside this file: what `Get` returns for each key
(value and error), what `Close` and `Remove` return, and how many times
`Close` has been called on the store. -/
structure Persister where
  Path : String
  Get : Bytes → Option Bytes × Option Error
  closeErr : Option Error
  removeErr : Bytes → Option Error
  closeCalls : Nat
  removed : List Bytes

/-- Method `Close` of a store: counts the call, returns the store's error. -/
def Persister.Close (p : Persister) : Persister × Option Error :=
  ({ p with closeCalls := p.closeCalls + 1 }, p.closeErr)

/-- Modelled from the spec: the snapshot handle `snapshotDb` (its file is not
part of the sources): it owns a persistence handle, an in-use reference
count, a marked-for-removal and a marked-for-disconnection flag and a
deferred target path. -/
structure snapshotDb where
  DBWriteCacher : Persister
  numReferences : Nat := 0
  shouldBeRemoved : Bool := false
  shouldBeDisconnected : Bool := false
  path : String := ""

/-- Modelled from the spec: increase-reference operation of a snapshot handle. -/
def snapshotDb.IncreaseNumReferences (s : snapshotDb) : snapshotDb :=
  { s with numReferences := s.numReferences + 1 }

/-- Modelled from the spec: is-in-use query of a snapshot handle. -/
def snapshotDb.IsInUse (s : snapshotDb) : Bool := decide (0 < s.numReferences)

/-- Modelled from the spec: mark-for-removal operation of a snapshot handle. -/
def snapshotDb.MarkForRemoval (s : snapshotDb) : snapshotDb :=
  { s with shouldBeRemoved := true }

/-- Modelled from the spec: mark-for-disconnection operation of a snapshot handle. -/
def snapshotDb.MarkForDisconnection (s : snapshotDb) : snapshotDb :=
  { s with shouldBeDisconnected := true }

/-- Modelled from the spec: set-path operation of a snapshot handle. -/
def snapshotDb.SetPath (s : snapshotDb) (path : String) : snapshotDb :=
  { s with path := path }

/-- Method `Get` of a snapshot handle, promoted from the embedded store. -/
def snapshotDb.Get (s : snapshotDb) (key : Bytes) : Option Bytes × Option Error :=
  s.DBWriteCacher.Get key

/-- Method `Close` of a snapshot handle, promoted from the embedded store. -/
def snapshotDb.Close (s : snapshotDb) : snapshotDb × Option Error :=
  ({ s with DBWriteCacher := s.DBWriteCacher.Close.1 }, s.DBWriteCacher.closeErr)

/-- The fields of `config.DBConfig` read by the manager (`Type_` is the field `Type`). -/
structure DBConfig where
  FilePath : String
  Type_ : String
  BatchDelaySeconds : Int
  MaxBatchSize : Int
  MaxOpenFiles : Int

/-- The fields of `config.TrieStorageManagerConfig` read by the manager. -/
structure TrieStorageManagerConfig where
  SnapshotsBufferLen : Nat
  MaxSnapshots : Nat
  KeepSnapshots : Bool

/-- The argument record `storageUnit.ArgDB`. -/
structure ArgDB where
  DBType : String
  Path : String
  BatchDelaySeconds : Int
  MaxBatchSize : Int
  MaxOpenFiles : Int

/-- What `os.FileInfo` tells about one entry of a directory. -/
structure FileInfo where
  Name : String
  IsDir : Bool
  deriving DecidableEq, Repr

/-- A value of the interface `temporary.DBWriteCacher` as the worker uses it:
the active store of the manager or a snapshot handle of the registry. -/
inductive DB where
  | active (p : Persister)
  | snapshot (h : snapshotDb)

/-- A decoded trie node (`snapshotNode`), defined outside this file; only its
hash is kept. -/
structure snapshotNode where
  hash : Bytes

/-- A call that the worker makes into the trie code outside this file, with
the stores it passes: the read source first, then, for a walk, the
destination store and the leaves channel. -/
inductive ExternalCall where
  | getNodeFromDBAndDecode (rootHash : Bytes) (db : DB)
  | commitSnapshot (newRoot : snapshotNode) (db : DB) (newDb : Persister)
      (leavesChan : Option Nat)
  | commitCheckpoint (newRoot : snapshotNode) (originDb : Persister) (targetDb : Persister)
      (leavesChan : Option Nat)

/-- The world outside the manager.  The first six fields are the answers of
code that lives outside this file (`os.Stat`, `ioutil.ReadDir`,
`storageUnit.NewDB`, `getNodeFromDBAndDecode`, `commitSnapshot`,
`commitCheckpoint`); the last four record what the manager did to the
world: the `close` calls on leaves channels, the `removeDirectory` calls, the
handles evicted from the registry in the state the eviction left them, and
the calls into the trie code, oldest first. -/
structure World where
  directoryExists : String → Bool
  ReadDir : String → Except Error (List FileInfo)
  NewDB : ArgDB → Except Error Persister
  getNodeFromDBAndDecode : Bytes → DB → Except Error snapshotNode
  commitSnapshot : snapshotNode → DB → Persister → Option Nat → Option Error
  commitCheckpoint : snapshotNode → Persister → Persister → Option Nat → Option Error
  closedChans : List Nat
  removeDirectoryCalls : List String
  evicted : List snapshotDb
  calls : List ExternalCall := []

/-- Record a call into the trie code. -/
def World.record (w : World) (call : ExternalCall) : World :=
  { w with calls := w.calls ++ [call] }

/-- A Go `map[int]temporary.SnapshotDbHandler`: at most one pair per key; the
order of the list is the (unspecified) iteration order of the map. -/
abbrev SnapshotsMap := List (Int × snapshotDb)

/-- The assignment `snapshotsMap[key] = value`. -/
def SnapshotsMap.set (m : SnapshotsMap) (key : Int) (value : snapshotDb) : SnapshotsMap :=
  (key, value) :: m.filter (fun p => p.1 ≠ key)

/-- Function `getOrderedSnapshots`: collect the keys of the map, `sort.Ints`
them, and append `snapshotsMap[key]` for each key in that order. -/
def getOrderedSnapshots (snapshotsMap : SnapshotsMap) : List snapshotDb :=
  let keys := snapshotsMap.map Prod.fst
  let keys := keys.insertionSort (· ≤ ·)
  keys.filterMap (fun key => snapshotsMap.lookup key)

/-- The `storageUnit.ArgDB` built for the directory entry called `name`. -/
def snapshotArgDB (snapshotDbCfg : DBConfig) (name : String) : ArgDB :=
  { DBType := snapshotDbCfg.Type_
    Path := pathJoin snapshotDbCfg.FilePath name
    BatchDelaySeconds := snapshotDbCfg.BatchDelaySeconds
    MaxBatchSize := snapshotDbCfg.MaxBatchSize
    MaxOpenFiles := snapshotDbCfg.MaxOpenFiles }

/-- The `for _, f := range files` loop of `getSnapshotsAndSnapshotId`, started
with the map and the `snapshotId` built so far.  It returns the map, the
`snapshotId` and the error at the point where the loop is left. -/
def restoreLoop (w : World) (snapshotDbCfg : DBConfig) :
    List FileInfo → SnapshotsMap → Int → SnapshotsMap × Int × Option Error
  | [], snapshotsMap, snapshotId => (snapshotsMap, snapshotId, none)
  | f :: files, snapshotsMap, snapshotId =>
    if !f.IsDir then restoreLoop w snapshotDbCfg files snapshotsMap snapshotId
    else
      match Atoi f.Name with
      | .error err => (snapshotsMap, snapshotId, some err)
      | .ok snapshotName =>
        match w.NewDB (snapshotArgDB snapshotDbCfg f.Name) with
        | .error err => (snapshotsMap, snapshotId, some err)
        | .ok db =>
          let snapshotId := if snapshotName > snapshotId then snapshotName else snapshotId
          restoreLoop w snapshotDbCfg files
            (snapshotsMap.set snapshotName { DBWriteCacher := db }) snapshotId

/-- Function `getSnapshotsAndSnapshotId`: the ordered handles, the next
snapshot id and the error. -/
def getSnapshotsAndSnapshotId (w : World) (snapshotDbCfg : DBConfig) :
    List snapshotDb × Int × Option Error :=
  if !w.directoryExists snapshotDbCfg.FilePath then
    (getOrderedSnapshots [], 0, none)
  else
    match w.ReadDir snapshotDbCfg.FilePath with
    | .error err => (getOrderedSnapshots [], 0, some err)
    | .ok files =>
      match restoreLoop w snapshotDbCfg files [] 0 with
      | (snapshotsMap, snapshotId, some err) =>
        (getOrderedSnapshots snapshotsMap, snapshotId, some err)
      | (snapshotsMap, snapshotId, none) =>
        (getOrderedSnapshots snapshotsMap,
          if snapshotsMap.length ≠ 0 then wrapInt (snapshotId + 1) else snapshotId, none)

/-- Go `strconv.Itoa`: the decimal string of an `int`. -/
def Itoa (i : Int) : String := toString i

/-- A request of the snapshot or checkpoint queue.  The leaves channel is
`none` when it is `nil`, otherwise the number naming the channel. -/
structure snapshotsQueueEntry where
  rootHash : Bytes
  newDb : Bool
  leavesChan : Option Nat
  deriving DecidableEq, Repr

/-- The checkpoint hashes holder (`temporary.CheckpointHashesHolder`), an
interface implemented outside this file: the calls of `RemoveCommitted` and
`Remove` made on it, oldest first. -/
structure CheckpointHashesHolder where
  removeCommittedCalls : List Bytes
  removeCalls : List Bytes
  deriving DecidableEq, Repr

/-- Method `RemoveCommitted` of the holder: records the call. -/
def CheckpointHashesHolder.RemoveCommitted (h : CheckpointHashesHolder) (rootHash : Bytes) :
    CheckpointHashesHolder :=
  { h with removeCommittedCalls := h.removeCommittedCalls ++ [rootHash] }

/-- Method `Remove` of the holder: records the call. -/
def CheckpointHashesHolder.Remove (h : CheckpointHashesHolder) (hash : Bytes) :
    CheckpointHashesHolder :=
  { h with removeCalls := h.removeCalls ++ [hash] }

/-- A marshalizer (`marshal.Marshalizer`); nothing of it is inspected. -/
structure Marshalizer where
  deriving DecidableEq, Repr

/-- A hasher (`hashing.Hasher`); nothing of it is inspected. -/
structure Hasher where
  deriving DecidableEq, Repr

/-- The struct `trieStorageManager`.  The two request channels are the lists
of entries sent and not yet received, oldest first; `cancelled` tells whether
`cancelFunc` has been called; the mutex is not represented (every function
below runs atomically). -/
structure trieStorageManager where
  db : Persister
  snapshots : List snapshotDb
  snapshotId : Int
  snapshotDbCfg : DBConfig
  snapshotReq : List snapshotsQueueEntry
  checkpointReq : List snapshotsQueueEntry
  checkpointHashesHolder : CheckpointHashesHolder
  pruningBlockingOps : Nat
  maxSnapshots : Nat
  keepSnapshots : Bool
  cancelled : Bool

/-- The struct `NewTrieStorageManagerArgs`; an interface field is `none` when
`check.IfNil` holds of it. -/
structure NewTrieStorageManagerArgs where
  DB : Option Persister
  Marshalizer : Option Marshalizer
  Hasher : Option Hasher
  SnapshotDbConfig : DBConfig
  GeneralConfig : TrieStorageManagerConfig
  CheckpointHashesHolder : Option CheckpointHashesHolder

/-- Function `NewTrieStorageManager`: the returned manager (`none` is `nil`)
and the returned error.  The error of `getSnapshotsAndSnapshotId` is logged
and dropped. -/
def NewTrieStorageManager (w : World) (args : NewTrieStorageManagerArgs) :
    Option trieStorageManager × Option Error :=
  match args.DB with
  | none => (none, some .ErrNilDatabase)
  | some db =>
    match args.Marshalizer with
    | none => (none, some .ErrNilMarshalizer)
    | some _ =>
      match args.Hasher with
      | none => (none, some .ErrNilHasher)
      | some _ =>
        match args.CheckpointHashesHolder with
        | none => (none, some .ErrNilCheckpointHashesHolder)
        | some holder =>
          let restored := getSnapshotsAndSnapshotId w args.SnapshotDbConfig
          (some
            { db := db
              snapshots := restored.1
              snapshotId := restored.2.1
              snapshotDbCfg := args.SnapshotDbConfig
              snapshotReq := []
              checkpointReq := []
              checkpointHashesHolder := holder
              pruningBlockingOps := 0
              maxSnapshots := args.GeneralConfig.MaxSnapshots
              keepSnapshots := args.GeneralConfig.KeepSnapshots
              cancelled := false }, none)

/-- Method `EnterPruningBufferingMode`: `pruningBlockingOps++` on a `uint32`. -/
def trieStorageManager.EnterPruningBufferingMode (tsm : trieStorageManager) :
    trieStorageManager :=
  { tsm with pruningBlockingOps := wrapUint32 (tsm.pruningBlockingOps + 1) }

/-- Method `ExitPruningBufferingMode`: returns at once when the counter is
below one, decrements it otherwise. -/
def trieStorageManager.ExitPruningBufferingMode (tsm : trieStorageManager) :
    trieStorageManager :=
  if tsm.pruningBlockingOps < 1 then tsm
  else { tsm with pruningBlockingOps := tsm.pruningBlockingOps - 1 }

/-- Method `IsPruningBlocked`. -/
def trieStorageManager.IsPruningBlocked (tsm : trieStorageManager) : Bool :=
  tsm.pruningBlockingOps != 0

/-- Method `TakeSnapshot`.  `EmptyTrieHash` is the package-level variable of
that name, declared outside this file. -/
def trieStorageManager.TakeSnapshot (EmptyTrieHash : Bytes) (tsm : trieStorageManager)
    (rootHash : Bytes) (newDb : Bool) (leavesChan : Option Nat) : trieStorageManager :=
  if rootHash = EmptyTrieHash then tsm
  else
    let tsm := tsm.EnterPruningBufferingMode
    let tsm := { tsm with
      checkpointHashesHolder := tsm.checkpointHashesHolder.RemoveCommitted rootHash }
    let snapshotEntry : snapshotsQueueEntry :=
      { rootHash := rootHash, newDb := newDb, leavesChan := leavesChan }
    { tsm with snapshotReq := tsm.snapshotReq ++ [snapshotEntry] }

/-- Method `SetCheckpoint`. -/
def trieStorageManager.SetCheckpoint (EmptyTrieHash : Bytes) (tsm : trieStorageManager)
    (rootHash : Bytes) (leavesChan : Option Nat) : trieStorageManager :=
  if rootHash = EmptyTrieHash then tsm
  else
    let tsm := tsm.EnterPruningBufferingMode
    let checkpointEntry : snapshotsQueueEntry :=
      { rootHash := rootHash, newDb := false, leavesChan := leavesChan }
    { tsm with checkpointReq := tsm.checkpointReq ++ [checkpointEntry] }

/-- Method `isPresentInLastSnapshotDb`. -/
def trieStorageManager.isPresentInLastSnapshotDb (tsm : trieStorageManager)
    (rootHash : Bytes) : Bool :=
  match tsm.snapshots.getLast? with
  | none => false
  | some last =>
    let r := last.Get rootHash
    if r.2.isSome || r.1.isNone then false else true

/-- The loop of `GetSnapshotThatContainsHash`: `n` is `i + 1` for the index
`i` that the loop examines next; the result is the first index, going down,
whose `Get` returns no error. -/
def findSnapshotIndex (snapshots : List snapshotDb) (rootHash : Bytes) : Nat → Option Nat
  | 0 => none
  | i + 1 =>
    match snapshots[i]? with
    | some s =>
      if (s.Get rootHash).2.isNone then some i
      else findSnapshotIndex snapshots rootHash i
    | none => findSnapshotIndex snapshots rootHash i

/-- Method `GetSnapshotThatContainsHash`: the manager after the call and the
handle returned (`none` is `nil`), in the state the call leaves it. -/
def trieStorageManager.GetSnapshotThatContainsHash (tsm : trieStorageManager)
    (rootHash : Bytes) : trieStorageManager × Option snapshotDb :=
  match findSnapshotIndex tsm.snapshots rootHash tsm.snapshots.length with
  | none => (tsm, none)
  | some i =>
    match tsm.snapshots[i]? with
    | none => (tsm, none)
    | some s =>
      ({ tsm with snapshots := tsm.snapshots.set i s.IncreaseNumReferences },
        some s.IncreaseNumReferences)

/-- Package function `disconnectSnapshot(db)`: `db.Close()`. -/
def disconnectSnapshot (db : snapshotDb) : snapshotDb × Option Error := db.Close

/-- Package function `removeSnapshot(db, path)`: close the store and, when
that succeeds, start `removeDirectory(path)`; the handle is recorded among
the evicted ones in the state it is left in. -/
def removeSnapshot (db : snapshotDb) (path : String) (w : World) : World :=
  match disconnectSnapshot db with
  | (db, some _) => { w with evicted := w.evicted ++ [db] }
  | (db, none) =>
    { w with
      evicted := w.evicted ++ [db]
      removeDirectoryCalls := w.removeDirectoryCalls ++ [path] }

/-- Method `disconnectSnapshot` of the manager. -/
def trieStorageManager.disconnectSnapshot (tsm : trieStorageManager) (w : World) :
    trieStorageManager × World :=
  match tsm.snapshots with
  | [] => (tsm, w)
  | firstSnapshot :: rest =>
    let tsm := { tsm with snapshots := rest }
    if firstSnapshot.IsInUse then
      (tsm, { w with evicted := w.evicted ++ [firstSnapshot.MarkForDisconnection] })
    else
      (tsm, { w with evicted := w.evicted ++ [(trie.disconnectSnapshot firstSnapshot).1] })

/-- Method `removeSnapshot` of the manager. -/
def trieStorageManager.removeSnapshot (tsm : trieStorageManager) (w : World) :
    trieStorageManager × World :=
  match tsm.snapshots with
  | [] => (tsm, w)
  | firstSnapshot :: rest =>
    let dbUniqueId := Itoa (wrapInt (tsm.snapshotId - (tsm.snapshots.length : Int)))
    let tsm := { tsm with snapshots := rest }
    let removePath := pathJoin tsm.snapshotDbCfg.FilePath dbUniqueId
    if firstSnapshot.IsInUse then
      (tsm, { w with
        evicted := w.evicted ++ [(firstSnapshot.MarkForRemoval).SetPath removePath] })
    else
      (tsm, trie.removeSnapshot firstSnapshot removePath w)

/-- The `for directoryExists(snapshotPath)` loop of `newSnapshotDb`, run for at
most `fuel` tests: the first `snapshotId`, counting up from the given one,
whose directory does not exist; `none` when `fuel` tests all found an
existing directory. -/
def findFreeSnapshotId (w : World) (snapshotDbCfg : DBConfig) : Nat → Int → Option Int
  | 0, _ => none
  | fuel + 1, snapshotId =>
    if w.directoryExists (pathJoin snapshotDbCfg.FilePath (Itoa snapshotId)) then
      findFreeSnapshotId w snapshotDbCfg fuel (wrapInt (snapshotId + 1))
    else some snapshotId

/-- Method `newSnapshotDb`: `none` when the loop is still running after `fuel`
tests, otherwise the manager, the world and the result of the call.  A store
that is opened creates its directory. -/
def trieStorageManager.newSnapshotDb (fuel : Nat) (tsm : trieStorageManager) (w : World) :
    Option (trieStorageManager × World × Except Error Persister) :=
  match findFreeSnapshotId w tsm.snapshotDbCfg fuel tsm.snapshotId with
  | none => none
  | some snapshotId =>
    let tsm := { tsm with snapshotId := snapshotId }
    let arg := snapshotArgDB tsm.snapshotDbCfg (Itoa tsm.snapshotId)
    match w.NewDB arg with
    | .error err => some (tsm, w, .error err)
    | .ok db =>
      let w := { w with directoryExists := fun p => decide (p = arg.Path) || w.directoryExists p }
      let tsm := { tsm with snapshotId := wrapInt (tsm.snapshotId + 1) }
      let newSnapshot : snapshotDb := { DBWriteCacher := db }
      some ({ tsm with snapshots := tsm.snapshots ++ [newSnapshot] }, w, .ok db)

/-- Method `getSnapshotDb`: `none` when `newSnapshotDb` is still running after
`fuel` tests, otherwise the manager, the world and the store returned (`none`
is `nil`). -/
def trieStorageManager.getSnapshotDb (fuel : Nat) (tsm : trieStorageManager) (w : World)
    (newDb : Bool) : Option (trieStorageManager × World × Option Persister) :=
  let createNewDb := newDb || tsm.snapshots.length == 0
  if !createNewDb then
    some (tsm, w, tsm.snapshots.getLast?.map (fun s => s.DBWriteCacher))
  else
    match tsm.newSnapshotDb fuel w with
    | none => none
    | some (tsm, w, .error _) => some (tsm, w, none)
    | some (tsm, w, .ok db) =>
      if wrapUint32 tsm.snapshots.length > tsm.maxSnapshots then
        if tsm.keepSnapshots then
          let r := tsm.disconnectSnapshot w
          some (r.1, r.2, some db)
        else
          let r := tsm.removeSnapshot w
          some (r.1, r.2, some db)
      else some (tsm, w, some db)

/-- The deferred function of `takeSnapshot` and of `takeCheckpoint`: leave the
pruning-buffering mode and close the leaves channel when it is not `nil`. -/
def deferredFinish (entry : snapshotsQueueEntry) (tsm : trieStorageManager) (w : World) :
    trieStorageManager × World :=
  (tsm.ExitPruningBufferingMode,
    match entry.leavesChan with
    | some ch => { w with closedChans := w.closedChans ++ [ch] }
    | none => w)

/-- Method `takeSnapshot`: `none` when `newSnapshotDb` is still running after
`fuel` tests, otherwise the manager and the world when the call returns. -/
def trieStorageManager.takeSnapshot (fuel : Nat) (tsm : trieStorageManager) (w : World)
    (snapshotEntry : snapshotsQueueEntry) : Option (trieStorageManager × World) :=
  let found : trieStorageManager × Option snapshotDb :=
    if tsm.isPresentInLastSnapshotDb snapshotEntry.rootHash then
      tsm.GetSnapshotThatContainsHash snapshotEntry.rootHash
    else (tsm, none)
  let tsm := found.1
  let db : DB :=
    match found.2 with
    | some h => .snapshot h
    | none => .active tsm.db
  let w := w.record (.getNodeFromDBAndDecode snapshotEntry.rootHash db)
  let body : Option (trieStorageManager × World) :=
    match w.getNodeFromDBAndDecode snapshotEntry.rootHash db with
    | .error _ => some (tsm, w)
    | .ok newRoot =>
      match tsm.getSnapshotDb fuel w snapshotEntry.newDb with
      | none => none
      | some (tsm, w, none) => some (tsm, w)
      | some (tsm, w, some newDb) =>
        let err := w.commitSnapshot newRoot db newDb snapshotEntry.leavesChan
        let w := w.record (.commitSnapshot newRoot db newDb snapshotEntry.leavesChan)
        if err = some .ErrContextClosing then some (tsm, w)
        else some (tsm, w)
  body.map (fun r => deferredFinish snapshotEntry r.1 r.2)

/-- Method `takeCheckpoint`: `none` when `newSnapshotDb` is still running after
`fuel` tests, otherwise the manager and the world when the call returns.  The
checkpoint hashes holder is passed to `commitCheckpoint` and to nothing else;
what `commitCheckpoint` does with it is outside this file and is not
recorded. -/
def trieStorageManager.takeCheckpoint (fuel : Nat) (tsm : trieStorageManager) (w : World)
    (checkpointEntry : snapshotsQueueEntry) : Option (trieStorageManager × World) :=
  let body : Option (trieStorageManager × World) :=
    if tsm.isPresentInLastSnapshotDb checkpointEntry.rootHash then some (tsm, w)
    else
      let w := w.record (.getNodeFromDBAndDecode checkpointEntry.rootHash (.active tsm.db))
      match w.getNodeFromDBAndDecode checkpointEntry.rootHash (.active tsm.db) with
      | .error _ => some (tsm, w)
      | .ok newRoot =>
        match tsm.getSnapshotDb fuel w checkpointEntry.newDb with
        | none => none
        | some (tsm, w, none) => some (tsm, w)
        | some (tsm, w, some db) =>
          let err := w.commitCheckpoint newRoot tsm.db db checkpointEntry.leavesChan
          let w := w.record (.commitCheckpoint newRoot tsm.db db checkpointEntry.leavesChan)
          if err = some .ErrContextClosing then some (tsm, w)
          else some (tsm, w)
  body.map (fun r => deferredFinish checkpointEntry r.1 r.2)

/-- The worker of `storageProcessLoop` having received the given entries from
`snapshotReq`, in this order, and running `takeSnapshot` on each. -/
def runSnapshotRequests (fuel : Nat) :
    List snapshotsQueueEntry → trieStorageManager × World → Option (trieStorageManager × World)
  | [], st => some st
  | e :: es, st =>
    match st.1.takeSnapshot fuel st.2 e with
    | none => none
    | some st => runSnapshotRequests fuel es st

/-- The entries that a call put on `snapshotReq`: those of the queue after
the call that were not in the queue before it. -/
def enqueuedBy (before after : trieStorageManager) : List snapshotsQueueEntry :=
  after.snapshotReq.drop before.snapshotReq.length

/-- The `snapshotId` that the loop of `newSnapshotDb` tests in its test number
`k` (counting from 0), started at `snapshotId`: `k` wrapping increments later. -/
def nextSnapshotIds (snapshotId : Int) : Nat → Int
  | 0 => snapshotId
  | k + 1 => nextSnapshotIds (wrapInt (snapshotId + 1)) k

/-- A call of one of the two pruning-buffering methods. -/
inductive PruningCall where
  | Enter
  | Exit
  deriving DecidableEq, Repr

/-- The manager after a sequence of `EnterPruningBufferingMode` and
`ExitPruningBufferingMode` calls, made in the order of the list. -/
def applyPruningCalls : List PruningCall → trieStorageManager → trieStorageManager
  | [], tsm => tsm
  | .Enter :: calls, tsm => applyPruningCalls calls tsm.EnterPruningBufferingMode
  | .Exit :: calls, tsm => applyPruningCalls calls tsm.ExitPruningBufferingMode

/-- Whether a byte is one of the decimal digits `'0'` to `'9'`. -/
def isDecimalDigit (c : Char) : Bool := decide (48 ≤ c.toNat ∧ c.toNat ≤ 57)

/-- Whether a string is an optional sign `+` or `-` followed by one or more
decimal digits. -/
def signedDecimalSyntax (s : String) : Bool :=
  match s.data with
  | [] => false
  | c :: cs =>
    let digits := if c = '+' ∨ c = '-' then cs else c :: cs
    !digits.isEmpty && digits.all isDecimalDigit

/-- What one iteration of the restore loop enters into the map for the
directory entry `f`: the numeric name and the new handle, when both
`strconv.Atoi` and `storageUnit.NewDB` succeed. -/
def restoredEntry (w : World) (snapshotDbCfg : DBConfig) (f : FileInfo) :
    Option (Int × snapshotDb) :=
  match Atoi f.Name, w.NewDB (snapshotArgDB snapshotDbCfg f.Name) with
  | .ok snapshotName, .ok db => some (snapshotName, { DBWriteCacher := db })
  | _, _ => none

/-- The subdirectories of the snapshot root directory as
`getSnapshotsAndSnapshotId` finds them: none when the root directory is absent
or cannot be read. -/
def snapshotSubdirs (w : World) (snapshotDbCfg : DBConfig) : List FileInfo :=
  if !w.directoryExists snapshotDbCfg.FilePath then []
  else
    match w.ReadDir snapshotDbCfg.FilePath with
    | .error _ => []
    | .ok files => files.filter (fun f => f.IsDir)

/-- A store opened at `path` that holds nothing and never fails. -/
def emptyStore (path : String) : Persister :=
  { Path := path
    Get := fun _ => (none, some (.other "key not found"))
    closeErr := none
    removeErr := fun _ => none
    closeCalls := 0
    removed := [] }

/-- A world whose snapshot root directory exists and lists the given entries,
in which every store opens, every root node fails to load and no leaves
channel has been closed yet. -/
def worldWithFiles (files : List FileInfo) : World :=
  { directoryExists := fun _ => true
    ReadDir := fun _ => .ok files
    NewDB := fun arg => .ok (emptyStore arg.Path)
    getNodeFromDBAndDecode := fun _ _ => .error (.other "node not found")
    commitSnapshot := fun _ _ _ _ => none
    commitCheckpoint := fun _ _ _ _ => none
    closedChans := []
    removeDirectoryCalls := []
    evicted := [] }

/-- A snapshot store configuration rooted at the directory `snapshots`. -/
def exampleDBConfig : DBConfig :=
  { FilePath := "snapshots", Type_ := "LvlDBSerial", BatchDelaySeconds := 1,
    MaxBatchSize := 100, MaxOpenFiles := 10 }

/-- Constructor arguments with all four dependencies present. -/
def exampleArgs : NewTrieStorageManagerArgs :=
  { DB := some (emptyStore "db")
    Marshalizer := some {}
    Hasher := some {}
    SnapshotDbConfig := exampleDBConfig
    GeneralConfig := { SnapshotsBufferLen := 10, MaxSnapshots := 2, KeepSnapshots := false }
    CheckpointHashesHolder := some { removeCommittedCalls := [], removeCalls := [] } }

/-- A manager with an empty registry and empty queues. -/
def exampleManager : trieStorageManager :=
  { db := emptyStore "db"
    snapshots := []
    snapshotId := 0
    snapshotDbCfg := exampleDBConfig
    snapshotReq := []
    checkpointReq := []
    checkpointHashesHolder := { removeCommittedCalls := [], removeCalls := [] }
    pruningBlockingOps := 0
    maxSnapshots := 2
    keepSnapshots := false
    cancelled := false }

/-- Method `Remove` of a store: records the call, returns the store's error
for that key. -/
def Persister.Remove (p : Persister) (key : Bytes) : Persister × Option Error :=
  ({ p with removed := p.removed ++ [key] }, p.removeErr key)

/-- Method `Remove` of the manager: the manager after the call and the error
returned. -/
def trieStorageManager.Remove (tsm : trieStorageManager) (hash : Bytes) :
    trieStorageManager × Option Error :=
  let tsm := { tsm with checkpointHashesHolder := tsm.checkpointHashesHolder.Remove hash }
  ({ tsm with db := (tsm.db.Remove hash).1 }, (tsm.db.Remove hash).2)

/-- The `for _, sdb := range tsm.snapshots` loop of `Close`, entered with the
error `err` held so far: every handle is closed, and `err` is overwritten by
each close error that is not nil. -/
def closeSnapshots : List snapshotDb → Option Error → List snapshotDb × Option Error
  | [], err => ([], err)
  | sdb :: snapshots, err =>
    let errSnapshotClose := sdb.Close.2
    let err := if errSnapshotClose ≠ none then errSnapshotClose else err
    ((sdb.Close.1) :: (closeSnapshots snapshots err).1, (closeSnapshots snapshots err).2)

/-- Method `Close` of the manager: the manager after the call and the error
returned. -/
def trieStorageManager.Close (tsm : trieStorageManager) : trieStorageManager × Option Error :=
  let tsm := { tsm with cancelled := true }
  let err := tsm.db.Close.2
  let closed := closeSnapshots tsm.snapshots err
  let tsm := { tsm with db := tsm.db.Close.1, snapshots := closed.1 }
  match closed.2 with
  | some err => (tsm, some (.wrapped "trieStorageManager close failed" err))
  | none => (tsm, none)

/-- The worker creating `n` forced new generations one after the other, each
with `getSnapshotDb(true)` returning a store: the manager, the world and the
stores returned, in creation order; `none` when one of the calls returns nil
or is still running after `fuel` tests. -/
def forceNewGenerations (fuel : Nat) :
    Nat → trieStorageManager × World → Option (trieStorageManager × World × List Persister)
  | 0, st => some (st.1, st.2, [])
  | n + 1, st =>
    match st.1.getSnapshotDb fuel st.2 true with
    | some (tsm, w, some db) =>
      match forceNewGenerations fuel n (tsm, w) with
      | some (tsm, w, dbs) => some (tsm, w, db :: dbs)
      | none => none
    | _ => none

/-- Whether the store of a handle contains a hash, as
`GetSnapshotThatContainsHash` tests it: `Get` returns a nil error. -/
def snapshotDb.contains (s : snapshotDb) (rootHash : Bytes) : Bool :=
  (s.Get rootHash).2.isNone

/-- The most recent failure among close results listed in close order: the
last one that is not nil. -/
def lastCloseError : List (Option Error) → Option Error
  | [] => none
  | e :: es =>
    match lastCloseError es with
    | some err => some err
    | none => e

/-- A world like `worldWithFiles files` in which the only paths that exist
are the root directory `snapshots` and the listed entries inside it. -/
def worldWithDisk (files : List FileInfo) : World :=
  { worldWithFiles files with
    directoryExists := fun p =>
      decide (p = "snapshots") || files.any (fun f => decide (pathJoin "snapshots" f.Name = p)) }

/-- A store opened at `path` that holds exactly the given keys, each with
itself as value, and never fails otherwise. -/
def storeWith (path : String) (keys : List Bytes) : Persister :=
  { emptyStore path with
    Get := fun key =>
      if key ∈ keys then (some key, none) else (none, some (.other "key not found")) }

/-- A store opened at `path` whose `Close` returns the error `err`. -/
def failingStore (path : String) (err : Error) : Persister :=
  { emptyStore path with closeErr := some err }

/-- A manager whose registry holds the generations 0, 1 and 2, the hash `[7]`
being present in generation 1 only. -/
def threeGenerations : trieStorageManager :=
  { exampleManager with
    snapshots :=
      [{ DBWriteCacher := storeWith "snapshots/0" [] },
       { DBWriteCacher := storeWith "snapshots/1" [[7]] },
       { DBWriteCacher := storeWith "snapshots/2" [] }]
    snapshotId := 3
    maxSnapshots := 3 }

/-- A manager whose active store fails to close with `db failed` and whose
registry holds three generations of which the middle one fails to close with
`generation 1 failed`. -/
def failingManager : trieStorageManager :=
  { exampleManager with
    db := failingStore "db" (.other "db failed")
    snapshots :=
      [{ DBWriteCacher := emptyStore "snapshots/0" },
       { DBWriteCacher := failingStore "snapshots/1" (.other "generation 1 failed") },
       { DBWriteCacher := emptyStore "snapshots/2" }]
    snapshotId := 3
    maxSnapshots := 3 }

/-- The read source of `takeSnapshot`: the variable `db` after the first two
`if` statements of the method, that is the handle returned by
`GetSnapshotThatContainsHash` when the root is present in the newest entry
and that handle is not nil, the active store `tsm.db` otherwise. -/
def trieStorageManager.readSource (tsm : trieStorageManager) (rootHash : Bytes) : DB :=
  let found : trieStorageManager × Option snapshotDb :=
    if tsm.isPresentInLastSnapshotDb rootHash then
      tsm.GetSnapshotThatContainsHash rootHash
    else (tsm, none)
  match found.2 with
  | some h => .snapshot h
  | none => .active found.1.db

/-- What happens around the worker, one event at a time: a caller's
`TakeSnapshot` or `SetCheckpoint` call completes (its send included), the
`select` of the loop takes the `snapshotReq` case or the `checkpointReq` case,
or it takes the `ctx.Done()` case. -/
inductive LoopEvent where
  | TakeSnapshot (rootHash : Bytes) (newDb : Bool) (leavesChan : Option Nat)
  | SetCheckpoint (rootHash : Bytes) (leavesChan : Option Nat)
  | receiveSnapshot
  | receiveCheckpoint
  | done

/-- A request that the loop has executed, with the method that executed it. -/
inductive Executed where
  | takeSnapshot (entry : snapshotsQueueEntry)
  | takeCheckpoint (entry : snapshotsQueueEntry)
  deriving DecidableEq, Repr

/-- Method `storageProcessLoop` along a sequence of events: the manager and
the world at the end and the requests executed, in execution order; `none`
when a request is still running after `fuel` tests of `newSnapshotDb`.  A
receive case whose channel is empty is not ready and is passed over; a
request received is run to its end before the next event; `ctx.Done()` ends
the loop. -/
def trieStorageManager.storageProcessLoop (EmptyTrieHash : Bytes) (fuel : Nat) :
    List LoopEvent → trieStorageManager × World →
      Option (trieStorageManager × World × List Executed)
  | [], st => some (st.1, st.2, [])
  | .TakeSnapshot rootHash newDb leavesChan :: events, st =>
    storageProcessLoop EmptyTrieHash fuel events
      (st.1.TakeSnapshot EmptyTrieHash rootHash newDb leavesChan, st.2)
  | .SetCheckpoint rootHash leavesChan :: events, st =>
    storageProcessLoop EmptyTrieHash fuel events
      (st.1.SetCheckpoint EmptyTrieHash rootHash leavesChan, st.2)
  | .receiveSnapshot :: events, st =>
    match st.1.snapshotReq with
    | [] => storageProcessLoop EmptyTrieHash fuel events st
    | snapshotRequest :: rest =>
      match ({ st.1 with snapshotReq := rest }).takeSnapshot fuel st.2 snapshotRequest with
      | none => none
      | some st2 =>
        (storageProcessLoop EmptyTrieHash fuel events st2).map
          (fun r => (r.1, r.2.1, .takeSnapshot snapshotRequest :: r.2.2))
  | .receiveCheckpoint :: events, st =>
    match st.1.checkpointReq with
    | [] => storageProcessLoop EmptyTrieHash fuel events st
    | snapshotRequest :: rest =>
      match ({ st.1 with checkpointReq := rest }).takeCheckpoint fuel st.2 snapshotRequest with
      | none => none
      | some st2 =>
        (storageProcessLoop EmptyTrieHash fuel events st2).map
          (fun r => (r.1, r.2.1, .takeCheckpoint snapshotRequest :: r.2.2))
  | .done :: _, st => some (st.1, st.2, [])

/-- The entries that `takeSnapshot` executed, in execution order. -/
def executedSnapshots : List Executed → List snapshotsQueueEntry
  | [] => []
  | .takeSnapshot e :: rest => e :: executedSnapshots rest
  | .takeCheckpoint _ :: rest => executedSnapshots rest

/-- The entries that `takeCheckpoint` executed, in execution order. -/
def executedCheckpoints : List Executed → List snapshotsQueueEntry
  | [] => []
  | .takeSnapshot _ :: rest => executedCheckpoints rest
  | .takeCheckpoint e :: rest => e :: executedCheckpoints rest

/-- Where a goroutine that runs `storageProcessLoop` stands: at its `select`,
inside the call of `takeSnapshot` or of `takeCheckpoint` that it made on the
request it received, or returned after `ctx.Done()`. -/
inductive LoopState where
  | atSelect
  | inTakeSnapshot (snapshotRequest : snapshotsQueueEntry)
  | inTakeCheckpoint (snapshotRequest : snapshotsQueueEntry)
  | returned
  deriving DecidableEq, Repr

/-- The manager, the world and the goroutines that run `storageProcessLoop` on
the manager; `executed` keeps the requests whose call has returned, in the
order of the returns. -/
structure ManagerSystem where
  tsm : trieStorageManager
  w : World
  loops : List LoopState
  executed : List Executed

/-- The system that `NewTrieStorageManager` leaves when it returns the manager
`tsm`: its statement `go tsm.storageProcessLoop(ctx, ...)` has started one
goroutine, which stands at its `select`, and no request has been executed. -/
def ManagerSystem.start (tsm : trieStorageManager) (w : World) : ManagerSystem :=
  { tsm := tsm, w := w, loops := [.atSelect], executed := [] }

/-- Function `NewTrieStorageManager` together with the goroutine it starts:
no system when the constructor returns an error. -/
def NewTrieStorageManager.system (w : World) (args : NewTrieStorageManagerArgs) :
    Option ManagerSystem :=
  (NewTrieStorageManager w args).1.map (fun tsm => ManagerSystem.start tsm w)

/-- What can happen next in a system: a caller's `TakeSnapshot` or
`SetCheckpoint` call completes (its send included), the `select` of the
goroutine number `loop` takes the `snapshotReq` case, the `checkpointReq` case
or the `ctx.Done()` case, or the call of `takeSnapshot` or `takeCheckpoint`
that this goroutine made returns. -/
inductive SystemEvent where
  | TakeSnapshot (rootHash : Bytes) (newDb : Bool) (leavesChan : Option Nat)
  | SetCheckpoint (rootHash : Bytes) (leavesChan : Option Nat)
  | selectSnapshotReq (loop : Nat)
  | selectCheckpointReq (loop : Nat)
  | selectDone (loop : Nat)
  | callReturns (loop : Nat)

/-- One event of a system.  A case of the `select` can be taken only by a
goroutine that stands at the `select`, the receive cases only when their
channel holds a request, which is then taken from the head of the channel and
passed to `takeSnapshot` or `takeCheckpoint`, the `ctx.Done()` case only once
the context is cancelled; a call returns only in the goroutine that made it,
which then stands at its `select` again, and as long as `newSnapshotDb` is
still running after `fuel` tests the call has not returned.  An event that
cannot happen leaves the system as it is.  The effects of a call on the
manager and the world are taken at its return: callers touch the queues, the
counter of pruning-blocking operations and the checkpoint hashes holder only,
which the call does not read before its deferred function. -/
def ManagerSystem.step (EmptyTrieHash : Bytes) (fuel : Nat) (s : ManagerSystem) :
    SystemEvent → ManagerSystem
  | .TakeSnapshot rootHash newDb leavesChan =>
    { s with tsm := s.tsm.TakeSnapshot EmptyTrieHash rootHash newDb leavesChan }
  | .SetCheckpoint rootHash leavesChan =>
    { s with tsm := s.tsm.SetCheckpoint EmptyTrieHash rootHash leavesChan }
  | .selectSnapshotReq loop =>
    match s.loops[loop]?, s.tsm.snapshotReq with
    | some .atSelect, snapshotRequest :: rest =>
      { s with
        tsm := { s.tsm with snapshotReq := rest }
        loops := s.loops.set loop (.inTakeSnapshot snapshotRequest) }
    | _, _ => s
  | .selectCheckpointReq loop =>
    match s.loops[loop]?, s.tsm.checkpointReq with
    | some .atSelect, snapshotRequest :: rest =>
      { s with
        tsm := { s.tsm with checkpointReq := rest }
        loops := s.loops.set loop (.inTakeCheckpoint snapshotRequest) }
    | _, _ => s
  | .selectDone loop =>
    match s.loops[loop]? with
    | some .atSelect =>
      if s.tsm.cancelled then { s with loops := s.loops.set loop .returned } else s
    | _ => s
  | .callReturns loop =>
    match s.loops[loop]? with
    | some (.inTakeSnapshot snapshotRequest) =>
      match s.tsm.takeSnapshot fuel s.w snapshotRequest with
      | none => s
      | some st =>
        { tsm := st.1, w := st.2, loops := s.loops.set loop .atSelect
          executed := s.executed ++ [.takeSnapshot snapshotRequest] }
    | some (.inTakeCheckpoint snapshotRequest) =>
      match s.tsm.takeCheckpoint fuel s.w snapshotRequest with
      | none => s
      | some st =>
        { tsm := st.1, w := st.2, loops := s.loops.set loop .atSelect
          executed := s.executed ++ [.takeCheckpoint snapshotRequest] }
    | _ => s

/-- A system after a sequence of events. -/
def ManagerSystem.run (EmptyTrieHash : Bytes) (fuel : Nat) :
    List SystemEvent → ManagerSystem → ManagerSystem
  | [], s => s
  | event :: events, s =>
    ManagerSystem.run EmptyTrieHash fuel events (s.step EmptyTrieHash fuel event)

/-- The requests whose execution is in progress: those of the goroutines that
are inside a call of `takeSnapshot` or `takeCheckpoint`. -/
def inProgress : List LoopState → List Executed
  | [] => []
  | .inTakeSnapshot e :: rest => .takeSnapshot e :: inProgress rest
  | .inTakeCheckpoint e :: rest => .takeCheckpoint e :: inProgress rest
  | _ :: rest => inProgress rest

/-- The entries that the `TakeSnapshot` calls among the events send on
`snapshotReq`, in the order of the calls. -/
def snapshotSends (EmptyTrieHash : Bytes) : List SystemEvent → List snapshotsQueueEntry
  | [] => []
  | .TakeSnapshot rootHash newDb leavesChan :: events =>
    if rootHash = EmptyTrieHash then snapshotSends EmptyTrieHash events
    else { rootHash := rootHash, newDb := newDb, leavesChan := leavesChan } ::
      snapshotSends EmptyTrieHash events
  | _ :: events => snapshotSends EmptyTrieHash events

/-- The entries that the `SetCheckpoint` calls among the events send on
`checkpointReq`, in the order of the calls. -/
def checkpointSends (EmptyTrieHash : Bytes) : List SystemEvent → List snapshotsQueueEntry
  | [] => []
  | .SetCheckpoint rootHash leavesChan :: events =>
    if rootHash = EmptyTrieHash then checkpointSends EmptyTrieHash events
    else { rootHash := rootHash, newDb := false, leavesChan := leavesChan } ::
      checkpointSends EmptyTrieHash events
  | _ :: events => checkpointSends EmptyTrieHash events

/-- The leaves channels, other than nil, of the requests executed, in the order
of execution. -/
def leavesChansOf : List Executed → List Nat
  | [] => []
  | .takeSnapshot e :: rest => e.leavesChan.toList ++ leavesChansOf rest
  | .takeCheckpoint e :: rest => e.leavesChan.toList ++ leavesChansOf rest

/-- The example manager with one request waiting in each queue: a snapshot of
the root `[1]` and a checkpoint of the root `[2]`, both counted in
`pruningBlockingOps`. -/
def queuedManager : trieStorageManager :=
  { exampleManager with
    snapshotReq := [{ rootHash := [1], newDb := true, leavesChan := none }]
    checkpointReq := [{ rootHash := [2], newDb := false, leavesChan := none }]
    pruningBlockingOps := 2 }

/-- The example manager configured to keep no generation: `maxSnapshots` is 0
and the registry is empty. -/
def zeroMaxSnapshotsManager : trieStorageManager :=
  { exampleManager with maxSnapshots := 0 }

end trie

/-! # Trie node errors (`errors/missingTrieNodeError.go`) -/

namespace errors

/-- The struct `GetNodeFromDBErr`, over the type of the error it wraps. -/
structure GetNodeFromDBErr (α : Type) where
  getErr : α
  key : trie.Bytes

/-- A value of the Go interface `error`, by its dynamic type: `nil`, a
`*GetNodeFromDBErr`, or a value of any other dynamic type, which is named by
its message. -/
inductive error where
  | nil
  | getNodeFromDBErr (e : GetNodeFromDBErr error)
  | other (msg : String)

/-- Function `NewGetNodeFromDBErr`. -/
def NewGetNodeFromDBErr (key : trie.Bytes) (err : error) : GetNodeFromDBErr error :=
  { getErr := err, key := key }

/-- Method `GetKey`. -/
def GetNodeFromDBErr.GetKey {α : Type} (e : GetNodeFromDBErr α) : trie.Bytes := e.key

/-- Function `IsGetNodeFromDBError`.  `IsClosingError` is a function of the
package that is defined in another file; it is taken as a parameter. -/
def IsGetNodeFromDBError (IsClosingError : error → Bool) (err : error) : Bool :=
  match err with
  | .nil => false
  | err =>
    if IsClosingError err then false
    else
      match err with
      | .getNodeFromDBErr _ => true
      | _ => false

end errors

/-! # Block signing rater (`process/rating/blockSigningRater.go`)

`uint32` values are natural numbers, `int32` and `int64` values are integers;
the `int64` sum of `computeRating` is wrapped to 64 bits and its conversion to
`uint32` is a reduction modulo `2^32`. -/

namespace rating

/-- The errors of package `process` that `NewBlockSigningRater` returns. -/
inductive Error where
  | ErrMinRatingSmallerThanOne
  | ErrMaxRatingIsSmallerThanMinRating
  | ErrStartRatingNotBetweenMinAndMax
  | ErrNoChancesProvided
  | ErrNilMinChanceIfZero
  | ErrDuplicateThreshold
  | ErrNoChancesForMaxThreshold
  deriving DecidableEq, Repr

/-- A value of the interface `process.SelectionChance`, by what its two
getters return. -/
structure SelectionChance where
  GetMaxThreshold : Nat
  GetChancePercent : Nat
  deriving DecidableEq, Repr

/-- A value of the interface `process.RatingsStepHandler`, by what the four
getters used by the rater return (`int32` values). -/
structure RatingsStepHandler where
  ProposerIncreaseRatingStep : Int
  ProposerDecreaseRatingStep : Int
  ValidatorIncreaseRatingStep : Int
  ValidatorDecreaseRatingStep : Int
  deriving DecidableEq, Repr

/-- A value of the interface `process.RatingsInfoHandler`, by what the getters
used by `NewBlockSigningRater` return. -/
structure RatingsInfoHandler where
  StartRating : Nat
  MaxRating : Nat
  MinRating : Nat
  SelectionChances : List SelectionChance
  ShardChainRatingsStepHandler : RatingsStepHandler
  MetaChainRatingsStepHandler : RatingsStepHandler
  deriving DecidableEq, Repr

/-- The struct `selectionChance` of the package, which implements
`process.RatingChance`: its getters return the two fields. -/
structure selectionChance where
  maxThreshold : Nat
  chancePercentage : Nat
  deriving DecidableEq, Repr

/-- Method `GetMaxThreshold`. -/
def selectionChance.GetMaxThreshold (c : selectionChance) : Nat := c.maxThreshold

/-- Method `GetChancePercentage`. -/
def selectionChance.GetChancePercentage (c : selectionChance) : Nat := c.chancePercentage

/-- The struct `BlockSigningRater`, without the embedded `RatingReader`. -/
structure BlockSigningRater where
  startRating : Nat
  maxRating : Nat
  minRating : Nat
  shardRatingsStepHandler : RatingsStepHandler
  metaRatingsStepHandler : RatingsStepHandler
  ratingChances : List selectionChance
  deriving DecidableEq, Repr

/-- The loop of `NewBlockSigningRater` over `i = 1 .. len - 1`: whether two
neighbours have the same max threshold. -/
def hasDuplicateThreshold : List selectionChance → Bool
  | a :: b :: rest =>
    if a.GetMaxThreshold = b.GetMaxThreshold then true
    else hasDuplicateThreshold (b :: rest)
  | _ => false

/-- Function `NewBlockSigningRater`.  `sort.Slice` is an insertion sort by max
threshold: it leaves a permutation in which no element has a smaller max
threshold than an element before it; the order it gives to elements of equal
max threshold does not matter, since the constructor then returns
`ErrNilMinChanceIfZero` or `ErrDuplicateThreshold` whatever that order is.
The slice is not empty where it is indexed, its length being that of
`SelectionChances()`. -/
def NewBlockSigningRater (ratingsData : RatingsInfoHandler) :
    Except Error BlockSigningRater :=
  if ratingsData.MinRating < 1 then .error .ErrMinRatingSmallerThanOne
  else if ratingsData.MinRating > ratingsData.MaxRating then
    .error .ErrMaxRatingIsSmallerThanMinRating
  else if ratingsData.MaxRating < ratingsData.StartRating ∨
      ratingsData.MinRating > ratingsData.StartRating then
    .error .ErrStartRatingNotBetweenMinAndMax
  else if ratingsData.SelectionChances.length = 0 then .error .ErrNoChancesProvided
  else
    let ratingChances : List selectionChance :=
      (ratingsData.SelectionChances.map (fun chance =>
        ({ maxThreshold := chance.GetMaxThreshold
           chancePercentage := chance.GetChancePercent } : selectionChance))).insertionSort
        (fun a b => a.GetMaxThreshold ≤ b.GetMaxThreshold)
    match ratingChances with
    | [] => .error .ErrNoChancesProvided
    | first :: rest =>
      if first.GetMaxThreshold > 0 then .error .ErrNilMinChanceIfZero
      else if hasDuplicateThreshold ratingChances then .error .ErrDuplicateThreshold
      else if ((first :: rest).getLast (List.cons_ne_nil first rest)).GetMaxThreshold
          ≠ ratingsData.MaxRating then
        .error .ErrNoChancesForMaxThreshold
      else
        .ok
          { startRating := ratingsData.StartRating
            minRating := ratingsData.MinRating
            maxRating := ratingsData.MaxRating
            shardRatingsStepHandler := ratingsData.ShardChainRatingsStepHandler
            metaRatingsStepHandler := ratingsData.MetaChainRatingsStepHandler
            ratingChances := ratingChances }

/-- Method `computeRating`. -/
def BlockSigningRater.computeRating (bsr : BlockSigningRater) (ratingStep : Int)
    (val : Nat) : Nat :=
  let newVal : Int := trie.wrapInt ((val : Int) + ratingStep)
  if newVal < (bsr.minRating : Int) then bsr.minRating
  else if newVal > (bsr.maxRating : Int) then bsr.maxRating
  else (newVal % 2 ^ 32).toNat

/-- Method `ComputeIncreaseProposer`. -/
def BlockSigningRater.ComputeIncreaseProposer (bsr : BlockSigningRater)
    (previousRating : Nat) : Nat :=
  bsr.computeRating bsr.shardRatingsStepHandler.ProposerIncreaseRatingStep previousRating

/-- Method `ComputeDecreaseProposer`. -/
def BlockSigningRater.ComputeDecreaseProposer (bsr : BlockSigningRater)
    (previousRating : Nat) : Nat :=
  bsr.computeRating bsr.shardRatingsStepHandler.ProposerDecreaseRatingStep previousRating

/-- Method `ComputeIncreaseValidator`. -/
def BlockSigningRater.ComputeIncreaseValidator (bsr : BlockSigningRater)
    (previousRating : Nat) : Nat :=
  bsr.computeRating bsr.shardRatingsStepHandler.ValidatorIncreaseRatingStep previousRating

/-- Method `ComputeDecreaseValidator`. -/
def BlockSigningRater.ComputeDecreaseValidator (bsr : BlockSigningRater)
    (previousRating : Nat) : Nat :=
  bsr.computeRating bsr.shardRatingsStepHandler.ValidatorDecreaseRatingStep previousRating

/-- The loop of `GetChance` over the chances not yet examined: `chance` is the
value of the variable so far. -/
def getChanceLoop (currentRating : Nat) (chance : Nat) : List selectionChance → Nat
  | [] => chance
  | currentChance :: rest =>
    if currentRating > currentChance.GetMaxThreshold then
      getChanceLoop currentRating chance rest
    else currentChance.GetChancePercentage

/-- Method `GetChance`: `none` is the index-out-of-range panic of
`ratingChances[0]` on an empty slice. -/
def BlockSigningRater.GetChance (bsr : BlockSigningRater) (currentRating : Nat) :
    Option Nat :=
  match bsr.ratingChances with
  | [] => none
  | first :: _ =>
    some (getChanceLoop currentRating first.GetChancePercentage bsr.ratingChances)

/-- Whether an integer is a value of type `int32`. -/
def isInt32 (x : Int) : Prop := -(2 ^ 31) ≤ x ∧ x < 2 ^ 31

/-- Example step handler: proposers gain 5 and lose 10, validators gain 1 and
lose 2. -/
def exampleSteps : RatingsStepHandler :=
  { ProposerIncreaseRatingStep := 5
    ProposerDecreaseRatingStep := -10
    ValidatorIncreaseRatingStep := 1
    ValidatorDecreaseRatingStep := -2 }

/-- Example ratings data: ratings from 1 to 100 starting at 50, with the
chances given out of order for the thresholds 0, 50 and 100. -/
def exampleRatingsData : RatingsInfoHandler :=
  { StartRating := 50
    MaxRating := 100
    MinRating := 1
    SelectionChances :=
      [{ GetMaxThreshold := 50, GetChancePercent := 10 },
       { GetMaxThreshold := 0, GetChancePercent := 0 },
       { GetMaxThreshold := 100, GetChancePercent := 20 }]
    ShardChainRatingsStepHandler := exampleSteps
    MetaChainRatingsStepHandler := exampleSteps }

/-- The rater that `NewBlockSigningRater` builds from the example data. -/
def exampleRater : BlockSigningRater :=
  { startRating := 50
    maxRating := 100
    minRating := 1
    shardRatingsStepHandler := exampleSteps
    metaRatingsStepHandler := exampleSteps
    ratingChances :=
      [{ maxThreshold := 0, chancePercentage := 0 },
       { maxThreshold := 50, chancePercentage := 10 },
       { maxThreshold := 100, chancePercentage := 20 }] }

end rating

/-! ## Theorems -/

namespace trie

/-- C1: for a root hash equal to `EmptyTrieHash`, whatever the `newDb` flag and
the leaves channel, `TakeSnapshot` and `SetCheckpoint` return the manager as
it was: `pruningBlockingOps`, the snapshots registry and `snapshotId` are
unchanged, no `RemoveCommitted` call is recorded on the checkpoint hashes
holder and nothing is put on `snapshotReq` or `checkpointReq`. -/
theorem C1_empty_root_is_noop (EmptyTrieHash : Bytes) (tsm : trieStorageManager)
    (newDb : Bool) (leavesChan : Option Nat) :
    (tsm.TakeSnapshot EmptyTrieHash EmptyTrieHash newDb leavesChan = tsm ∧
      tsm.SetCheckpoint EmptyTrieHash EmptyTrieHash leavesChan = tsm) ∧
    ((tsm.TakeSnapshot EmptyTrieHash EmptyTrieHash newDb leavesChan).pruningBlockingOps
        = tsm.pruningBlockingOps ∧
      (tsm.TakeSnapshot EmptyTrieHash EmptyTrieHash newDb leavesChan).snapshots
        = tsm.snapshots ∧
      (tsm.TakeSnapshot EmptyTrieHash EmptyTrieHash newDb leavesChan).snapshotId
        = tsm.snapshotId ∧
      (tsm.TakeSnapshot EmptyTrieHash EmptyTrieHash newDb
          leavesChan).checkpointHashesHolder.removeCommittedCalls
        = tsm.checkpointHashesHolder.removeCommittedCalls ∧
      (tsm.TakeSnapshot EmptyTrieHash EmptyTrieHash newDb leavesChan).snapshotReq
        = tsm.snapshotReq ∧
      (tsm.TakeSnapshot EmptyTrieHash EmptyTrieHash newDb leavesChan).checkpointReq
        = tsm.checkpointReq) ∧
    ((tsm.SetCheckpoint EmptyTrieHash EmptyTrieHash leavesChan).pruningBlockingOps
        = tsm.pruningBlockingOps ∧
      (tsm.SetCheckpoint EmptyTrieHash EmptyTrieHash leavesChan).snapshots = tsm.snapshots ∧
      (tsm.SetCheckpoint EmptyTrieHash EmptyTrieHash leavesChan).snapshotId
        = tsm.snapshotId ∧
      (tsm.SetCheckpoint EmptyTrieHash EmptyTrieHash
          leavesChan).checkpointHashesHolder.removeCommittedCalls
        = tsm.checkpointHashesHolder.removeCommittedCalls ∧
      (tsm.SetCheckpoint EmptyTrieHash EmptyTrieHash leavesChan).snapshotReq
        = tsm.snapshotReq ∧
      (tsm.SetCheckpoint EmptyTrieHash EmptyTrieHash leavesChan).checkpointReq
        = tsm.checkpointReq) := by
  have h1 : tsm.TakeSnapshot EmptyTrieHash EmptyTrieHash newDb leavesChan = tsm := by
    simp [trieStorageManager.TakeSnapshot]
  have h2 : tsm.SetCheckpoint EmptyTrieHash EmptyTrieHash leavesChan = tsm := by
    simp [trieStorageManager.SetCheckpoint]
  rw [h1, h2]
  simp

/-- C8: `NewTrieStorageManager` returns a nil manager and `ErrNilDatabase`
when `DB` is nil; `ErrNilMarshalizer` when `DB` is present and `Marshalizer` is
nil; `ErrNilHasher` when these two are present and `Hasher` is nil;
`ErrNilCheckpointHashesHolder` when these three are present and
`CheckpointHashesHolder` is nil (so the error is that of the first nil
argument in this order); with all four present it returns a manager and a nil
error. -/
theorem C8_nil_dependency_errors (w : World) (db : Persister) (msh : Marshalizer)
    (hsh : Hasher) (holder : CheckpointHashesHolder) (m : Option Marshalizer)
    (h : Option Hasher) (c : Option CheckpointHashesHolder) (cfg : DBConfig)
    (gen : TrieStorageManagerConfig) :
    NewTrieStorageManager w
        { DB := none, Marshalizer := m, Hasher := h, SnapshotDbConfig := cfg,
          GeneralConfig := gen, CheckpointHashesHolder := c }
      = (none, some .ErrNilDatabase) ∧
    NewTrieStorageManager w
        { DB := some db, Marshalizer := none, Hasher := h, SnapshotDbConfig := cfg,
          GeneralConfig := gen, CheckpointHashesHolder := c }
      = (none, some .ErrNilMarshalizer) ∧
    NewTrieStorageManager w
        { DB := some db, Marshalizer := some msh, Hasher := none, SnapshotDbConfig := cfg,
          GeneralConfig := gen, CheckpointHashesHolder := c }
      = (none, some .ErrNilHasher) ∧
    NewTrieStorageManager w
        { DB := some db, Marshalizer := some msh, Hasher := some hsh,
          SnapshotDbConfig := cfg, GeneralConfig := gen, CheckpointHashesHolder := none }
      = (none, some .ErrNilCheckpointHashesHolder) ∧
    (NewTrieStorageManager w
        { DB := some db, Marshalizer := some msh, Hasher := some hsh,
          SnapshotDbConfig := cfg, GeneralConfig := gen,
          CheckpointHashesHolder := some holder }).2 = none ∧
    (NewTrieStorageManager w
        { DB := some db, Marshalizer := some msh, Hasher := some hsh,
          SnapshotDbConfig := cfg, GeneralConfig := gen,
          CheckpointHashesHolder := some holder }).1.isSome = true := by
  simp [NewTrieStorageManager]

/-- C10: `ExitPruningBufferingMode` called with `pruningBlockingOps` equal to 0
returns the manager unchanged (the counter stays 0 and does not wrap to
`2^32 - 1`, no other field changes); called with the counter equal to `n + 1`
it sets the counter to exactly `n` and changes no other field. -/
theorem C10_exit_clamps_at_zero (tsm : trieStorageManager) (n : Nat) :
    ({ tsm with pruningBlockingOps := 0 }).ExitPruningBufferingMode
      = { tsm with pruningBlockingOps := 0 } ∧
    (({ tsm with pruningBlockingOps := 0 }).ExitPruningBufferingMode).pruningBlockingOps = 0 ∧
    ({ tsm with pruningBlockingOps := n + 1 }).ExitPruningBufferingMode
      = { tsm with pruningBlockingOps := n } := by
  simp [trieStorageManager.ExitPruningBufferingMode]

/-- The counter never exceeds the number of `Enter` calls not yet matched by an
`Exit` call: started at most `d`, after calls none of whose prefixes has more
than `d` unmatched `Exit` calls, it is at most `d` plus the `Enter` calls
minus the `Exit` calls. -/
theorem applyPruningCalls_le (calls : List PruningCall) :
    ∀ (tsm : trieStorageManager) (d : Nat), tsm.pruningBlockingOps ≤ d →
      (∀ k, (calls.take k).count .Exit ≤ d + (calls.take k).count .Enter) →
      (applyPruningCalls calls tsm).pruningBlockingOps + calls.count .Exit
        ≤ d + calls.count .Enter := by
  induction calls with
  | nil => intro tsm d h _; simpa [applyPruningCalls] using h
  | cons c cs ih =>
    intro tsm d h hpre
    cases c with
    | Enter =>
      have hstep : tsm.EnterPruningBufferingMode.pruningBlockingOps ≤ d + 1 := by
        have := Nat.mod_le (tsm.pruningBlockingOps + 1) (2 ^ 32)
        simp only [trieStorageManager.EnterPruningBufferingMode, wrapUint32]
        omega
      have hpre2 : ∀ k, (cs.take k).count .Exit ≤ (d + 1) + (cs.take k).count .Enter := by
        intro k
        have := hpre (k + 1)
        simp [List.take, List.count_cons] at this
        omega
      have := ih tsm.EnterPruningBufferingMode (d + 1) hstep hpre2
      simp [applyPruningCalls, List.count_cons]
      omega
    | Exit =>
      have hd : 1 ≤ d := by
        have := hpre 1
        simp [List.take, List.count_cons] at this
        exact this
      have hstep : tsm.ExitPruningBufferingMode.pruningBlockingOps ≤ d - 1 := by
        unfold trieStorageManager.ExitPruningBufferingMode
        split
        · omega
        · simp only; omega
      have hpre2 : ∀ k, (cs.take k).count .Exit ≤ (d - 1) + (cs.take k).count .Enter := by
        intro k
        have := hpre (k + 1)
        simp [List.take, List.count_cons] at this
        omega
      have := ih tsm.ExitPruningBufferingMode (d - 1) hstep hpre2
      simp [applyPruningCalls, List.count_cons]
      omega

/-- C9: starting from `pruningBlockingOps = 0`, after any finite sequence of
`EnterPruningBufferingMode` / `ExitPruningBufferingMode` calls that is balanced
(as many `Enter` as `Exit` calls, and no prefix with more `Exit` than `Enter`
calls), of any length, `IsPruningBlocked()` is false. -/
theorem C9_balanced_calls_leave_pruning_unblocked (tsm : trieStorageManager)
    (calls : List PruningCall) (h0 : tsm.pruningBlockingOps = 0)
    (hbal : calls.count .Enter = calls.count .Exit)
    (hpre : ∀ k, (calls.take k).count .Exit ≤ (calls.take k).count .Enter) :
    (applyPruningCalls calls tsm).IsPruningBlocked = false := by
  have h := applyPruningCalls_le calls tsm 0 (by omega) (by intro k; have := hpre k; omega)
  have hz : (applyPruningCalls calls tsm).pruningBlockingOps = 0 := by omega
  simp [trieStorageManager.IsPruningBlocked, hz]

/-- C9 at the calls Enter, Exit, Enter, Enter, Exit, Exit on a fresh manager. -/
theorem C9_balanced_calls_witness :
    exampleManager.pruningBlockingOps = 0 ∧
    (applyPruningCalls [.Enter, .Exit, .Enter, .Enter, .Exit, .Exit]
      exampleManager).IsPruningBlocked = false :=
  ⟨rfl, C9_balanced_calls_leave_pruning_unblocked exampleManager
    [.Enter, .Exit, .Enter, .Enter, .Exit, .Exit] rfl (by decide)
    (by
      intro k
      rcases k with _ | _ | _ | _ | _ | _ | _ | k <;> simp [List.take, List.count_cons])⟩

/-- Method `disconnectSnapshot` closes no leaves channel. -/
theorem disconnectSnapshot_closedChans (tsm : trieStorageManager) (w : World) :
    (tsm.disconnectSnapshot w).2.closedChans = w.closedChans := by
  unfold trieStorageManager.disconnectSnapshot
  split
  · rfl
  · split <;> rfl

/-- Method `removeSnapshot` closes no leaves channel. -/
theorem removeSnapshot_closedChans (tsm : trieStorageManager) (w : World) :
    (tsm.removeSnapshot w).2.closedChans = w.closedChans := by
  unfold trieStorageManager.removeSnapshot
  split
  · rfl
  · simp only
    split
    · rfl
    · unfold removeSnapshot
      split <;> rfl

/-- Method `newSnapshotDb` closes no leaves channel. -/
theorem newSnapshotDb_closedChans (fuel : Nat) (tsm : trieStorageManager) (w : World)
    (r : trieStorageManager × World × Except Error Persister)
    (h : tsm.newSnapshotDb fuel w = some r) : r.2.1.closedChans = w.closedChans := by
  unfold trieStorageManager.newSnapshotDb at h
  split at h
  · cases h
  · simp only at h
    split at h <;> (cases h; rfl)

/-- Method `newSnapshotDb` returns when its loop finds a free id within the fuel. -/
theorem newSnapshotDb_isSome (fuel : Nat) (tsm : trieStorageManager) (w : World)
    (h : (findFreeSnapshotId w tsm.snapshotDbCfg fuel tsm.snapshotId).isSome = true) :
    (tsm.newSnapshotDb fuel w).isSome = true := by
  unfold trieStorageManager.newSnapshotDb
  split
  · rename_i h2; rw [h2] at h; cases h
  · simp only
    split <;> rfl

/-- Method `getSnapshotDb` closes no leaves channel. -/
theorem getSnapshotDb_closedChans (fuel : Nat) (tsm : trieStorageManager) (w : World)
    (newDb : Bool) (r : trieStorageManager × World × Option Persister)
    (h : tsm.getSnapshotDb fuel w newDb = some r) : r.2.1.closedChans = w.closedChans := by
  unfold trieStorageManager.getSnapshotDb at h
  simp only at h
  split at h
  · cases h; rfl
  · split at h
    · cases h
    · rename_i h2; cases h; exact newSnapshotDb_closedChans _ _ _ _ h2
    · rename_i h2
      have := newSnapshotDb_closedChans _ _ _ _ h2
      split at h
      · split at h
        · cases h; simp [disconnectSnapshot_closedChans]; exact this
        · cases h; simp [removeSnapshot_closedChans]; exact this
      · cases h; exact this

/-- Method `getSnapshotDb` returns when the loop of `newSnapshotDb` finds a free id within the fuel. -/
theorem getSnapshotDb_isSome (fuel : Nat) (tsm : trieStorageManager) (w : World)
    (newDb : Bool)
    (h : (findFreeSnapshotId w tsm.snapshotDbCfg fuel tsm.snapshotId).isSome = true) :
    (tsm.getSnapshotDb fuel w newDb).isSome = true := by
  unfold trieStorageManager.getSnapshotDb
  simp only
  split
  · rfl
  · have := newSnapshotDb_isSome fuel tsm w h
    split
    · rename_i h2; rw [h2] at this; cases this
    · rfl
    · split
      · split <;> rfl
      · rfl

/-- Method `GetSnapshotThatContainsHash` changes neither `snapshotId` nor the store configuration. -/
theorem GetSnapshotThatContainsHash_frame (tsm : trieStorageManager) (rootHash : Bytes) :
    (tsm.GetSnapshotThatContainsHash rootHash).1.snapshotId = tsm.snapshotId ∧
    (tsm.GetSnapshotThatContainsHash rootHash).1.snapshotDbCfg = tsm.snapshotDbCfg := by
  unfold trieStorageManager.GetSnapshotThatContainsHash
  split
  · exact ⟨rfl, rfl⟩
  · split <;> exact ⟨rfl, rfl⟩

/-- The deferred function closes the leaves channel of the entry once when it is not nil, and no other channel. -/
theorem deferredFinish_closedChans (e : snapshotsQueueEntry) (tsm : trieStorageManager)
    (w : World) :
    (deferredFinish e tsm w).2.closedChans = w.closedChans ++ e.leavesChan.toList := by
  unfold deferredFinish
  cases e.leavesChan <;> simp

/-- The loop of `newSnapshotDb` ends within `fuel` tests when the directory of its test number `k < fuel` does not exist. -/
theorem findFreeSnapshotId_isSome (w : World) (cfg : DBConfig) :
    ∀ (fuel : Nat) (snapshotId : Int) (k : Nat), k < fuel →
      w.directoryExists (pathJoin cfg.FilePath (Itoa (nextSnapshotIds snapshotId k))) = false →
      (findFreeSnapshotId w cfg fuel snapshotId).isSome = true := by
  intro fuel
  induction fuel with
  | zero => intro _ k hk; omega
  | succ fuel ih =>
    intro snapshotId k hk hfree
    unfold findFreeSnapshotId
    split
    · rename_i hex
      cases k with
      | zero => simp [nextSnapshotIds, hex] at hfree
      | succ k => exact ih _ k (by omega) (by simpa [nextSnapshotIds] using hfree)
    · rfl

/-- Recording a call changes nothing of the world but the list of calls. -/
theorem World.record_frame (w : World) (call : ExternalCall) :
    (w.record call).directoryExists = w.directoryExists ∧
    (w.record call).NewDB = w.NewDB ∧
    (w.record call).closedChans = w.closedChans ∧
    (w.record call).removeDirectoryCalls = w.removeDirectoryCalls ∧
    (w.record call).evicted = w.evicted ∧
    (w.record call).calls = w.calls ++ [call] :=
  ⟨rfl, rfl, rfl, rfl, rfl, rfl⟩

/-- The loop of `newSnapshotDb` depends on the world through the existence of
directories only. -/
theorem findFreeSnapshotId_congr (w w2 : World) (cfg : DBConfig)
    (h : w2.directoryExists = w.directoryExists) :
    ∀ (fuel : Nat) (snapshotId : Int),
      findFreeSnapshotId w2 cfg fuel snapshotId = findFreeSnapshotId w cfg fuel snapshotId := by
  intro fuel
  induction fuel with
  | zero => intro _; rfl
  | succ fuel ih =>
    intro snapshotId
    simp only [findFreeSnapshotId, h, ih]

/-- Method `takeSnapshot` returns, whatever the outcome of loading the root, creating the generation and walking the trie, and on return it has closed the leaves channel of the entry exactly once when it is not nil, and no other channel. -/
theorem takeSnapshot_closes_leavesChan (fuel : Nat) (tsm : trieStorageManager) (w : World)
    (e : snapshotsQueueEntry)
    (h : (findFreeSnapshotId w tsm.snapshotDbCfg fuel tsm.snapshotId).isSome = true) :
    ∃ st, tsm.takeSnapshot fuel w e = some st ∧
      st.2.closedChans = w.closedChans ++ e.leavesChan.toList := by
  have hf := GetSnapshotThatContainsHash_frame tsm e.rootHash
  unfold trieStorageManager.takeSnapshot
  simp only
  generalize hfound : (if tsm.isPresentInLastSnapshotDb e.rootHash = true then
      tsm.GetSnapshotThatContainsHash e.rootHash else (tsm, none)) = found
  have hid : found.1.snapshotId = tsm.snapshotId ∧ found.1.snapshotDbCfg = tsm.snapshotDbCfg := by
    rw [← hfound]; split
    · exact hf
    · exact ⟨rfl, rfl⟩
  generalize hdb : (match found.2 with
      | some h => DB.snapshot h
      | none => DB.active found.1.db) = db
  split
  · exact ⟨_, rfl, deferredFinish_closedChans _ _ _⟩
  · have hsome := getSnapshotDb_isSome fuel found.1
      (w.record (.getNodeFromDBAndDecode e.rootHash db)) e.newDb
      (by
        rw [findFreeSnapshotId_congr w (w.record (.getNodeFromDBAndDecode e.rootHash db)) _ rfl,
          hid.1, hid.2]
        exact h)
    split
    · rename_i h2; rw [h2] at hsome; cases hsome
    · rename_i h2
      have := getSnapshotDb_closedChans _ _ _ _ _ h2
      refine ⟨_, rfl, ?_⟩
      simp [deferredFinish_closedChans]; exact this
    · rename_i h2
      have := getSnapshotDb_closedChans _ _ _ _ _ h2
      split
      · refine ⟨_, rfl, ?_⟩
        simp [deferredFinish_closedChans]; exact this
      · refine ⟨_, rfl, ?_⟩
        simp [deferredFinish_closedChans]; exact this

/-- A call of `TakeSnapshot` with a root hash other than `EmptyTrieHash` and a
leaves channel `ch` puts exactly one entry on `snapshotReq`; when the worker
runs `takeSnapshot` on it, in whatever state `st` the manager and the world
then are, provided one of the first `fuel` generation directories tested by
`newSnapshotDb` does not exist, the call returns and `ch` has been closed
exactly once more. -/
theorem TakeSnapshot_nonempty_root_closes_once (EmptyTrieHash : Bytes)
    (tsm : trieStorageManager) (rootHash : Bytes) (newDb : Bool) (ch fuel k : Nat)
    (st : trieStorageManager × World) (hroot : rootHash ≠ EmptyTrieHash) (hk : k < fuel)
    (hfree : st.2.directoryExists (pathJoin st.1.snapshotDbCfg.FilePath
      (Itoa (nextSnapshotIds st.1.snapshotId k))) = false) :
    ∃ st2, runSnapshotRequests fuel
        (enqueuedBy tsm (tsm.TakeSnapshot EmptyTrieHash rootHash newDb (some ch))) st = some st2 ∧
      st2.2.closedChans.count ch = st.2.closedChans.count ch + 1 := by
  have hq : enqueuedBy tsm (tsm.TakeSnapshot EmptyTrieHash rootHash newDb (some ch))
      = [{ rootHash := rootHash, newDb := newDb, leavesChan := some ch }] := by
    simp [enqueuedBy, trieStorageManager.TakeSnapshot, hroot,
      trieStorageManager.EnterPruningBufferingMode]
  obtain ⟨st2, h1, h2⟩ := takeSnapshot_closes_leavesChan fuel st.1 st.2
    { rootHash := rootHash, newDb := newDb, leavesChan := some ch }
    (findFreeSnapshotId_isSome st.2 st.1.snapshotDbCfg fuel st.1.snapshotId k hk hfree)
  refine ⟨st2, ?_, ?_⟩
  · rw [hq]; simp [runSnapshotRequests, h1]
  · rw [h2]; simp

/-- C2 at the failing input: for the root hash `EmptyTrieHash` and a non-nil
leaves channel `ch`, `TakeSnapshot` puts nothing on `snapshotReq`, so the
worker executing what the call enqueued runs nothing and leaves the manager
and the world as they are: `ch` has been closed zero times, not once. -/
theorem C2_empty_root_leaves_channel_open (EmptyTrieHash : Bytes)
    (tsm : trieStorageManager) (w : World) (newDb : Bool) (ch fuel : Nat) :
    enqueuedBy tsm (tsm.TakeSnapshot EmptyTrieHash EmptyTrieHash newDb (some ch)) = [] ∧
    runSnapshotRequests fuel
        (enqueuedBy tsm (tsm.TakeSnapshot EmptyTrieHash EmptyTrieHash newDb (some ch)))
        (tsm.TakeSnapshot EmptyTrieHash EmptyTrieHash newDb (some ch), w) = some (tsm, w) ∧
    (runSnapshotRequests fuel
        (enqueuedBy tsm (tsm.TakeSnapshot EmptyTrieHash EmptyTrieHash newDb (some ch)))
        (tsm.TakeSnapshot EmptyTrieHash EmptyTrieHash newDb (some ch), w)).map
      (fun st => st.2.closedChans.count ch) = some (w.closedChans.count ch) := by
  have h1 : tsm.TakeSnapshot EmptyTrieHash EmptyTrieHash newDb (some ch) = tsm := by
    simp [trieStorageManager.TakeSnapshot]
  rw [h1]
  simp [enqueuedBy, runSnapshotRequests]

/-- In a map with at most one pair per key, looking a key up finds the value
paired with it. -/
theorem lookup_of_mem (m : SnapshotsMap) (hm : (m.map Prod.fst).Nodup) (k : Int)
    (v : snapshotDb) (h : (k, v) ∈ m) : m.lookup k = some v := by
  induction m with
  | nil => cases h
  | cons p m ih =>
    obtain ⟨k1, v1⟩ := p
    simp only [List.map_cons, List.nodup_cons] at hm
    rcases List.mem_cons.1 h with h | h
    · cases h; simp [List.lookup]
    · have hne : k ≠ k1 := by
        intro hk
        apply hm.1
        rw [← hk]
        exact List.mem_map_of_mem Prod.fst h
      have : (k == k1) = false := by simpa using hne
      simp only [List.lookup, this]
      exact ih hm.2 h

/-- The function `getOrderedSnapshots` returns the values of the map in strictly
ascending key order, one per pair of the map. -/
theorem getOrderedSnapshots_sorted (m : SnapshotsMap) (hm : (m.map Prod.fst).Nodup) :
    ∃ ps : List (Int × snapshotDb), ps.Perm m ∧ (ps.map Prod.fst).Sorted (· < ·) ∧
      getOrderedSnapshots m = ps.map Prod.snd := by
  refine ⟨m.insertionSort (fun a b => a.1 ≤ b.1), List.perm_insertionSort _ m, ?_, ?_⟩
  · have hmap : (m.insertionSort (fun a b => a.1 ≤ b.1)).map Prod.fst
        = (m.map Prod.fst).insertionSort (· ≤ ·) :=
      List.map_insertionSort (fun a b => a.1 ≤ b.1) (· ≤ ·) Prod.fst m
        (fun a _ b _ => Iff.rfl)
    rw [hmap]
    apply List.Sorted.lt_of_le (List.sorted_insertionSort _ _)
    exact (List.perm_insertionSort _ _).nodup_iff.2 hm
  · have hmap : (m.insertionSort (fun a b => a.1 ≤ b.1)).map Prod.fst
        = (m.map Prod.fst).insertionSort (· ≤ ·) :=
      List.map_insertionSort (fun a b => a.1 ≤ b.1) (· ≤ ·) Prod.fst m
        (fun a _ b _ => Iff.rfl)
    unfold getOrderedSnapshots
    simp only
    rw [← hmap, List.filterMap_map]
    rw [List.filterMap_congr (g := fun p => some p.2)]
    · show List.filterMap (some ∘ Prod.snd) _ = _
      rw [List.filterMap_eq_map]
    · intro p hp
      have hp2 : p ∈ m := (List.perm_insertionSort _ m).mem_iff.1 hp
      exact lookup_of_mem m hm p.1 p.2 hp2


/-- A pair of the map after `snapshotsMap[key] = value` is the new pair or a
pair of the map before. -/
theorem mem_set (m : SnapshotsMap) (k : Int) (v : snapshotDb) (p : Int × snapshotDb)
    (h : p ∈ m.set k v) : p = (k, v) ∨ p ∈ m := by
  unfold SnapshotsMap.set at h
  rcases List.mem_cons.1 h with h | h
  · exact Or.inl h
  · exact Or.inr (List.mem_filter.1 h).1

/-- The assignment `snapshotsMap[key] = value` keeps at most one pair per key. -/
theorem nodup_set (m : SnapshotsMap) (k : Int) (v : snapshotDb)
    (hm : (m.map Prod.fst).Nodup) : ((m.set k v).map Prod.fst).Nodup := by
  unfold SnapshotsMap.set
  simp only [List.map_cons, List.nodup_cons]
  constructor
  · intro hk
    obtain ⟨p, hp, hpk⟩ := List.mem_map.1 hk
    have := (List.mem_filter.1 hp).2
    simp at this
    exact this hpk
  · exact (List.Nodup.sublist ((List.filter_sublist m).map Prod.fst) hm)

/-- Assigning to a key that the map does not hold adds one pair and keeps the
others. -/
theorem set_of_not_mem (m : SnapshotsMap) (k : Int) (v : snapshotDb)
    (hk : k ∉ m.map Prod.fst) : m.set k v = (k, v) :: m := by
  unfold SnapshotsMap.set
  congr 1
  apply List.filter_eq_self.2
  intro p hp
  simp only [ne_eq, decide_not, Bool.not_eq_eq_eq_not, Bool.not_true, decide_eq_false_iff_not]
  intro hpk
  exact hk (hpk ▸ List.mem_map_of_mem Prod.fst hp)

/-- The restore loop keeps at most one pair per key in the map. -/
theorem restoreLoop_nodup (w : World) (cfg : DBConfig) (files : List FileInfo) :
    ∀ (m : SnapshotsMap) (id : Int), (m.map Prod.fst).Nodup →
      (((restoreLoop w cfg files m id).1).map Prod.fst).Nodup := by
  induction files with
  | nil => intro m id hm; simpa [restoreLoop] using hm
  | cons f files ih =>
    intro m id hm
    unfold restoreLoop
    split
    · exact ih m id hm
    · split
      · exact hm
      · split
        · exact hm
        · exact ih _ _ (nodup_set m _ _ hm)

/-- When the name of a subdirectory is rejected by `strconv.Atoi`, the restore
loop leaves with an error, and every pair of the map it leaves with was in the
map at the start or was restored from a subdirectory listed before that one. -/
theorem restoreLoop_rejected (w : World) (cfg : DBConfig) (f : FileInfo)
    (post : List FileInfo) (e : Error) (hdir : f.IsDir = true)
    (hname : Atoi f.Name = .error e) (pre : List FileInfo) :
    ∀ (m : SnapshotsMap) (id : Int),
      (restoreLoop w cfg (pre ++ f :: post) m id).2.2 ≠ none ∧
      ∀ p ∈ (restoreLoop w cfg (pre ++ f :: post) m id).1,
        p ∈ m ∨ ∃ g ∈ pre, g.IsDir = true ∧ restoredEntry w cfg g = some p := by
  induction pre with
  | nil =>
    intro m id
    simp only [List.nil_append]
    unfold restoreLoop
    simp [hdir, hname]
  | cons g pre ih =>
    intro m id
    simp only [List.cons_append]
    unfold restoreLoop
    split
    · obtain ⟨h1, h2⟩ := ih m id
      refine ⟨h1, fun p hp => ?_⟩
      rcases h2 p hp with h | ⟨g2, hg2, h⟩
      · exact Or.inl h
      · exact Or.inr ⟨g2, List.mem_cons_of_mem _ hg2, h⟩
    · rename_i hgdir
      split
      · exact ⟨by simp, fun p hp => Or.inl hp⟩
      · rename_i n hn
        split
        · exact ⟨by simp, fun p hp => Or.inl hp⟩
        · rename_i db hdb
          obtain ⟨h1, h2⟩ := ih (m.set n { DBWriteCacher := db }) (if n > id then n else id)
          refine ⟨h1, fun p hp => ?_⟩
          rcases h2 p hp with h | ⟨g2, hg2, h⟩
          · rcases mem_set _ _ _ _ h with h | h
            · refine Or.inr ⟨g, List.mem_cons_self _ _, by simpa using hgdir, ?_⟩
              simp [restoredEntry, hn, hdb, h]
            · exact Or.inl h
          · exact Or.inr ⟨g2, List.mem_cons_of_mem _ hg2, h⟩


/-- What the restore loop enters for a directory entry is keyed by the value
that `strconv.Atoi` gives to its name. -/
theorem restoredEntry_eq_some (w : World) (cfg : DBConfig) (f : FileInfo)
    (p : Int × snapshotDb) (h : restoredEntry w cfg f = some p) :
    Atoi f.Name = .ok p.1 ∧
      ∃ db, w.NewDB (snapshotArgDB cfg f.Name) = .ok db ∧ p.2 = { DBWriteCacher := db } := by
  unfold restoredEntry at h
  split at h
  · rename_i n db hn hdb
    cases h
    exact ⟨hn, db, hdb, rfl⟩
  · cases h

/-- When every subdirectory is restored and the numeric names are pairwise
distinct and not yet in the map, the restore loop leaves without error and has
added one pair per subdirectory to the map. -/
theorem restoreLoop_all_restored (w : World) (cfg : DBConfig) (files : List FileInfo) :
    ∀ (m : SnapshotsMap) (id : Int),
      (∀ f ∈ files, f.IsDir = true → (restoredEntry w cfg f).isSome = true) →
      ((((files.filter (fun f => f.IsDir)).filterMap (restoredEntry w cfg)).map Prod.fst)
        ++ m.map Prod.fst).Nodup →
      (restoreLoop w cfg files m id).1
          = ((files.filter (fun f => f.IsDir)).filterMap (restoredEntry w cfg)).reverse ++ m ∧
        (restoreLoop w cfg files m id).2.2 = none := by
  induction files with
  | nil => intro m id _ _; simp [restoreLoop]
  | cons f files ih =>
    intro m id hall hnd
    have hall2 : ∀ g ∈ files, g.IsDir = true → (restoredEntry w cfg g).isSome = true :=
      fun g hg => hall g (List.mem_cons_of_mem _ hg)
    unfold restoreLoop
    split
    · rename_i hdir
      have hdir2 : f.IsDir = false := by simpa using hdir
      simp only [List.filter_cons, hdir2] at hnd ⊢
      exact ih m id hall2 hnd
    · rename_i hdir
      have hdir2 : f.IsDir = true := by simpa using hdir
      have hsome := hall f (List.mem_cons_self _ _) hdir2
      obtain ⟨p, hp⟩ := Option.isSome_iff_exists.1 hsome
      obtain ⟨hn, db, hdb, hp2⟩ := restoredEntry_eq_some w cfg f p hp
      simp only [List.filter_cons, hdir2, if_true, List.filterMap_cons, hp, List.map_cons,
        List.cons_append, List.nodup_cons, List.reverse_cons, List.append_assoc,
        List.singleton_append] at hnd ⊢
      rw [hn]
      simp only
      rw [hdb]
      simp only
      have hnotin : p.1 ∉ m.map Prod.fst := fun hmem =>
        hnd.1 (List.mem_append_right _ hmem)
      rw [set_of_not_mem m p.1 _ hnotin]
      have hpeq : (p.1, ({ DBWriteCacher := db } : snapshotDb)) = p := by
        rw [← hp2]
      rw [hpeq]
      apply ih (p :: m) _ hall2
      have : ((List.filterMap (restoredEntry w cfg)
            (List.filter (fun f => f.IsDir) files)).map Prod.fst ++ (p :: m).map Prod.fst).Perm
          (p.1 :: ((List.filterMap (restoredEntry w cfg)
            (List.filter (fun f => f.IsDir) files)).map Prod.fst ++ m.map Prod.fst)) := by
        simp only [List.map_cons]
        exact List.perm_middle
      exact this.nodup_iff.2 (List.nodup_cons.2 hnd)

/-- Subdirectories whose names `strconv.Atoi` reads as pairwise distinct
numbers are entered under pairwise distinct keys. -/
theorem restoredEntry_keys_nodup (w : World) (cfg : DBConfig) (dirs : List FileInfo)
    (h : dirs.Pairwise (fun f g => Atoi f.Name ≠ Atoi g.Name)) :
    ((dirs.filterMap (restoredEntry w cfg)).map Prod.fst).Nodup := by
  induction dirs with
  | nil => simp
  | cons d dirs ih =>
    obtain ⟨hd, hrest⟩ := List.pairwise_cons.1 h
    simp only [List.filterMap_cons]
    split
    · exact ih hrest
    · rename_i p hp
      simp only [List.map_cons, List.nodup_cons]
      refine ⟨?_, ih hrest⟩
      intro hmem
      obtain ⟨q, hq, hqk⟩ := List.mem_map.1 hmem
      obtain ⟨g, hg, hgq⟩ := List.mem_filterMap.1 hq
      have h1 := (restoredEntry_eq_some w cfg d p hp).1
      have h2 := (restoredEntry_eq_some w cfg g q hgq).1
      exact hd g hg (by rw [h1, h2, hqk])

/-- When the restore loop leaves without error, the `snapshotId` it leaves with
is at least the one it started with and at least every numeric subdirectory
name, it is the starting one or one of these names, and the map is empty
exactly when it was empty at the start and no entry is a directory. -/
theorem restoreLoop_snapshotId (w : World) (cfg : DBConfig) (files : List FileInfo) :
    ∀ (m : SnapshotsMap) (id : Int), (restoreLoop w cfg files m id).2.2 = none →
      id ≤ (restoreLoop w cfg files m id).2.1 ∧
      (∀ f ∈ files, f.IsDir = true →
        ∃ n, Atoi f.Name = .ok n ∧ n ≤ (restoreLoop w cfg files m id).2.1) ∧
      ((restoreLoop w cfg files m id).2.1 = id ∨
        ∃ f ∈ files, f.IsDir = true ∧ Atoi f.Name = .ok (restoreLoop w cfg files m id).2.1) ∧
      ((restoreLoop w cfg files m id).1 = [] ↔
        m = [] ∧ ∀ f ∈ files, f.IsDir = false) := by
  induction files with
  | nil => intro m id _; simp [restoreLoop]
  | cons f files ih =>
    intro m id
    unfold restoreLoop
    split
    · rename_i hdir
      have hdir2 : f.IsDir = false := by simpa using hdir
      intro herr
      obtain ⟨h1, h2, h3, h4⟩ := ih m id herr
      refine ⟨h1, ?_, ?_, ?_⟩
      · intro g hg hgd
        rcases List.mem_cons.1 hg with h | h
        · rw [h, hdir2] at hgd; cases hgd
        · exact h2 g h hgd
      · rcases h3 with h | ⟨g, hg, h⟩
        · exact Or.inl h
        · exact Or.inr ⟨g, List.mem_cons_of_mem _ hg, h⟩
      · rw [h4]
        simp [hdir2]
    · rename_i hdir
      have hdir2 : f.IsDir = true := by simpa using hdir
      split
      · intro herr; cases herr
      · rename_i n hn
        split
        · intro herr; cases herr
        · rename_i db hdb
          intro herr
          have hid : id ≤ (if n > id then n else id) ∧ n ≤ (if n > id then n else id) ∧
              ((if n > id then n else id) = id ∨ (n > id ∧ (if n > id then n else id) = n)) := by
            split <;> omega
          simp only at herr ⊢
          generalize (if n > id then n else id) = id2 at hid herr ⊢
          obtain ⟨h1, h2, h3, h4⟩ := ih (m.set n { DBWriteCacher := db }) id2 herr
          refine ⟨by omega, ?_, ?_, ?_⟩
          · intro g hg hgd
            rcases List.mem_cons.1 hg with h | h
            · exact ⟨n, by rw [h]; exact hn, by omega⟩
            · exact h2 g h hgd
          · rcases h3 with h | ⟨g, hg, h⟩
            · rcases hid.2.2 with h5 | h5
              · left; omega
              · right
                refine ⟨f, List.mem_cons_self _ _, hdir2, ?_⟩
                rw [h, h5.2]; exact hn
            · exact Or.inr ⟨g, List.mem_cons_of_mem _ hg, h⟩
          · rw [h4]
            simp [SnapshotsMap.set, hdir2]

/-- A string that is not an optional sign followed by one or more decimal
digits contains a byte at which the loop of `strconv.ParseUint` fails. -/
theorem parseUintLoop_error (s0 : String) (digits : List Char)
    (h : digits.all isDecimalDigit = false) :
    ∀ n, ∃ e, parseUintLoop s0 digits n = .error e := by
  induction digits with
  | nil => simp at h
  | cons c cs ih =>
    intro n
    unfold parseUintLoop
    split
    · rename_i hc
      split
      · exact ⟨_, rfl⟩
      · split
        · exact ⟨_, rfl⟩
        · apply ih
          have hc2 : isDecimalDigit c = true := by simpa [isDecimalDigit] using hc
          simpa [List.all_cons, hc2] using h
    · exact ⟨_, rfl⟩

/-- The function `strconv.Atoi` rejects every string that is not an optional
sign followed by one or more decimal digits. -/
theorem Atoi_error_of_syntax (s : String) (h : signedDecimalSyntax s = false) :
    ∃ e, Atoi s = .error e := by
  unfold signedDecimalSyntax at h
  unfold Atoi
  split
  · exact ⟨_, rfl⟩
  · rename_i c cs hs
    rw [hs] at h
    simp only at h
    generalize (if c = '+' ∨ c = '-' then cs else c :: cs) = digits at h ⊢
    have hp : ∃ e, ParseUint s digits = .error e := by
      unfold ParseUint
      split
      · exact ⟨_, rfl⟩
      · rename_i hne
        apply parseUintLoop_error
        cases digits with
        | nil => exact absurd rfl hne
        | cons d ds => simpa using h
    obtain ⟨e, he⟩ := hp
    simp only
    rw [he]
    exact ⟨_, rfl⟩

/-- When the root directory lists a subdirectory whose name `strconv.Atoi`
rejects, `getSnapshotsAndSnapshotId` returns an error, and the handles it
returns are values, in strictly ascending key order, of pairs restored from
subdirectories listed before that one. -/
theorem getSnapshotsAndSnapshotId_rejected (w : World) (cfg : DBConfig)
    (pre : List FileInfo) (f : FileInfo) (post : List FileInfo) (e : Error)
    (hex : w.directoryExists cfg.FilePath = true)
    (hread : w.ReadDir cfg.FilePath = .ok (pre ++ f :: post))
    (hdir : f.IsDir = true) (hname : Atoi f.Name = .error e) :
    (getSnapshotsAndSnapshotId w cfg).2.2 ≠ none ∧
    ∃ ps : List (Int × snapshotDb), (ps.map Prod.fst).Sorted (· < ·) ∧
      (getSnapshotsAndSnapshotId w cfg).1 = ps.map Prod.snd ∧
      ∀ p ∈ ps, ∃ g ∈ pre, g.IsDir = true ∧ restoredEntry w cfg g = some p := by
  obtain ⟨h1, h2⟩ := restoreLoop_rejected w cfg f post e hdir hname pre [] 0
  have hnd := restoreLoop_nodup w cfg (pre ++ f :: post) [] 0 (by simp)
  unfold getSnapshotsAndSnapshotId
  simp only [hex, Bool.not_true, Bool.false_eq_true, if_false, hread]
  rcases hr : restoreLoop w cfg (pre ++ f :: post) [] 0 with ⟨m, id, err⟩
  rw [hr] at h1 h2 hnd
  cases err with
  | none => exact absurd rfl h1
  | some err =>
    simp only
    refine ⟨by simp, ?_⟩
    obtain ⟨ps, hperm, hsorted, heq⟩ := getOrderedSnapshots_sorted m hnd
    refine ⟨ps, hsorted, heq, fun p hp => ?_⟩
    rcases h2 p (hperm.mem_iff.1 hp) with h | h
    · cases h
    · exact h


/-- C3, counterexample: with the root directory holding the one subdirectory
`abc` and all four dependencies present, the restore reports the syntax error
of `abc`, yet `NewTrieStorageManager` returns a nil error and a manager. -/
theorem C3_counterexample :
    (getSnapshotsAndSnapshotId (worldWithFiles [⟨"abc", true⟩]) exampleDBConfig).2.2
      = some (.ErrSyntax "abc") ∧
    (NewTrieStorageManager (worldWithFiles [⟨"abc", true⟩]) exampleArgs).2 = none ∧
    (NewTrieStorageManager (worldWithFiles [⟨"abc", true⟩]) exampleArgs).1.isSome = true :=
  ⟨rfl, rfl, rfl⟩

/-- C3, amended: when the snapshot root directory lists a subdirectory whose
name `strconv.Atoi` rejects, `getSnapshotsAndSnapshotId` returns a non-nil
error, and `NewTrieStorageManager`, called with all four dependencies present,
drops that error after logging it: it returns a nil error and a manager
whose registry and `snapshotId` are those returned alongside the restore
error, with a zero pruning counter and empty queues. -/
theorem C3_restore_error_is_dropped (w : World) (db : Persister) (msh : Marshalizer)
    (hsh : Hasher) (holder : CheckpointHashesHolder) (cfg : DBConfig)
    (gen : TrieStorageManagerConfig) (files : List FileInfo) (f : FileInfo) (e : Error)
    (hex : w.directoryExists cfg.FilePath = true)
    (hread : w.ReadDir cfg.FilePath = .ok files)
    (hmem : f ∈ files) (hdir : f.IsDir = true) (hname : Atoi f.Name = .error e) :
    (getSnapshotsAndSnapshotId w cfg).2.2 ≠ none ∧
    ∃ tsm, NewTrieStorageManager w
        { DB := some db, Marshalizer := some msh, Hasher := some hsh,
          SnapshotDbConfig := cfg, GeneralConfig := gen,
          CheckpointHashesHolder := some holder } = (some tsm, none) ∧
      tsm.snapshots = (getSnapshotsAndSnapshotId w cfg).1 ∧
      tsm.snapshotId = (getSnapshotsAndSnapshotId w cfg).2.1 ∧
      tsm.pruningBlockingOps = 0 ∧ tsm.snapshotReq = [] ∧ tsm.checkpointReq = [] := by
  obtain ⟨pre, post, hsplit⟩ := List.append_of_mem hmem
  rw [hsplit] at hread
  refine ⟨(getSnapshotsAndSnapshotId_rejected w cfg pre f post e hex hread hdir hname).1, ?_⟩
  exact ⟨_, rfl, rfl, rfl, rfl, rfl, rfl⟩

/-- C3, amended, at the root directory holding the one subdirectory `abc`. -/
theorem C3_restore_error_is_dropped_witness :
    (getSnapshotsAndSnapshotId (worldWithFiles [⟨"abc", true⟩]) exampleDBConfig).2.2 ≠ none ∧
    ∃ tsm, NewTrieStorageManager (worldWithFiles [⟨"abc", true⟩])
        { DB := some (emptyStore "db"), Marshalizer := some {}, Hasher := some {},
          SnapshotDbConfig := exampleDBConfig,
          GeneralConfig := { SnapshotsBufferLen := 10, MaxSnapshots := 2, KeepSnapshots := false },
          CheckpointHashesHolder := some { removeCommittedCalls := [], removeCalls := [] } }
          = (some tsm, none) ∧
      tsm.snapshots
        = (getSnapshotsAndSnapshotId (worldWithFiles [⟨"abc", true⟩]) exampleDBConfig).1 ∧
      tsm.snapshotId
        = (getSnapshotsAndSnapshotId (worldWithFiles [⟨"abc", true⟩]) exampleDBConfig).2.1 ∧
      tsm.pruningBlockingOps = 0 ∧ tsm.snapshotReq = [] ∧ tsm.checkpointReq = [] :=
  C3_restore_error_is_dropped (worldWithFiles [⟨"abc", true⟩]) (emptyStore "db") {} {}
    { removeCommittedCalls := [], removeCalls := [] } exampleDBConfig
    { SnapshotsBufferLen := 10, MaxSnapshots := 2, KeepSnapshots := false }
    [⟨"abc", true⟩] ⟨"abc", true⟩ (.ErrSyntax "abc") rfl rfl (List.mem_singleton.2 rfl) rfl rfl

/-- C4, counterexample: the names `-1` and `+5` are not decimal strings of
non-negative integers, yet `strconv.Atoi` reads them as -1 and 5, and
`getSnapshotsAndSnapshotId` on a root directory holding a subdirectory of
either name returns a nil error. -/
theorem C4_counterexample :
    Atoi "-1" = .ok (-1) ∧ Atoi "+5" = .ok 5 ∧
    (getSnapshotsAndSnapshotId (worldWithFiles [⟨"-1", true⟩]) exampleDBConfig).2.2 = none ∧
    (getSnapshotsAndSnapshotId (worldWithFiles [⟨"+5", true⟩]) exampleDBConfig).2.2 = none :=
  ⟨rfl, rfl, rfl, rfl⟩

/-- C4, amended: for every subdirectory name that is not an optional sign `+`
or `-` followed by one or more decimal digits (names such as `abc`),
`getSnapshotsAndSnapshotId` on a root directory listing a subdirectory of that
name returns a non-nil error. -/
theorem C4_malformed_name_is_an_error (w : World) (cfg : DBConfig) (files : List FileInfo)
    (f : FileInfo) (hex : w.directoryExists cfg.FilePath = true)
    (hread : w.ReadDir cfg.FilePath = .ok files) (hmem : f ∈ files)
    (hdir : f.IsDir = true) (hmalformed : signedDecimalSyntax f.Name = false) :
    (getSnapshotsAndSnapshotId w cfg).2.2 ≠ none := by
  obtain ⟨pre, post, hsplit⟩ := List.append_of_mem hmem
  rw [hsplit] at hread
  obtain ⟨e, he⟩ := Atoi_error_of_syntax f.Name hmalformed
  exact (getSnapshotsAndSnapshotId_rejected w cfg pre f post e hex hread hdir he).1

/-- C4, amended, at the root directory holding the subdirectories `0` and
`abc`. -/
theorem C4_malformed_name_is_an_error_witness :
    signedDecimalSyntax "abc" = false ∧
    (getSnapshotsAndSnapshotId (worldWithFiles [⟨"0", true⟩, ⟨"abc", true⟩])
      exampleDBConfig).2.2 ≠ none :=
  ⟨rfl, C4_malformed_name_is_an_error (worldWithFiles [⟨"0", true⟩, ⟨"abc", true⟩])
    exampleDBConfig [⟨"0", true⟩, ⟨"abc", true⟩] ⟨"abc", true⟩ rfl rfl
    (by simp) rfl rfl⟩

/-- C5: whenever `strconv.Atoi` rejects the name of a subdirectory of the
snapshot root, `getSnapshotsAndSnapshotId` returns a non-nil error (the name
is not skipped), and the handles it returns alongside the error are handles
restored from subdirectories listed before the offending one, in strictly
ascending order of their numeric names. -/
theorem C5_rejected_name_surfaces_error (w : World) (cfg : DBConfig)
    (pre : List FileInfo) (f : FileInfo) (post : List FileInfo) (e : Error)
    (hex : w.directoryExists cfg.FilePath = true)
    (hread : w.ReadDir cfg.FilePath = .ok (pre ++ f :: post))
    (hdir : f.IsDir = true) (hname : Atoi f.Name = .error e) :
    (getSnapshotsAndSnapshotId w cfg).2.2 ≠ none ∧
    ∃ ps : List (Int × snapshotDb), (ps.map Prod.fst).Sorted (· < ·) ∧
      (getSnapshotsAndSnapshotId w cfg).1 = ps.map Prod.snd ∧
      ∀ p ∈ ps, ∃ g ∈ pre, g.IsDir = true ∧ restoredEntry w cfg g = some p :=
  getSnapshotsAndSnapshotId_rejected w cfg pre f post e hex hread hdir hname

/-- C5 at the root directory listing `1`, `0`, `abc`, `2` in this order. -/
theorem C5_rejected_name_surfaces_error_witness :
    Atoi "abc" = .error (.ErrSyntax "abc") ∧
    (getSnapshotsAndSnapshotId
      (worldWithFiles [⟨"1", true⟩, ⟨"0", true⟩, ⟨"abc", true⟩, ⟨"2", true⟩])
      exampleDBConfig).2.2 ≠ none ∧
    ∃ ps : List (Int × snapshotDb), (ps.map Prod.fst).Sorted (· < ·) ∧
      (getSnapshotsAndSnapshotId
        (worldWithFiles [⟨"1", true⟩, ⟨"0", true⟩, ⟨"abc", true⟩, ⟨"2", true⟩])
        exampleDBConfig).1 = ps.map Prod.snd ∧
      ∀ p ∈ ps, ∃ g ∈ [(⟨"1", true⟩ : FileInfo), ⟨"0", true⟩], g.IsDir = true ∧
        restoredEntry (worldWithFiles [⟨"1", true⟩, ⟨"0", true⟩, ⟨"abc", true⟩, ⟨"2", true⟩])
          exampleDBConfig g = some p :=
  ⟨rfl, C5_rejected_name_surfaces_error
    (worldWithFiles [⟨"1", true⟩, ⟨"0", true⟩, ⟨"abc", true⟩, ⟨"2", true⟩]) exampleDBConfig
    [⟨"1", true⟩, ⟨"0", true⟩] ⟨"abc", true⟩ [⟨"2", true⟩] (.ErrSyntax "abc") rfl rfl rfl rfl⟩


/-- A list of directory entries that are all restored yields one pair each. -/
theorem length_filterMap_restoredEntry (w : World) (cfg : DBConfig) (dirs : List FileInfo)
    (h : ∀ f ∈ dirs, (restoredEntry w cfg f).isSome = true) :
    (dirs.filterMap (restoredEntry w cfg)).length = dirs.length := by
  induction dirs with
  | nil => rfl
  | cons d dirs ih =>
    obtain ⟨p, hp⟩ := Option.isSome_iff_exists.1 (h d (List.mem_cons_self _ _))
    simp only [List.filterMap_cons, hp, List.length_cons]
    rw [ih (fun f hf => h f (List.mem_cons_of_mem _ hf))]

/-- The character of a decimal digit is the byte `'0'` plus the digit. -/
theorem digitChar_toNat (d : Nat) (h : d < 10) : (Nat.digitChar d).toNat = 48 + d := by
  interval_cases d <;> rfl

/-- The digits that `Nat.toDigitsCore` puts in front of a non-empty list leave
it non-empty. -/
theorem toDigitsCore_ne_nil (fuel : Nat) :
    ∀ (n : Nat) (c : Char) (tl : List Char), Nat.toDigitsCore 10 fuel n (c :: tl) ≠ [] := by
  induction fuel with
  | zero => intro n c tl; simp [Nat.toDigitsCore]
  | succ fuel ih =>
    intro n c tl
    unfold Nat.toDigitsCore
    simp only
    split
    · simp
    · exact ih _ _ _

/-- Reading the decimal digits of `m` from the value 0 gives the value `m`:
the loop of `strconv.ParseUint` run on the digits of `m` followed by `rest`
goes on with `rest` from the value `m`. -/
theorem parseUintLoop_toDigitsCore (s0 : String) (fuel : Nat) :
    ∀ (m : Nat) (rest : List Char), m < fuel → m < 2 ^ 64 →
      parseUintLoop s0 (Nat.toDigitsCore 10 fuel m rest) 0 = parseUintLoop s0 rest m := by
  induction fuel with
  | zero => intro m rest h; omega
  | succ fuel ih =>
    intro m rest hfuel hm
    have hd := digitChar_toNat (m % 10) (Nat.mod_lt _ (by decide))
    have hstep : ∀ k, k * 10 + m % 10 = m → k < 1844674407370955162 →
        parseUintLoop s0 (Nat.digitChar (m % 10) :: rest) k = parseUintLoop s0 rest m := by
      intro k hk hlt
      rw [parseUintLoop]
      have h1 : 48 ≤ (Nat.digitChar (m % 10)).toNat ∧ (Nat.digitChar (m % 10)).toNat ≤ 57 := by
        omega
      have h2 : ¬ (k ≥ (2 ^ 64 - 1) / 10 + 1) := by
        norm_num; omega
      have h3 : ¬ (k * 10 + ((Nat.digitChar (m % 10)).toNat - 48) > 2 ^ 64 - 1) := by
        rw [hd]; norm_num at hm ⊢; omega
      rw [if_pos h1, if_neg h2, if_neg h3, hd]
      congr 1
      omega
    unfold Nat.toDigitsCore
    simp only
    split
    · rename_i hz
      apply hstep 0
      · have := Nat.div_add_mod m 10; omega
      · decide
    · rename_i hz
      rw [ih (m / 10) _ (by omega) (by omega)]
      apply hstep (m / 10)
      · have := Nat.div_add_mod m 10; omega
      · norm_num at hm; omega

/-- The function `strconv.Atoi` reads the decimal string of every non-negative
`int` back as that `int`. -/
theorem Atoi_Itoa (n : Nat) (h : n < 2 ^ 63) : Atoi (Itoa (n : Int)) = .ok (n : Int) := by
  have hstr : (Itoa (n : Int)).data = Nat.toDigits 10 n := rfl
  have hparse : parseUintLoop (Itoa (n : Int)) (Nat.toDigits 10 n) 0 = .ok n := by
    unfold Nat.toDigits
    rw [parseUintLoop_toDigitsCore _ _ n [] (by omega) (by norm_num at h ⊢; omega)]
    rfl
  have hne : Nat.toDigits 10 n ≠ [] := by
    unfold Nat.toDigits Nat.toDigitsCore
    simp only
    split
    · simp
    · exact toDigitsCore_ne_nil _ _ _ _
  unfold Atoi
  rw [hstr]
  cases hds : Nat.toDigits 10 n with
  | nil => exact absurd hds hne
  | cons c cs =>
    rw [hds] at hparse
    have hc : 48 ≤ c.toNat ∧ c.toNat ≤ 57 := by
      by_contra hc
      rw [parseUintLoop, if_neg hc] at hparse
      cases hparse
    have hplus : c ≠ '+' := by
      rintro rfl
      exact absurd hc (by decide)
    have hminus : c ≠ '-' := by
      rintro rfl
      exact absurd hc (by decide)
    simp only [hplus, hminus, or_self, if_false, ParseUint, List.cons_ne_nil, hparse,
      decide_False, Bool.not_false, Bool.false_eq_true, false_and, true_and]
    have hlt : n < 9223372036854775808 := by norm_num at h; exact h
    simp [hlt]

/-- When every subdirectory of the root directory has a name that
`strconv.Atoi` accepts, these numeric names are pairwise distinct and every
store opens, `getSnapshotsAndSnapshotId` returns no error and exactly one
handle per subdirectory, in strictly ascending order of the numeric names. -/
theorem getSnapshotsAndSnapshotId_all_restored (w : World) (cfg : DBConfig)
    (files : List FileInfo) (hex : w.directoryExists cfg.FilePath = true)
    (hread : w.ReadDir cfg.FilePath = .ok files)
    (hnames : ∀ f ∈ files, f.IsDir = true → ∃ n : Int, Atoi f.Name = .ok n)
    (hdistinct : (files.filter (fun f => f.IsDir)).Pairwise
      (fun f g => Atoi f.Name ≠ Atoi g.Name))
    (hopen : ∀ f ∈ files, f.IsDir = true →
      ∃ db, w.NewDB (snapshotArgDB cfg f.Name) = .ok db) :
    ∃ ps : List (Int × snapshotDb),
      ps.Perm ((files.filter (fun f => f.IsDir)).filterMap (restoredEntry w cfg)) ∧
      ps.length = (files.filter (fun f => f.IsDir)).length ∧
      (ps.map Prod.fst).Sorted (· < ·) ∧
      (getSnapshotsAndSnapshotId w cfg).1 = ps.map Prod.snd ∧
      (getSnapshotsAndSnapshotId w cfg).2.2 = none := by
  have hall : ∀ f ∈ files, f.IsDir = true → (restoredEntry w cfg f).isSome = true := by
    intro f hf hd
    obtain ⟨n, hn⟩ := hnames f hf hd
    obtain ⟨db, hdb⟩ := hopen f hf hd
    simp [restoredEntry, hn, hdb]
  have hkeys := restoredEntry_keys_nodup w cfg _ hdistinct
  obtain ⟨hm, herr⟩ := restoreLoop_all_restored w cfg files [] 0 hall (by simpa using hkeys)
  have hnd := restoreLoop_nodup w cfg files [] 0 (by simp)
  obtain ⟨ps, hperm, hsorted, heq⟩ := getOrderedSnapshots_sorted _ hnd
  have hget : getSnapshotsAndSnapshotId w cfg
      = (getOrderedSnapshots (restoreLoop w cfg files [] 0).1,
          (if (restoreLoop w cfg files [] 0).1.length ≠ 0
            then wrapInt ((restoreLoop w cfg files [] 0).2.1 + 1)
            else (restoreLoop w cfg files [] 0).2.1), none) := by
    unfold getSnapshotsAndSnapshotId
    simp only [hex, Bool.not_true, Bool.false_eq_true, if_false, hread]
    rcases hr : restoreLoop w cfg files [] 0 with ⟨m, id, err⟩
    rw [hr] at herr
    simp only at herr
    subst herr
    rfl
  rw [hm, List.append_nil] at hperm
  have hperm2 := hperm.trans (List.reverse_perm _)
  refine ⟨ps, hperm2, ?_, hsorted, ?_, ?_⟩
  · rw [hperm2.length_eq]
    apply length_filterMap_restoredEntry
    intro f hf
    have := List.mem_filter.1 hf
    exact hall f this.1 (by simpa using this.2)
  · rw [hget]; exact heq
  · rw [hget]

/-- C6, counterexample: the root directory holds the one subdirectory
`9223372036854775808`, the decimal string of the non-negative integer `2^63`,
and every store opens; `getSnapshotsAndSnapshotId` returns the range error of
`strconv.Atoi` and no handle, not one handle for the subdirectory. -/
theorem C6_counterexample :
    Itoa ((2 ^ 63 : Nat) : Int) = "9223372036854775808" ∧
    (getSnapshotsAndSnapshotId (worldWithFiles [⟨"9223372036854775808", true⟩])
      exampleDBConfig).2.2 = some (.ErrRange "9223372036854775808") ∧
    (getSnapshotsAndSnapshotId (worldWithFiles [⟨"9223372036854775808", true⟩])
      exampleDBConfig).1.length = 0 ∧
    (getSnapshotsAndSnapshotId (worldWithFiles [⟨"9223372036854775808", true⟩])
      exampleDBConfig).1.length
        ≠ ([(⟨"9223372036854775808", true⟩ : FileInfo)].filter (fun f => f.IsDir)).length :=
  ⟨by decide, rfl, rfl, by decide⟩

/-- C6, amended: for a snapshot root directory whose subdirectories are all
named by the decimal strings of pairwise distinct non-negative integers below
`2^63` (`num f` is the integer naming the subdirectory `f`) and whose stores
all open, `getSnapshotsAndSnapshotId` returns no error and exactly one handle
per subdirectory (entries that are not directories are ignored), in strictly
ascending order of the numeric value of the names; and `getOrderedSnapshots`
returns the values of a map in strictly ascending key order, as many as the
map has pairs. -/
theorem C6_restore_orders_by_numeric_name (w : World) (cfg : DBConfig)
    (files : List FileInfo) (num : FileInfo → Nat)
    (hex : w.directoryExists cfg.FilePath = true)
    (hread : w.ReadDir cfg.FilePath = .ok files)
    (hnames : ∀ f ∈ files, f.IsDir = true → f.Name = Itoa (num f) ∧ num f < 2 ^ 63)
    (hdistinct : (files.filter (fun f => f.IsDir)).Pairwise (fun f g => num f ≠ num g))
    (hopen : ∀ f ∈ files, f.IsDir = true →
      ∃ db, w.NewDB (snapshotArgDB cfg f.Name) = .ok db) :
    (∃ ps : List (Int × snapshotDb),
      ps.Perm ((files.filter (fun f => f.IsDir)).filterMap (restoredEntry w cfg)) ∧
      ps.length = (files.filter (fun f => f.IsDir)).length ∧
      (ps.map Prod.fst).Sorted (· < ·) ∧
      (∀ p ∈ ps, ∃ f ∈ files, f.IsDir = true ∧ p.1 = (num f : Int) ∧
        ∃ db, w.NewDB (snapshotArgDB cfg f.Name) = .ok db ∧ p.2 = { DBWriteCacher := db }) ∧
      (getSnapshotsAndSnapshotId w cfg).1 = ps.map Prod.snd ∧
      (getSnapshotsAndSnapshotId w cfg).2.2 = none) ∧
    (∀ m : SnapshotsMap, (m.map Prod.fst).Nodup →
      ∃ ps : List (Int × snapshotDb), ps.Perm m ∧ (ps.map Prod.fst).Sorted (· < ·) ∧
        getOrderedSnapshots m = ps.map Prod.snd ∧
        (getOrderedSnapshots m).length = m.length) := by
  have hatoi : ∀ f ∈ files, f.IsDir = true → Atoi f.Name = .ok (num f : Int) := by
    intro f hf hd
    obtain ⟨h1, h2⟩ := hnames f hf hd
    rw [h1]
    exact Atoi_Itoa (num f) h2
  constructor
  · have hdistinct2 : (files.filter (fun f => f.IsDir)).Pairwise
        (fun f g => Atoi f.Name ≠ Atoi g.Name) := by
      have hmem : ∀ f ∈ files.filter (fun f => f.IsDir), Atoi f.Name = .ok (num f : Int) := by
        intro f hf
        have := List.mem_filter.1 hf
        exact hatoi f this.1 (by simpa using this.2)
      refine List.Pairwise.imp_of_mem ?_ hdistinct
      intro f g hf hg hne heq
      rw [hmem f hf, hmem g hg] at heq
      injection heq with heq
      exact hne (by exact_mod_cast heq)
    obtain ⟨ps, h1, h2, h3, h4, h5⟩ := getSnapshotsAndSnapshotId_all_restored w cfg files
      hex hread (fun f hf hd => ⟨_, hatoi f hf hd⟩) hdistinct2 hopen
    refine ⟨ps, h1, h2, h3, ?_, h4, h5⟩
    intro p hp
    obtain ⟨f, hf, hfp⟩ := List.mem_filterMap.1 (h1.mem_iff.1 hp)
    obtain ⟨hff, hfd⟩ := List.mem_filter.1 hf
    have hfd2 : f.IsDir = true := by simpa using hfd
    obtain ⟨hn, db, hdb, hp2⟩ := restoredEntry_eq_some w cfg f p hfp
    rw [hatoi f hff hfd2] at hn
    injection hn with hn
    exact ⟨f, hff, hfd2, hn.symm, db, hdb, hp2⟩
  · intro m hm
    obtain ⟨ps, hperm, hsorted, heq⟩ := getOrderedSnapshots_sorted m hm
    refine ⟨ps, hperm, hsorted, heq, ?_⟩
    rw [heq, List.length_map, hperm.length_eq]

/-- C6, amended, at the root directory listing the subdirectories `10` and `9`
and the file `notes.txt`: the two handles come back with `9` before `10`. -/
theorem C6_restore_orders_by_numeric_name_witness :
    (getSnapshotsAndSnapshotId
      (worldWithFiles [⟨"10", true⟩, ⟨"9", true⟩, ⟨"notes.txt", false⟩])
      exampleDBConfig).1.map (fun s => s.DBWriteCacher.Path) = ["snapshots/9", "snapshots/10"] ∧
    ∃ ps : List (Int × snapshotDb),
      ps.length = ([(⟨"10", true⟩ : FileInfo), ⟨"9", true⟩, ⟨"notes.txt", false⟩].filter
        (fun f => f.IsDir)).length ∧
      (ps.map Prod.fst).Sorted (· < ·) ∧
      (getSnapshotsAndSnapshotId
        (worldWithFiles [⟨"10", true⟩, ⟨"9", true⟩, ⟨"notes.txt", false⟩])
        exampleDBConfig).1 = ps.map Prod.snd ∧
      (getSnapshotsAndSnapshotId
        (worldWithFiles [⟨"10", true⟩, ⟨"9", true⟩, ⟨"notes.txt", false⟩])
        exampleDBConfig).2.2 = none := by
  obtain ⟨ps, _, h2, h3, _, h5, h6⟩ := (C6_restore_orders_by_numeric_name
    (worldWithFiles [⟨"10", true⟩, ⟨"9", true⟩, ⟨"notes.txt", false⟩]) exampleDBConfig
    [⟨"10", true⟩, ⟨"9", true⟩, ⟨"notes.txt", false⟩]
    (fun f => if f.Name = "10" then 10 else 9) rfl rfl
    (by
      intro f hf hd
      simp only [List.mem_cons, List.mem_singleton, List.not_mem_nil, or_false] at hf
      rcases hf with rfl | rfl | rfl
      · exact ⟨by decide, by decide⟩
      · exact ⟨by decide, by decide⟩
      · cases hd)
    (by simp [List.filter])
    (by
      intro f _ _
      exact ⟨_, rfl⟩)).1
  exact ⟨rfl, ps, h2, h3, h5, h6⟩

/-- C7, counterexample: the root directory holds the one subdirectory `-1`; the
restore succeeds, the maximum numeric name is -1, and the returned
`snapshotId` is 1, not 1 + (-1) = 0. -/
theorem C7_counterexample :
    Atoi "-1" = .ok (-1) ∧
    snapshotSubdirs (worldWithFiles [⟨"-1", true⟩]) exampleDBConfig = [⟨"-1", true⟩] ∧
    (getSnapshotsAndSnapshotId (worldWithFiles [⟨"-1", true⟩]) exampleDBConfig).2.2 = none ∧
    (getSnapshotsAndSnapshotId (worldWithFiles [⟨"-1", true⟩]) exampleDBConfig).2.1 = 1 ∧
    (getSnapshotsAndSnapshotId (worldWithFiles [⟨"-1", true⟩]) exampleDBConfig).2.1
      ≠ 1 + (-1) :=
  ⟨rfl, rfl, rfl, rfl, by decide⟩

/-- C7, amended: on a successful restore the returned `snapshotId` is 0 when
the root directory is absent or holds no subdirectory; when at least one
subdirectory was restored and `mx` is the maximum numeric name, it is
`1 + max mx 0` wrapped to a 64-bit `int`, hence `1 + mx` whenever
`0 ≤ mx < 2^63 - 1`. -/
theorem C7_restored_snapshotId (w : World) (cfg : DBConfig)
    (hok : (getSnapshotsAndSnapshotId w cfg).2.2 = none) :
    (snapshotSubdirs w cfg = [] → (getSnapshotsAndSnapshotId w cfg).2.1 = 0) ∧
    (∀ g mx, g ∈ snapshotSubdirs w cfg → Atoi g.Name = .ok mx →
      (∀ f ∈ snapshotSubdirs w cfg, ∀ n, Atoi f.Name = .ok n → n ≤ mx) →
      (getSnapshotsAndSnapshotId w cfg).2.1 = wrapInt (max mx 0 + 1)) ∧
    (∀ g mx, g ∈ snapshotSubdirs w cfg → Atoi g.Name = .ok mx →
      (∀ f ∈ snapshotSubdirs w cfg, ∀ n, Atoi f.Name = .ok n → n ≤ mx) →
      0 ≤ mx → mx < 2 ^ 63 - 1 → (getSnapshotsAndSnapshotId w cfg).2.1 = mx + 1) := by
  have key : (snapshotSubdirs w cfg = [] → (getSnapshotsAndSnapshotId w cfg).2.1 = 0) ∧
      (∀ g mx, g ∈ snapshotSubdirs w cfg → Atoi g.Name = .ok mx →
        (∀ f ∈ snapshotSubdirs w cfg, ∀ n, Atoi f.Name = .ok n → n ≤ mx) →
        (getSnapshotsAndSnapshotId w cfg).2.1 = wrapInt (max mx 0 + 1)) := by
    unfold getSnapshotsAndSnapshotId snapshotSubdirs at *
    cases hex : w.directoryExists cfg.FilePath with
    | false => simp
    | true =>
      simp only [hex, Bool.not_true, Bool.false_eq_true, if_false] at hok ⊢
      cases hread : w.ReadDir cfg.FilePath with
      | error err => rw [hread] at hok; cases hok
      | ok files =>
        rw [hread] at hok
        simp only at hok ⊢
        rcases hr : restoreLoop w cfg files [] 0 with ⟨m, id, err⟩
        rw [hr] at hok
        cases err with
        | some err => cases hok
        | none =>
          obtain ⟨h1, h2, h3, h4⟩ := restoreLoop_snapshotId w cfg files [] 0 (by rw [hr])
          rw [hr] at h1 h2 h3 h4
          simp only at h1 h2 h3 h4 ⊢
          constructor
          · intro hnone
            have hnodir : ∀ f ∈ files, f.IsDir = false := by
              intro f hf
              cases hd : f.IsDir with
              | false => rfl
              | true =>
                have : f ∈ files.filter (fun f => f.IsDir) :=
                  List.mem_filter.2 ⟨hf, by simpa using hd⟩
                rw [hnone] at this
                cases this
            have hm : m = [] := h4.2 ⟨trivial, hnodir⟩
            subst hm
            rcases h3 with h | ⟨f, hf, hd, _⟩
            · simpa using h
            · rw [hnodir f hf] at hd; cases hd
          · intro g mx hg hgn hmax
            obtain ⟨hgf, hgd⟩ := List.mem_filter.1 hg
            have hgd2 : g.IsDir = true := by simpa using hgd
            have hm : m ≠ [] := by
              intro hm
              have := (h4.1 hm).2 g hgf
              rw [hgd2] at this
              cases this
            have hlen : m.length ≠ 0 := by
              intro h0
              exact hm (List.length_eq_zero.1 h0)
            simp only [hlen, ne_eq, not_false_eq_true, if_true]
            obtain ⟨n, hn, hle⟩ := h2 g hgf hgd2
            rw [hgn] at hn
            cases hn
            have hid : id = max mx 0 := by
              rcases h3 with h | ⟨f, hf, hd, hfn⟩
              · have : mx ≤ 0 := by omega
                rw [h, max_eq_right this]
              · have := hmax f (List.mem_filter.2 ⟨hf, by simpa using hd⟩) id hfn
                have hmx : id = mx := by omega
                rw [hmx, max_eq_left (by omega)]
            rw [hid]
  refine ⟨key.1, key.2, ?_⟩
  intro g mx hg hgn hmax h0 hlt
  rw [key.2 g mx hg hgn hmax, max_eq_left h0]
  unfold wrapInt
  omega

/-- C7, amended, at the root directory listing the subdirectories `3` and `7`
and the file `notes.txt`: the returned `snapshotId` is 8. -/
theorem C7_restored_snapshotId_witness :
    (getSnapshotsAndSnapshotId
      (worldWithFiles [⟨"3", true⟩, ⟨"7", true⟩, ⟨"notes.txt", false⟩])
      exampleDBConfig).2.2 = none ∧
    (getSnapshotsAndSnapshotId
      (worldWithFiles [⟨"3", true⟩, ⟨"7", true⟩, ⟨"notes.txt", false⟩])
      exampleDBConfig).2.1 = 7 + 1 :=
  ⟨rfl, (C7_restored_snapshotId
    (worldWithFiles [⟨"3", true⟩, ⟨"7", true⟩, ⟨"notes.txt", false⟩]) exampleDBConfig rfl).2.2
    ⟨"7", true⟩ 7
    (by
      show (⟨"7", true⟩ : FileInfo) ∈ [(⟨"3", true⟩ : FileInfo), ⟨"7", true⟩]
      simp)
    rfl
    (by
      show ∀ f ∈ [(⟨"3", true⟩ : FileInfo), ⟨"7", true⟩], ∀ n, Atoi f.Name = .ok n → n ≤ 7
      intro f hf n hn
      simp only [List.mem_cons, List.mem_singleton, List.not_mem_nil, or_false] at hf
      rcases hf with rfl | rfl
      · have h3 : Atoi "3" = .ok 3 := rfl
        rw [h3] at hn
        cases hn
        decide
      · have h7 : Atoi "7" = .ok 7 := rfl
        rw [h7] at hn
        cases hn
        decide)
    (by decide) (by decide)⟩

/-- When the loop of `GetSnapshotThatContainsHash` stops at an index, the entry
at that index contains the hash and no entry at a higher index below the
starting point does. -/
theorem findSnapshotIndex_some (snapshots : List snapshotDb) (rootHash : Bytes) :
    ∀ (n i : Nat), findSnapshotIndex snapshots rootHash n = some i →
      i < n ∧ (∃ s, snapshots[i]? = some s ∧ s.contains rootHash = true) ∧
      ∀ j t, i < j → j < n → snapshots[j]? = some t → t.contains rootHash = false := by
  intro n
  induction n with
  | zero => intro i h; simp [findSnapshotIndex] at h
  | succ n ih =>
    intro i h
    unfold findSnapshotIndex at h
    split at h
    · rename_i s hs
      split at h
      · rename_i hc
        cases h
        refine ⟨by omega, ⟨s, hs, hc⟩, ?_⟩
        intro j t h1 h2
        omega
      · rename_i hc
        obtain ⟨h1, h2, h3⟩ := ih i h
        refine ⟨by omega, h2, ?_⟩
        intro j t hj1 hj2 hjt
        by_cases hjn : j = n
        · subst hjn
          rw [hs] at hjt
          cases hjt
          exact Bool.eq_false_iff.2 hc
        · exact h3 j t hj1 (by omega) hjt
    · rename_i hs
      obtain ⟨h1, h2, h3⟩ := ih i h
      refine ⟨by omega, h2, ?_⟩
      intro j t hj1 hj2 hjt
      by_cases hjn : j = n
      · subst hjn
        rw [hs] at hjt
        cases hjt
      · exact h3 j t hj1 (by omega) hjt

/-- When the loop of `GetSnapshotThatContainsHash` runs to the end, no entry
below the starting point contains the hash. -/
theorem findSnapshotIndex_none (snapshots : List snapshotDb) (rootHash : Bytes) :
    ∀ (n : Nat), findSnapshotIndex snapshots rootHash n = none →
      ∀ j t, j < n → snapshots[j]? = some t → t.contains rootHash = false := by
  intro n
  induction n with
  | zero => intro _ j t hj; omega
  | succ n ih =>
    intro h j t hj hjt
    unfold findSnapshotIndex at h
    split at h
    · rename_i s hs
      split at h
      · cases h
      · rename_i hc
        by_cases hjn : j = n
        · subst hjn
          rw [hs] at hjt
          cases hjt
          exact Bool.eq_false_iff.2 hc
        · exact ih h j t (by omega) hjt
    · rename_i hs
      by_cases hjn : j = n
      · subst hjn
        rw [hs] at hjt
        cases hjt
      · exact ih h j t (by omega) hjt

/-- The result of `GetSnapshotThatContainsHash` in terms of its loop: nil and an
unchanged manager when the loop runs to the end, otherwise the entry at the
index found, with one more reference, which also replaces that entry in the
registry. -/
theorem GetSnapshotThatContainsHash_eq (tsm : trieStorageManager) (rootHash : Bytes) :
    (findSnapshotIndex tsm.snapshots rootHash tsm.snapshots.length = none ∧
      tsm.GetSnapshotThatContainsHash rootHash = (tsm, none)) ∨
    ∃ i s, findSnapshotIndex tsm.snapshots rootHash tsm.snapshots.length = some i ∧
      tsm.snapshots[i]? = some s ∧
      tsm.GetSnapshotThatContainsHash rootHash =
        ({ tsm with snapshots := tsm.snapshots.set i s.IncreaseNumReferences },
          some s.IncreaseNumReferences) := by
  unfold trieStorageManager.GetSnapshotThatContainsHash
  cases hf : findSnapshotIndex tsm.snapshots rootHash tsm.snapshots.length with
  | none => exact Or.inl ⟨rfl, rfl⟩
  | some i =>
    obtain ⟨_, ⟨s, hs, _⟩, _⟩ := findSnapshotIndex_some _ _ _ _ hf
    right
    refine ⟨i, s, rfl, hs, ?_⟩
    simp only [hs]

/-- C11: for every registry and every hash, `GetSnapshotThatContainsHash`
returns nil exactly when no registry entry contains the hash (so it returns
nil for an empty registry), and when some entry contains it, it returns the
entry with the highest index among those that do. -/
theorem C11_returns_newest_containing_entry (tsm : trieStorageManager) (rootHash : Bytes) :
    ((tsm.GetSnapshotThatContainsHash rootHash).2 = none ↔
      ∀ s ∈ tsm.snapshots, s.contains rootHash = false) ∧
    (∀ (i : Nat) (s : snapshotDb), tsm.snapshots[i]? = some s → s.contains rootHash = true →
      (∀ (j : Nat) (t : snapshotDb), i < j → tsm.snapshots[j]? = some t → t.contains rootHash = false) →
      (tsm.GetSnapshotThatContainsHash rootHash).2 = some s.IncreaseNumReferences ∧
      (tsm.GetSnapshotThatContainsHash rootHash).1.snapshots[i]?
        = (tsm.GetSnapshotThatContainsHash rootHash).2) ∧
    (tsm.snapshots = [] → (tsm.GetSnapshotThatContainsHash rootHash).2 = none) := by
  have hiff : (tsm.GetSnapshotThatContainsHash rootHash).2 = none ↔
      ∀ s ∈ tsm.snapshots, s.contains rootHash = false := by
    rcases GetSnapshotThatContainsHash_eq tsm rootHash with ⟨hf, heq⟩ | ⟨i, s, hf, hs, heq⟩
    · rw [heq]
      simp only [true_iff]
      intro s hs
      obtain ⟨j, hjs⟩ := List.mem_iff_getElem?.1 hs
      have hj : j < tsm.snapshots.length := by
        rcases Nat.lt_or_ge j tsm.snapshots.length with h | h
        · exact h
        · rw [List.getElem?_eq_none h] at hjs; cases hjs
      exact findSnapshotIndex_none _ _ _ hf j s hj hjs
    · rw [heq]
      simp only [reduceCtorEq, false_iff]
      intro hall
      obtain ⟨_, ⟨s2, hs2, hc⟩, _⟩ := findSnapshotIndex_some _ _ _ _ hf
      have := hall s2 (List.getElem?_mem hs2)
      rw [this] at hc
      cases hc
  refine ⟨hiff, ?_, ?_⟩
  · intro i s hs hc hnewer
    have hi : i < tsm.snapshots.length := by
      rcases Nat.lt_or_ge i tsm.snapshots.length with h | h
      · exact h
      · rw [List.getElem?_eq_none h] at hs; cases hs
    rcases GetSnapshotThatContainsHash_eq tsm rootHash with ⟨hf, _⟩ | ⟨i2, s2, hf, hs2, heq⟩
    · have := findSnapshotIndex_none _ _ _ hf i s hi hs
      rw [this] at hc
      cases hc
    · obtain ⟨h1, ⟨s3, hs3, hc3⟩, h3⟩ := findSnapshotIndex_some _ _ _ _ hf
      have hii : i2 = i := by
        rcases Nat.lt_trichotomy i2 i with h | h | h
        · have := h3 i s h hi hs
          rw [this] at hc
          cases hc
        · exact h
        · have := hnewer i2 s3 h hs3
          rw [this] at hc3
          cases hc3
      subst hii
      rw [hs] at hs2
      cases hs2
      rw [heq]
      simp [List.getElem?_set_self hi]
  · intro hnil
    rw [hiff, hnil]
    intro s hs
    cases hs


/-- C12: `GetSnapshotThatContainsHash` increases the reference count of the
entry it returns by exactly one and leaves every other entry as it is; when
it returns nil the manager is unchanged; in every case the registry keeps its
length, its entries apart from their reference counts and their order, and
`snapshotId`, `pruningBlockingOps`, the queues and the active store are
unchanged. -/
theorem C12_reference_count_frame (tsm : trieStorageManager) (rootHash : Bytes) :
    ((tsm.GetSnapshotThatContainsHash rootHash).2 = none →
      (tsm.GetSnapshotThatContainsHash rootHash).1 = tsm) ∧
    (∀ h, (tsm.GetSnapshotThatContainsHash rootHash).2 = some h →
      ∃ (i : Nat) (s : snapshotDb), tsm.snapshots[i]? = some s ∧
        h = { s with numReferences := s.numReferences + 1 } ∧
        (tsm.GetSnapshotThatContainsHash rootHash).1.snapshots[i]? = some h ∧
        ∀ j, j ≠ i → (tsm.GetSnapshotThatContainsHash rootHash).1.snapshots[j]?
          = tsm.snapshots[j]?) ∧
    ((tsm.GetSnapshotThatContainsHash rootHash).1.snapshots.length = tsm.snapshots.length ∧
      (tsm.GetSnapshotThatContainsHash rootHash).1.snapshots.map
          (fun s => { s with numReferences := 0 })
        = tsm.snapshots.map (fun s => { s with numReferences := 0 }) ∧
      (tsm.GetSnapshotThatContainsHash rootHash).1.snapshotId = tsm.snapshotId ∧
      (tsm.GetSnapshotThatContainsHash rootHash).1.pruningBlockingOps
        = tsm.pruningBlockingOps ∧
      (tsm.GetSnapshotThatContainsHash rootHash).1.snapshotReq = tsm.snapshotReq ∧
      (tsm.GetSnapshotThatContainsHash rootHash).1.checkpointReq = tsm.checkpointReq ∧
      (tsm.GetSnapshotThatContainsHash rootHash).1.db = tsm.db) := by
  rcases GetSnapshotThatContainsHash_eq tsm rootHash with ⟨_, heq⟩ | ⟨i, s, hf, hs, heq⟩
  · rw [heq]
    simp
  · rw [heq]
    have hi : i < tsm.snapshots.length := by
      rcases Nat.lt_or_ge i tsm.snapshots.length with h | h
      · exact h
      · rw [List.getElem?_eq_none h] at hs; cases hs
    refine ⟨by simp, ?_, ?_⟩
    · intro h hh
      simp only [Option.some.injEq] at hh
      subst hh
      refine ⟨i, s, hs, rfl, by simp [List.getElem?_set_self hi], ?_⟩
      intro j hj
      simp [List.getElem?_set_ne (Ne.symm hj)]
    · refine ⟨by simp, ?_, rfl, rfl, rfl, rfl, rfl⟩
      apply List.ext_getElem?
      intro j
      by_cases hj : j = i
      · subst hj
        simp [hs, snapshotDb.IncreaseNumReferences]
        exact List.getElem?_set_self (by simpa using hi)
      · simp [List.getElem?_set_ne (Ne.symm hj)]

/-- The loop of `Close` closes every registry entry once, in order. -/
theorem closeSnapshots_fst (snapshots : List snapshotDb) :
    ∀ err, (closeSnapshots snapshots err).1 = snapshots.map (fun s => s.Close.1) := by
  induction snapshots with
  | nil => intro err; rfl
  | cons s snapshots ih =>
    intro err
    simp only [closeSnapshots, List.map_cons]
    rw [ih]

/-- The loop of `Close` leaves with the last close error that is not nil, the
error it was entered with counting as the first. -/
theorem closeSnapshots_snd (snapshots : List snapshotDb) :
    ∀ err, (closeSnapshots snapshots err).2
      = lastCloseError (err :: snapshots.map (fun s => s.DBWriteCacher.closeErr)) := by
  induction snapshots with
  | nil => intro err; simp [closeSnapshots, lastCloseError]
  | cons s snapshots ih =>
    intro err
    simp only [closeSnapshots, List.map_cons]
    rw [ih]
    simp only [lastCloseError, snapshotDb.Close]
    cases lastCloseError (snapshots.map (fun s => s.DBWriteCacher.closeErr)) with
    | some e => rfl
    | none =>
      cases hs : s.DBWriteCacher.closeErr with
      | none => simp
      | some e => simp

/-- The most recent failure is nil exactly when every close result is nil. -/
theorem lastCloseError_eq_none (errs : List (Option Error)) :
    lastCloseError errs = none ↔ ∀ e ∈ errs, e = none := by
  induction errs with
  | nil => simp [lastCloseError]
  | cons e errs ih =>
    simp only [lastCloseError, List.mem_cons, forall_eq_or_imp]
    cases h : lastCloseError errs with
    | some err =>
      simp only [reduceCtorEq, false_iff, not_and]
      intro _ hall
      rw [ih.2 hall] at h
      cases h
    | none =>
      simp only
      exact ⟨fun he => ⟨he, ih.1 h⟩, fun he => he.1⟩

/-- After a failure followed only by nil close results, the most recent
failure is that one. -/
theorem lastCloseError_append (pre post : List (Option Error)) (e : Error)
    (hpost : ∀ x ∈ post, x = none) : lastCloseError (pre ++ some e :: post) = some e := by
  induction pre with
  | nil =>
    simp only [List.nil_append, lastCloseError]
    rw [(lastCloseError_eq_none post).2 hpost]
  | cons x pre ih =>
    simp only [List.cons_append, lastCloseError, List.append_eq, ih]

/-- C13: for every registry and every combination of close results, `Close`
calls `Close` exactly once on the active handle and exactly once on every
registry entry, in registry order, whatever the results of the earlier
closes: every close counter is one higher after the call. -/
theorem C13_close_closes_every_handle (tsm : trieStorageManager) :
    tsm.Close.1.db = tsm.db.Close.1 ∧
    tsm.Close.1.db.closeCalls = tsm.db.closeCalls + 1 ∧
    tsm.Close.1.snapshots = tsm.snapshots.map (fun s => s.Close.1) ∧
    tsm.Close.1.snapshots.length = tsm.snapshots.length ∧
    tsm.Close.1.snapshots.map (fun s => s.DBWriteCacher.closeCalls)
      = tsm.snapshots.map (fun s => s.DBWriteCacher.closeCalls + 1) := by
  have hsn : tsm.Close.1.snapshots = tsm.snapshots.map (fun s => s.Close.1) := by
    unfold trieStorageManager.Close
    simp only
    split <;> exact closeSnapshots_fst _ _
  have hdb : tsm.Close.1.db = tsm.db.Close.1 := by
    unfold trieStorageManager.Close
    simp only
    split <;> rfl
  refine ⟨hdb, by rw [hdb]; rfl, hsn, by rw [hsn]; simp, ?_⟩
  rw [hsn, List.map_map]
  rfl

/-- C14: `Close` returns nil if and only if the close of the active handle and
the close of every registry entry returned nil; otherwise it returns
`trieStorageManager close failed` wrapping the most recent failure in close
order (active handle first, then the registry entries from oldest to newest):
the error of the last failing registry entry if one failed, else the error of
the active handle. -/
theorem C14_close_returns_last_failure (tsm : trieStorageManager) :
    (tsm.Close.2 = none ↔
      tsm.db.closeErr = none ∧ ∀ s ∈ tsm.snapshots, s.DBWriteCacher.closeErr = none) ∧
    tsm.Close.2 = (lastCloseError
        (tsm.db.closeErr :: tsm.snapshots.map (fun s => s.DBWriteCacher.closeErr))).map
      (Error.wrapped "trieStorageManager close failed") ∧
    (∀ (pre : List snapshotDb) (s : snapshotDb) (post : List snapshotDb) (e : Error),
      tsm.snapshots = pre ++ s :: post → s.DBWriteCacher.closeErr = some e →
      (∀ t ∈ post, t.DBWriteCacher.closeErr = none) →
      tsm.Close.2 = some (.wrapped "trieStorageManager close failed" e)) ∧
    (∀ e : Error, tsm.db.closeErr = some e →
      (∀ s ∈ tsm.snapshots, s.DBWriteCacher.closeErr = none) →
      tsm.Close.2 = some (.wrapped "trieStorageManager close failed" e)) := by
  have hval : tsm.Close.2 = (lastCloseError
      (tsm.db.closeErr :: tsm.snapshots.map (fun s => s.DBWriteCacher.closeErr))).map
      (Error.wrapped "trieStorageManager close failed") := by
    unfold trieStorageManager.Close
    simp only
    rw [closeSnapshots_snd]
    simp only [Persister.Close]
    cases lastCloseError (tsm.db.closeErr :: tsm.snapshots.map
      (fun s => s.DBWriteCacher.closeErr)) <;> rfl
  refine ⟨?_, hval, ?_, ?_⟩
  · rw [hval, Option.map_eq_none', lastCloseError_eq_none]
    simp
  · intro pre s post e hsplit hs hpost
    rw [hval, hsplit]
    have := lastCloseError_append
      (tsm.db.closeErr :: pre.map (fun s => s.DBWriteCacher.closeErr))
      (post.map (fun s => s.DBWriteCacher.closeErr)) e
      (by
        intro x hx
        obtain ⟨t, ht, rfl⟩ := List.mem_map.1 hx
        exact hpost t ht)
    simp only [List.map_append, List.map_cons, hs]
    rw [List.cons_append] at this
    rw [this]
    rfl
  · intro e hdb hall
    rw [hval]
    have := lastCloseError_append [] (tsm.snapshots.map (fun s => s.DBWriteCacher.closeErr)) e
      (by
        intro x hx
        obtain ⟨t, ht, rfl⟩ := List.mem_map.1 hx
        exact hall t ht)
    rw [hdb]
    rw [List.nil_append] at this
    rw [this]
    rfl

/-- C15: for every hash, `Remove(hash)` calls `Remove(hash)` on the checkpoint
hashes holder and on the active handle, and returns exactly what the active
handle's `Remove` returned (so an error if and only if that call returned
one); the registry, `snapshotId`, `pruningBlockingOps` and the queues are
unchanged. -/
theorem C15_remove_delegates (tsm : trieStorageManager) (hash : Bytes) :
    (tsm.Remove hash).1.checkpointHashesHolder.removeCalls
      = tsm.checkpointHashesHolder.removeCalls ++ [hash] ∧
    (tsm.Remove hash).1.checkpointHashesHolder.removeCommittedCalls
      = tsm.checkpointHashesHolder.removeCommittedCalls ∧
    (tsm.Remove hash).1.db.removed = tsm.db.removed ++ [hash] ∧
    (tsm.Remove hash).2 = (tsm.db.Remove hash).2 ∧
    (tsm.Remove hash).2 = tsm.db.removeErr hash ∧
    ((tsm.Remove hash).2 ≠ none ↔ (tsm.db.Remove hash).2 ≠ none) ∧
    (tsm.Remove hash).1.snapshots = tsm.snapshots ∧
    (tsm.Remove hash).1.snapshotId = tsm.snapshotId ∧
    (tsm.Remove hash).1.pruningBlockingOps = tsm.pruningBlockingOps ∧
    (tsm.Remove hash).1.snapshotReq = tsm.snapshotReq ∧
    (tsm.Remove hash).1.checkpointReq = tsm.checkpointReq := by
  simp [trieStorageManager.Remove, Persister.Remove, CheckpointHashesHolder.Remove]

/-- C16: when the oldest registry entry reports `IsInUse() = true`, both
`removeSnapshot` and `disconnectSnapshot` drop it from the registry, call
`Close` on no store and start no directory removal; `removeSnapshot` marks
the entry for removal and records on it the removal path, `disconnectSnapshot`
marks it for disconnection, and nothing else of the entry changes. -/
theorem C16_in_use_eviction_is_deferred (tsm : trieStorageManager) (w : World)
    (firstSnapshot : snapshotDb) (rest : List snapshotDb)
    (hreg : tsm.snapshots = firstSnapshot :: rest) (huse : firstSnapshot.IsInUse = true) :
    ((tsm.removeSnapshot w).1 = { tsm with snapshots := rest } ∧
      (tsm.removeSnapshot w).2.evicted = w.evicted ++
        [{ firstSnapshot with
            shouldBeRemoved := true
            path := pathJoin tsm.snapshotDbCfg.FilePath
              (Itoa (wrapInt (tsm.snapshotId - (tsm.snapshots.length : Int)))) }] ∧
      (tsm.removeSnapshot w).2.removeDirectoryCalls = w.removeDirectoryCalls ∧
      (tsm.removeSnapshot w).2.closedChans = w.closedChans) ∧
    ((tsm.disconnectSnapshot w).1 = { tsm with snapshots := rest } ∧
      (tsm.disconnectSnapshot w).2.evicted = w.evicted ++
        [{ firstSnapshot with shouldBeDisconnected := true }] ∧
      (tsm.disconnectSnapshot w).2.removeDirectoryCalls = w.removeDirectoryCalls ∧
      (tsm.disconnectSnapshot w).2.closedChans = w.closedChans) := by
  constructor
  · unfold trieStorageManager.removeSnapshot
    rw [hreg]
    simp [huse, snapshotDb.MarkForRemoval, snapshotDb.SetPath]
  · unfold trieStorageManager.disconnectSnapshot
    rw [hreg]
    simp [huse, snapshotDb.MarkForDisconnection]

/-- C16 at a manager whose only registry entry is held by one reader. -/
theorem C16_in_use_eviction_is_deferred_witness :
    (({ exampleManager with
        snapshots := [{ DBWriteCacher := emptyStore "snapshots/0", numReferences := 1 }]
        snapshotId := 1 } : trieStorageManager).removeSnapshot (worldWithDisk [])).2.evicted.map
      (fun s => (s.DBWriteCacher.closeCalls, s.shouldBeRemoved, s.path))
      = [(0, true, "snapshots/0")] ∧
    (({ exampleManager with
        snapshots := [{ DBWriteCacher := emptyStore "snapshots/0", numReferences := 1 }]
        snapshotId := 1 } : trieStorageManager).removeSnapshot
      (worldWithDisk [])).2.removeDirectoryCalls = [] := by
  have h := C16_in_use_eviction_is_deferred
    { exampleManager with
      snapshots := [{ DBWriteCacher := emptyStore "snapshots/0", numReferences := 1 }]
      snapshotId := 1 }
    (worldWithDisk []) { DBWriteCacher := emptyStore "snapshots/0", numReferences := 1 } []
    rfl rfl
  refine ⟨?_, h.1.2.2.1⟩
  rw [h.1.2.1]
  decide

/-- The id at which the loop of `newSnapshotDb` stops is the one of some test
number `k` below `fuel`; the directories of all earlier tests exist and the
directory of this id does not. -/
theorem findFreeSnapshotId_eq_some (w : World) (cfg : DBConfig) :
    ∀ (fuel : Nat) (snapshotId id : Int),
      findFreeSnapshotId w cfg fuel snapshotId = some id →
      ∃ k, k < fuel ∧ id = nextSnapshotIds snapshotId k ∧
        (∀ j, j < k → w.directoryExists
          (pathJoin cfg.FilePath (Itoa (nextSnapshotIds snapshotId j))) = true) ∧
        w.directoryExists (pathJoin cfg.FilePath (Itoa id)) = false := by
  intro fuel
  induction fuel with
  | zero => intro s id h; simp [findFreeSnapshotId] at h
  | succ fuel ih =>
    intro s id h
    unfold findFreeSnapshotId at h
    split at h
    · rename_i hex
      obtain ⟨k, hk, hid, hall, hfree⟩ := ih _ _ h
      refine ⟨k + 1, by omega, by simpa [nextSnapshotIds] using hid, ?_, hfree⟩
      intro j hj
      cases j with
      | zero => simpa [nextSnapshotIds] using hex
      | succ j => simpa [nextSnapshotIds] using hall j (by omega)
    · rename_i hex
      cases h
      exact ⟨0, by omega, rfl, fun j hj => by omega, by simpa using hex⟩

/-- Below `2^63` the wrapping increments of the loop of `newSnapshotDb` are
plain increments. -/
theorem nextSnapshotIds_eq_add (k : Nat) :
    ∀ snapshotId : Int, -(2 ^ 63) ≤ snapshotId → snapshotId + k < 2 ^ 63 →
      nextSnapshotIds snapshotId k = snapshotId + k := by
  induction k with
  | zero => intro s _ _; simp [nextSnapshotIds]
  | succ k ih =>
    intro s h1 h2
    have hw : wrapInt (s + 1) = s + 1 := by
      unfold wrapInt
      push_cast at h2
      omega
    simp only [nextSnapshotIds, hw]
    rw [ih (s + 1) (by omega) (by push_cast at h2 ⊢; omega)]
    push_cast
    omega

/-- A successful `newSnapshotDb` found a free id, opened the store of that id,
appended exactly one handle for it at the end of the registry, set
`snapshotId` to the wrapped successor of the id and marked the directory as
existing; nothing else changed. -/
theorem newSnapshotDb_ok (fuel : Nat) (tsm : trieStorageManager) (w : World)
    (tsm2 : trieStorageManager) (w2 : World) (db : Persister)
    (h : tsm.newSnapshotDb fuel w = some (tsm2, w2, .ok db)) :
    ∃ id, findFreeSnapshotId w tsm.snapshotDbCfg fuel tsm.snapshotId = some id ∧
      w.NewDB (snapshotArgDB tsm.snapshotDbCfg (Itoa id)) = .ok db ∧
      tsm2 = { tsm with
        snapshotId := wrapInt (id + 1)
        snapshots := tsm.snapshots ++ [{ DBWriteCacher := db }] } ∧
      w2 = { w with
        directoryExists := fun p =>
          decide (p = (snapshotArgDB tsm.snapshotDbCfg (Itoa id)).Path) ||
            w.directoryExists p } := by
  unfold trieStorageManager.newSnapshotDb at h
  split at h
  · cases h
  · rename_i id hid
    simp only at h
    split at h
    · cases h
    · rename_i db2 hdb
      simp only [Option.some.injEq, Prod.mk.injEq, Except.ok.injEq] at h
      obtain ⟨h1, h2, h3⟩ := h
      subst h3
      exact ⟨id, hid, hdb, h1.symm, h2.symm⟩

/-- A failed `newSnapshotDb` leaves the registry and the world as they were and
`snapshotId` at the free id it found. -/
theorem newSnapshotDb_error (fuel : Nat) (tsm : trieStorageManager) (w : World)
    (tsm2 : trieStorageManager) (w2 : World) (e : Error)
    (h : tsm.newSnapshotDb fuel w = some (tsm2, w2, .error e)) :
    ∃ id, findFreeSnapshotId w tsm.snapshotDbCfg fuel tsm.snapshotId = some id ∧
      tsm2 = { tsm with snapshotId := id } ∧ w2 = w := by
  unfold trieStorageManager.newSnapshotDb at h
  split at h
  · cases h
  · rename_i id hid
    simp only at h
    split at h
    · simp only [Option.some.injEq, Prod.mk.injEq] at h
      exact ⟨id, hid, h.1.symm, h.2.1.symm⟩
    · cases h

/-- Method `disconnectSnapshot` drops the entry at index 0 of the registry and
changes no other field of the manager, nor the answers of the world. -/
theorem disconnectSnapshot_registry (tsm : trieStorageManager) (w : World) :
    (tsm.disconnectSnapshot w).1 = { tsm with snapshots := tsm.snapshots.drop 1 } ∧
    (tsm.disconnectSnapshot w).2.NewDB = w.NewDB ∧
    (tsm.disconnectSnapshot w).2.directoryExists = w.directoryExists := by
  unfold trieStorageManager.disconnectSnapshot
  split
  · rename_i h
    cases tsm
    simp only at h
    subst h
    exact ⟨rfl, rfl, rfl⟩
  · rename_i f rest h
    simp only [h, List.drop_succ_cons, List.drop_zero]
    split <;> exact ⟨rfl, rfl, rfl⟩

/-- Method `removeSnapshot` drops the entry at index 0 of the registry and
changes no other field of the manager, nor the answers of the world. -/
theorem removeSnapshot_registry (tsm : trieStorageManager) (w : World) :
    (tsm.removeSnapshot w).1 = { tsm with snapshots := tsm.snapshots.drop 1 } ∧
    (tsm.removeSnapshot w).2.NewDB = w.NewDB ∧
    (tsm.removeSnapshot w).2.directoryExists = w.directoryExists := by
  unfold trieStorageManager.removeSnapshot
  split
  · rename_i h
    cases tsm
    simp only at h
    subst h
    exact ⟨rfl, rfl, rfl⟩
  · rename_i f rest h
    simp only [h, List.drop_succ_cons, List.drop_zero]
    split
    · exact ⟨rfl, rfl, rfl⟩
    · refine ⟨rfl, ?_, ?_⟩ <;> (unfold removeSnapshot; split <;> rfl)

/-- When `getSnapshotDb` takes the creation path and returns a store,
`newSnapshotDb` created that store, and the manager and the world are those
that `newSnapshotDb` left, after one eviction (by `disconnectSnapshot` when
`keepSnapshots` is set, by `removeSnapshot` otherwise) when the registry
length, read as a `uint32`, exceeds `maxSnapshots`. -/
theorem getSnapshotDb_created (fuel : Nat) (tsm : trieStorageManager) (w : World)
    (newDb : Bool) (tsm2 : trieStorageManager) (w2 : World) (db : Persister)
    (hcreate : newDb = true ∨ tsm.snapshots = [])
    (h : tsm.getSnapshotDb fuel w newDb = some (tsm2, w2, some db)) :
    ∃ tsm1 w1, tsm.newSnapshotDb fuel w = some (tsm1, w1, .ok db) ∧
      (tsm2, w2) =
        (if wrapUint32 tsm1.snapshots.length > tsm1.maxSnapshots then
          (if tsm1.keepSnapshots then tsm1.disconnectSnapshot w1
            else tsm1.removeSnapshot w1)
        else (tsm1, w1)) := by
  unfold trieStorageManager.getSnapshotDb at h
  have hc : (newDb || tsm.snapshots.length == 0) = true := by
    rcases hcreate with h1 | h1
    · simp [h1]
    · simp [h1]
  simp only [hc, Bool.not_true, Bool.false_eq_true, if_false] at h
  split at h
  · cases h
  · cases h
  · rename_i tsm1 w1 db1 hnew
    refine ⟨tsm1, w1, ?_, ?_⟩
    · split at h
      · split at h <;>
          (simp only [Option.some.injEq, Prod.mk.injEq] at h; rw [hnew, h.2.2])
      · simp only [Option.some.injEq, Prod.mk.injEq] at h; rw [hnew, h.2.2]
    · split at h
      · rename_i hgt
        rw [if_pos hgt]
        split at h
        · rename_i hk
          simp only [Option.some.injEq, Prod.mk.injEq] at h
          rw [if_pos hk, ← h.1, ← h.2.1]
        · rename_i hk
          simp only [Option.some.injEq, Prod.mk.injEq] at h
          rw [if_neg hk, ← h.1, ← h.2.1]
      · rename_i hgt
        simp only [Option.some.injEq, Prod.mk.injEq] at h
        rw [if_neg hgt, ← h.1, ← h.2.1]


/-- What a forced or first generation leaves: when `getSnapshotDb` takes the
creation path and returns a store `db`, that store was opened under a free id
found by the loop, `snapshotId` is the wrapped successor of that id, the
registry is the former one with the handle of `db` appended, less its entry at
index 0 when its length, read as a `uint32`, exceeds `maxSnapshots`, and the
configuration and the answers of `storageUnit.NewDB` are unchanged. -/
theorem getSnapshotDb_created_registry (fuel : Nat) (tsm : trieStorageManager) (w : World)
    (newDb : Bool) (tsm2 : trieStorageManager) (w2 : World) (db : Persister)
    (hcreate : newDb = true ∨ tsm.snapshots = [])
    (h : tsm.getSnapshotDb fuel w newDb = some (tsm2, w2, some db)) :
    (∃ id, findFreeSnapshotId w tsm.snapshotDbCfg fuel tsm.snapshotId = some id ∧
      w.NewDB (snapshotArgDB tsm.snapshotDbCfg (Itoa id)) = .ok db ∧
      tsm2.snapshotId = wrapInt (id + 1)) ∧
    tsm2.snapshots =
      (if wrapUint32 (tsm.snapshots.length + 1) > tsm.maxSnapshots then
        (tsm.snapshots ++ [({ DBWriteCacher := db } : snapshotDb)]).drop 1
      else tsm.snapshots ++ [({ DBWriteCacher := db } : snapshotDb)]) ∧
    tsm2.maxSnapshots = tsm.maxSnapshots ∧ tsm2.keepSnapshots = tsm.keepSnapshots ∧
    tsm2.snapshotDbCfg = tsm.snapshotDbCfg ∧ w2.NewDB = w.NewDB := by
  obtain ⟨tsm1, w1, hnew, heq⟩ := getSnapshotDb_created fuel tsm w newDb tsm2 w2 db hcreate h
  obtain ⟨id, hid, hdb, h1, hw1⟩ := newSnapshotDb_ok fuel tsm w tsm1 w1 db hnew
  have hlen : tsm1.snapshots.length = tsm.snapshots.length + 1 := by rw [h1]; simp
  have hmax : tsm1.maxSnapshots = tsm.maxSnapshots := by rw [h1]
  have hsn : tsm1.snapshots = tsm.snapshots ++ [({ DBWriteCacher := db } : snapshotDb)] := by
    rw [h1]
  have hwn : w1.NewDB = w.NewDB := by rw [hw1]
  rw [hlen, hmax] at heq
  split at heq
  · rename_i hgt
    rw [if_pos hgt]
    have hd := disconnectSnapshot_registry tsm1 w1
    have hr := removeSnapshot_registry tsm1 w1
    split at heq
    · have ht : tsm2 = (tsm1.disconnectSnapshot w1).1 := congrArg Prod.fst heq
      have hw : w2 = (tsm1.disconnectSnapshot w1).2 := congrArg Prod.snd heq
      rw [ht, hw, hd.1, hd.2.1]
      refine ⟨⟨id, hid, hdb, by rw [h1]⟩, by rw [hsn], hmax, by rw [h1], by rw [h1], hwn⟩
    · have ht : tsm2 = (tsm1.removeSnapshot w1).1 := congrArg Prod.fst heq
      have hw : w2 = (tsm1.removeSnapshot w1).2 := congrArg Prod.snd heq
      rw [ht, hw, hr.1, hr.2.1]
      refine ⟨⟨id, hid, hdb, by rw [h1]⟩, by rw [hsn], hmax, by rw [h1], by rw [h1], hwn⟩
  · rename_i hgt
    rw [if_neg hgt]
    have ht : tsm2 = tsm1 := congrArg Prod.fst heq
    have hw : w2 = w1 := congrArg Prod.snd heq
    rw [ht, hw]
    exact ⟨⟨id, hid, hdb, by rw [h1]⟩, hsn, hmax, by rw [h1], by rw [h1], hwn⟩

/-- The outcomes of `getSnapshotDb`: either it does not take the creation path
and returns the newest entry untouched, or it takes it and `newSnapshotDb`
fails, leaving the registry as it was, or it takes it and returns the store
that `newSnapshotDb` created. -/
theorem getSnapshotDb_cases (fuel : Nat) (tsm : trieStorageManager) (w : World)
    (newDb : Bool) (tsm2 : trieStorageManager) (w2 : World) (r : Option Persister)
    (h : tsm.getSnapshotDb fuel w newDb = some (tsm2, w2, r)) :
    (newDb = false ∧ tsm.snapshots ≠ [] ∧ tsm2 = tsm ∧ w2 = w ∧
      r = tsm.snapshots.getLast?.map (fun s => s.DBWriteCacher)) ∨
    ((newDb = true ∨ tsm.snapshots = []) ∧ r = none ∧
      ∃ e, tsm.newSnapshotDb fuel w = some (tsm2, w2, .error e)) ∨
    ((newDb = true ∨ tsm.snapshots = []) ∧ ∃ db, r = some db) := by
  by_cases hc : newDb = true ∨ tsm.snapshots = []
  · right
    cases r with
    | some db => exact Or.inr ⟨hc, db, rfl⟩
    | none =>
      left
      refine ⟨hc, rfl, ?_⟩
      unfold trieStorageManager.getSnapshotDb at h
      have hc2 : (newDb || tsm.snapshots.length == 0) = true := by
        rcases hc with h1 | h1
        · simp [h1]
        · simp [h1]
      simp only [hc2, Bool.not_true, Bool.false_eq_true, if_false] at h
      split at h
      · cases h
      · rename_i t1 w1 e hnew
        simp only [Option.some.injEq, Prod.mk.injEq, and_true] at h
        rw [hnew, h.1, h.2]
        exact ⟨e, rfl⟩
      · split at h
        · split at h <;> simp at h
        · simp at h
  · left
    have h1 : newDb = false := by
      cases newDb with
      | false => rfl
      | true => exact absurd (Or.inl rfl) hc
    have h2 : tsm.snapshots ≠ [] := fun hn => hc (Or.inr hn)
    unfold trieStorageManager.getSnapshotDb at h
    have hc2 : (newDb || tsm.snapshots.length == 0) = false := by
      simp [h1, h2]
    simp only [hc2, Bool.not_false, if_true, Option.some.injEq, Prod.mk.injEq] at h
    exact ⟨h1, h2, h.1.symm, h.2.1.symm, h.2.2.symm⟩

/-- A run of `n + 1` forced new generations is one `getSnapshotDb(true)` that
returns a store, followed by a run of `n`. -/
theorem forceNewGenerations_succ (fuel n : Nat) (st : trieStorageManager × World)
    (tsm2 : trieStorageManager) (w2 : World) (dbs : List Persister)
    (h : forceNewGenerations fuel (n + 1) st = some (tsm2, w2, dbs)) :
    ∃ tsm1 w1 db rest, st.1.getSnapshotDb fuel st.2 true = some (tsm1, w1, some db) ∧
      forceNewGenerations fuel n (tsm1, w1) = some (tsm2, w2, rest) ∧ dbs = db :: rest := by
  unfold forceNewGenerations at h
  split at h
  · rename_i tsm1 w1 db hget
    split at h
    · rename_i t3 w3 rest hrest
      simp only [Option.some.injEq, Prod.mk.injEq] at h
      refine ⟨tsm1, w1, db, rest, hget, ?_, h.2.2.symm⟩
      rw [hrest, h.1, h.2.1]
    · cases h
  · cases h


/-- C17: a call `getSnapshotDb(newDb)` on a registry whose length is at most
`maxSnapshots` leaves a registry whose length is at most `maxSnapshots` (the
registry length plus one being below `2^32`, so that its `uint32` reading is
exact); when a new generation pushes the length above `maxSnapshots`, exactly
the entry at index 0 is evicted, the other entries keep their order with the
new one last, and the eviction is `disconnectSnapshot` when `keepSnapshots` is
true and `removeSnapshot` otherwise; when it does not, the new entry is
appended and nothing is evicted; and with `maxSnapshots = 2`, three forced new
generations from an empty registry leave exactly the second and the third
generation, in this order. -/
theorem C17_registry_bounded_by_maxSnapshots (fuel : Nat) (tsm : trieStorageManager)
    (w : World) (newDb : Bool) (tsm2 : trieStorageManager) (w2 : World)
    (r : Option Persister)
    (hres : tsm.getSnapshotDb fuel w newDb = some (tsm2, w2, r))
    (hfit : tsm.snapshots.length + 1 < 2 ^ 32) :
    (tsm.snapshots.length ≤ tsm.maxSnapshots →
      tsm2.snapshots.length ≤ tsm.maxSnapshots ∧ tsm2.maxSnapshots = tsm.maxSnapshots) ∧
    (∀ db, r = some db → (newDb = true ∨ tsm.snapshots = []) →
      tsm.snapshots.length + 1 > tsm.maxSnapshots →
      tsm2.snapshots = (tsm.snapshots ++ [({ DBWriteCacher := db } : snapshotDb)]).drop 1 ∧
      tsm2.snapshots.length = tsm.snapshots.length ∧
      ∃ tsm1 w1, tsm.newSnapshotDb fuel w = some (tsm1, w1, .ok db) ∧
        tsm1.snapshots = tsm.snapshots ++ [({ DBWriteCacher := db } : snapshotDb)] ∧
        (tsm2, w2) = (if tsm.keepSnapshots then tsm1.disconnectSnapshot w1
          else tsm1.removeSnapshot w1)) ∧
    (∀ db, r = some db → (newDb = true ∨ tsm.snapshots = []) →
      tsm.snapshots.length + 1 ≤ tsm.maxSnapshots →
      tsm2.snapshots = tsm.snapshots ++ [({ DBWriteCacher := db } : snapshotDb)]) ∧
    (∀ (tsm0 : trieStorageManager) (w0 : World) (tsm3 : trieStorageManager) (w3 : World)
      (dbs : List Persister), tsm0.snapshots = [] → tsm0.maxSnapshots = 2 →
      forceNewGenerations fuel 3 (tsm0, w0) = some (tsm3, w3, dbs) →
      ∃ db1 db2 db3, dbs = [db1, db2, db3] ∧
        tsm3.snapshots = [({ DBWriteCacher := db2 } : snapshotDb), { DBWriteCacher := db3 }]) := by
  have hwrap : wrapUint32 (tsm.snapshots.length + 1) = tsm.snapshots.length + 1 := by
    unfold wrapUint32
    exact Nat.mod_eq_of_lt hfit
  refine ⟨?_, ?_, ?_, ?_⟩
  · intro hle
    rcases getSnapshotDb_cases fuel tsm w newDb tsm2 w2 r hres with
      ⟨_, _, h1, _, _⟩ | ⟨_, _, e, he⟩ | ⟨hc, db, hr⟩
    · rw [h1]; exact ⟨hle, rfl⟩
    · obtain ⟨id, _, h1, _⟩ := newSnapshotDb_error fuel tsm w tsm2 w2 e he
      rw [h1]; exact ⟨hle, rfl⟩
    · subst hr
      obtain ⟨_, hsn, hmax, _⟩ := getSnapshotDb_created_registry fuel tsm w newDb tsm2 w2 db hc hres
      rw [hwrap] at hsn
      refine ⟨?_, hmax⟩
      rw [hsn]
      split
      · simp only [List.length_drop, List.length_append, List.length_singleton]
        omega
      · simp only [List.length_append, List.length_singleton]
        omega
  · intro db hr hc hgt
    subst hr
    obtain ⟨_, hsn, _, _⟩ := getSnapshotDb_created_registry fuel tsm w newDb tsm2 w2 db hc hres
    rw [hwrap, if_pos hgt] at hsn
    obtain ⟨tsm1, w1, hnew, heq⟩ := getSnapshotDb_created fuel tsm w newDb tsm2 w2 db hc hres
    obtain ⟨id, _, _, h1, _⟩ := newSnapshotDb_ok fuel tsm w tsm1 w1 db hnew
    refine ⟨hsn, ?_, tsm1, w1, hnew, by rw [h1], ?_⟩
    · rw [hsn]
      simp
    · have hlen : tsm1.snapshots.length = tsm.snapshots.length + 1 := by rw [h1]; simp
      have hmax : tsm1.maxSnapshots = tsm.maxSnapshots := by rw [h1]
      have hkeep : tsm1.keepSnapshots = tsm.keepSnapshots := by rw [h1]
      rw [hlen, hmax, hwrap, if_pos hgt, hkeep] at heq
      exact heq
  · intro db hr hc hle
    subst hr
    obtain ⟨_, hsn, _, _⟩ := getSnapshotDb_created_registry fuel tsm w newDb tsm2 w2 db hc hres
    rw [hwrap, if_neg (by omega)] at hsn
    exact hsn
  · intro tsm0 w0 tsm3 w3 dbs hempty hmax h3
    obtain ⟨t1, w1, db1, rest1, hg1, hf1, hd1⟩ := forceNewGenerations_succ fuel 2 _ _ _ _ h3
    obtain ⟨t2, w2, db2, rest2, hg2, hf2, hd2⟩ := forceNewGenerations_succ fuel 1 _ _ _ _ hf1
    obtain ⟨t3, w3b, db3, rest3, hg3, hf3, hd3⟩ := forceNewGenerations_succ fuel 0 _ _ _ _ hf2
    simp only [forceNewGenerations, Option.some.injEq, Prod.mk.injEq] at hf3
    obtain ⟨ht3, _, hrest3⟩ := hf3
    obtain ⟨_, hs1, hm1, _⟩ :=
      getSnapshotDb_created_registry fuel tsm0 w0 true t1 w1 db1 (Or.inl rfl) hg1
    obtain ⟨_, hs2, hm2, _⟩ :=
      getSnapshotDb_created_registry fuel t1 w1 true t2 w2 db2 (Or.inl rfl) hg2
    obtain ⟨_, hs3, _, _⟩ :=
      getSnapshotDb_created_registry fuel t2 w2 true t3 w3b db3 (Or.inl rfl) hg3
    rw [hempty, hmax] at hs1
    simp only [List.length_nil, List.nil_append, wrapUint32] at hs1
    norm_num at hs1
    rw [hs1, hm1, hmax] at hs2
    simp only [List.length_singleton, wrapUint32] at hs2
    norm_num at hs2
    rw [hs2, hm2, hm1, hmax] at hs3
    simp only [List.length_cons, List.length_nil, wrapUint32] at hs3
    norm_num at hs3
    refine ⟨db1, db2, db3, ?_, ?_⟩
    · rw [hd1, hd2, hd3, ← hrest3]
    · rw [← ht3, hs3]

/-- C17 at a fresh manager with `maxSnapshots = 2` on an empty disk: three
forced new generations leave the second and the third. -/
theorem C17_registry_bounded_by_maxSnapshots_witness :
    ∃ tsm3 w3 db1 db2 db3,
      forceNewGenerations 10 3 (exampleManager, worldWithDisk []) = some (tsm3, w3, [db1, db2, db3]) ∧
      tsm3.snapshots = [({ DBWriteCacher := db2 } : snapshotDb), { DBWriteCacher := db3 }] := by
  obtain ⟨⟨tsm3, w3, dbs⟩, h3⟩ :
      ∃ x, forceNewGenerations 10 3 (exampleManager, worldWithDisk []) = some x := ⟨_, rfl⟩
  obtain ⟨⟨tsm2, w2, r⟩, hres⟩ :
      ∃ x, exampleManager.getSnapshotDb 10 (worldWithDisk []) true = some x := ⟨_, rfl⟩
  obtain ⟨db1, db2, db3, hd, hs⟩ :=
    (C17_registry_bounded_by_maxSnapshots 10 exampleManager (worldWithDisk []) true tsm2 w2 r
      hres (by decide)).2.2.2 exampleManager (worldWithDisk []) tsm3 w3 dbs rfl rfl h3
  exact ⟨tsm3, w3, db1, db2, db3, hd ▸ h3, hs⟩

/-- C18 at the failing inputs. First, a manager restored from the directories
`0` and `5` (so `snapshotId` is 6) with `maxSnapshots = 2` and `keepSnapshots`
false creates the forced generation `6` and evicts the oldest entry, the one
restored from `snapshots/0`; the store of that entry is closed, but the
directory removed is `snapshots/4`, the root joined with
`snapshotId - len(snapshots) = 7 - 3`, not `snapshots/0`. Second, a fresh
manager on a disk where the name `1` is taken creates the generations 0, 2
and 3 and evicts the one created in `snapshots/0`, but the directory removed
is `snapshots/1`. -/
theorem C18_removes_wrong_directory :
    ((NewTrieStorageManager (worldWithDisk [⟨"0", true⟩, ⟨"5", true⟩]) exampleArgs).1.bind
      (fun tsm => tsm.getSnapshotDb 10 (worldWithDisk [⟨"0", true⟩, ⟨"5", true⟩]) true)).map
      (fun r => (r.1.snapshots.map (fun s => s.DBWriteCacher.Path), r.1.snapshotId,
        r.2.1.evicted.map (fun s => (s.DBWriteCacher.Path, s.DBWriteCacher.closeCalls)),
        r.2.1.removeDirectoryCalls))
      = some (["snapshots/5", "snapshots/6"], 7, [("snapshots/0", 1)], ["snapshots/4"]) ∧
    (forceNewGenerations 10 3 (exampleManager, worldWithDisk [⟨"1", false⟩])).map
      (fun r => (r.1.snapshots.map (fun s => s.DBWriteCacher.Path), r.1.snapshotId,
        r.2.1.evicted.map (fun s => (s.DBWriteCacher.Path, s.DBWriteCacher.closeCalls)),
        r.2.1.removeDirectoryCalls))
      = some (["snapshots/2", "snapshots/3"], 4, [("snapshots/0", 1)], ["snapshots/1"]) :=
  ⟨by decide, by decide⟩

/-- While `snapshotId` stays below `2^63 - 1`, a forced or first generation
that does not evict uses an id that is at least the former `snapshotId` and
fewer than `fuel` above it, and sets `snapshotId` to that id plus one. -/
theorem getSnapshotDb_forced_step (fuel : Nat) (tsm : trieStorageManager) (w : World)
    (tsm2 : trieStorageManager) (w2 : World) (db : Persister)
    (h : tsm.getSnapshotDb fuel w true = some (tsm2, w2, some db))
    (hlo : -(2 ^ 63) ≤ tsm.snapshotId) (hhi : tsm.snapshotId + fuel < 2 ^ 63) :
    ∃ id, tsm.snapshotId ≤ id ∧ id + 1 ≤ tsm.snapshotId + fuel ∧
      w.NewDB (snapshotArgDB tsm.snapshotDbCfg (Itoa id)) = .ok db ∧
      w.directoryExists (pathJoin tsm.snapshotDbCfg.FilePath (Itoa id)) = false ∧
      tsm2.snapshotId = id + 1 := by
  obtain ⟨⟨id, hid, hdb, hsid⟩, _⟩ :=
    getSnapshotDb_created_registry fuel tsm w true tsm2 w2 db (Or.inl rfl) h
  obtain ⟨k, hk, hidk, _, hfree⟩ := findFreeSnapshotId_eq_some w _ fuel _ id hid
  have hadd := nextSnapshotIds_eq_add k tsm.snapshotId hlo (by omega)
  rw [hadd] at hidk
  refine ⟨id, by omega, by omega, hdb, hfree, ?_⟩
  rw [hsid]
  unfold wrapInt
  omega

/-- While `snapshotId` stays below `2^63` and nothing is evicted, a run of `n`
forced new generations appends `n` handles, in creation order, whose ids are
strictly increasing, at least the starting `snapshotId` and below the final
one. -/
theorem forceNewGenerations_ids (fuel : Nat) :
    ∀ (n : Nat) (st : trieStorageManager × World) (tsm2 : trieStorageManager) (w2 : World)
      (dbs : List Persister),
      st.1.snapshots.length + n ≤ st.1.maxSnapshots → st.1.maxSnapshots < 2 ^ 32 →
      -(2 ^ 63) ≤ st.1.snapshotId → st.1.snapshotId + (n * fuel : Nat) < 2 ^ 63 →
      forceNewGenerations fuel n st = some (tsm2, w2, dbs) →
      ∃ ids : List Int, ids.length = n ∧ ids.Sorted (· < ·) ∧
        (∀ id ∈ ids, st.1.snapshotId ≤ id ∧ id < tsm2.snapshotId) ∧
        st.1.snapshotId ≤ tsm2.snapshotId ∧
        List.Forall₂
          (fun id db => st.2.NewDB (snapshotArgDB st.1.snapshotDbCfg (Itoa id)) = .ok db)
          ids dbs ∧
        tsm2.snapshots = st.1.snapshots ++ dbs.map (fun db => { DBWriteCacher := db }) := by
  intro n
  induction n with
  | zero =>
    intro st tsm2 w2 dbs _ _ _ _ h
    simp only [forceNewGenerations, Option.some.injEq, Prod.mk.injEq] at h
    obtain ⟨h1, _, h3⟩ := h
    subst h1 h3
    exact ⟨[], rfl, List.sorted_nil, by simp, le_refl _, List.Forall₂.nil, by simp⟩
  | succ n ih =>
    intro st tsm2 w2 dbs hlen hmax hlo hhi h
    obtain ⟨t1, w1, db, rest, hg, hf, hd⟩ := forceNewGenerations_succ fuel n st tsm2 w2 dbs h
    have hmul : ((n + 1) * fuel : Nat) = n * fuel + fuel := Nat.succ_mul n fuel
    rw [hmul] at hhi
    push_cast at hhi
    have hnf : (0 : Int) ≤ (n * fuel : Nat) := Int.natCast_nonneg _
    push_cast at hnf
    obtain ⟨id, hid1, hid2, hdb, _, hsid⟩ :=
      getSnapshotDb_forced_step fuel st.1 st.2 t1 w1 db hg hlo (by omega)
    obtain ⟨_, hsn, hm1, _, hcfg, hnewdb⟩ :=
      getSnapshotDb_created_registry fuel st.1 st.2 true t1 w1 db (Or.inl rfl) hg
    have hwrap : wrapUint32 (st.1.snapshots.length + 1) = st.1.snapshots.length + 1 := by
      unfold wrapUint32
      exact Nat.mod_eq_of_lt (by omega)
    rw [hwrap, if_neg (by omega)] at hsn
    obtain ⟨ids, hl, hsorted, hrange, hmono, hall, hreg⟩ := ih (t1, w1) tsm2 w2 rest
      (by simp only [hsn, hm1, List.length_append, List.length_singleton]; omega)
      (by simp only [hm1]; exact hmax)
      (by simp only [hsid]; omega)
      (by simp only [hsid]; push_cast; omega)
      hf
    simp only [hsid, hcfg, hnewdb, hsn] at hrange hmono hall hreg
    refine ⟨id :: ids, by simp [hl], ?_, ?_, by omega, ?_, ?_⟩
    · refine List.sorted_cons.2 ⟨fun b hb => ?_, hsorted⟩
      have := (hrange b hb).1
      omega
    · intro b hb
      rcases List.mem_cons.1 hb with rfl | hb
      · exact ⟨hid1, by omega⟩
      · have := hrange b hb
        exact ⟨by omega, this.2⟩
    · rw [hd]
      exact List.Forall₂.cons hdb hall
    · rw [hreg, hd]
      simp

/-- C19, counterexample: a manager restored from the one directory
`9223372036854775806` has `snapshotId = 2^63 - 1`; its next new generation uses
that id and sets `snapshotId` to `-2^63`, which is neither the id plus one
nor a value that did not decrease. -/
theorem C19_counterexample :
    (NewTrieStorageManager (worldWithDisk [⟨"9223372036854775806", true⟩]) exampleArgs).1.map
      (fun tsm => tsm.snapshotId) = some 9223372036854775807 ∧
    ((NewTrieStorageManager (worldWithDisk [⟨"9223372036854775806", true⟩]) exampleArgs).1.bind
      (fun tsm => tsm.newSnapshotDb 10
        (worldWithDisk [⟨"9223372036854775806", true⟩]))).map
      (fun r => (r.1.snapshots.map (fun s => s.DBWriteCacher.Path), r.1.snapshotId))
      = some (["snapshots/9223372036854775806", "snapshots/9223372036854775807"],
          -9223372036854775808) ∧
    (-9223372036854775808 : Int) < 9223372036854775807 ∧
    (-9223372036854775808 : Int) ≠ 9223372036854775807 + 1 := by
  decide

/-- C19, amended: each successful `newSnapshotDb` appends exactly one entry at
the end of the registry, opened under an id that names a directory not
existing on disk, and sets `snapshotId` to the successor of that id wrapped
to 64 bits; while the ids stay below `2^63 - 1` the id is the former
`snapshotId` plus the number `k` of existing directories skipped, so it is at
least the former `snapshotId`, and `snapshotId` becomes the id plus one and
increases. Under the same bound, starting from an empty registry, `N` forced
new generations that succeed with `N ≤ maxSnapshots` leave exactly `N`
entries, in creation order, opened under strictly increasing ids. -/
theorem C19_generation_ids_increase (fuel : Nat) (tsm : trieStorageManager) (w : World) :
    (∀ tsm2 w2 db, tsm.newSnapshotDb fuel w = some (tsm2, w2, .ok db) →
      ∃ k id, k < fuel ∧ id = nextSnapshotIds tsm.snapshotId k ∧
        w.directoryExists (pathJoin tsm.snapshotDbCfg.FilePath (Itoa id)) = false ∧
        w.NewDB (snapshotArgDB tsm.snapshotDbCfg (Itoa id)) = .ok db ∧
        tsm2.snapshots = tsm.snapshots ++ [({ DBWriteCacher := db } : snapshotDb)] ∧
        tsm2.snapshotId = wrapInt (id + 1) ∧
        (-(2 ^ 63) ≤ tsm.snapshotId → tsm.snapshotId + k < 2 ^ 63 - 1 →
          id = tsm.snapshotId + k ∧ tsm.snapshotId ≤ id ∧ tsm2.snapshotId = id + 1 ∧
          tsm.snapshotId < tsm2.snapshotId)) ∧
    (∀ (N : Nat) (tsm2 : trieStorageManager) (w2 : World) (dbs : List Persister),
      tsm.snapshots = [] → N ≤ tsm.maxSnapshots → tsm.maxSnapshots < 2 ^ 32 →
      -(2 ^ 63) ≤ tsm.snapshotId → tsm.snapshotId + (N * fuel : Nat) < 2 ^ 63 →
      forceNewGenerations fuel N (tsm, w) = some (tsm2, w2, dbs) →
      ∃ ids : List Int, ids.length = N ∧ ids.Sorted (· < ·) ∧
        (∀ id ∈ ids, tsm.snapshotId ≤ id ∧ id < tsm2.snapshotId) ∧
        List.Forall₂
          (fun id db => w.NewDB (snapshotArgDB tsm.snapshotDbCfg (Itoa id)) = .ok db)
          ids dbs ∧
        tsm2.snapshots = dbs.map (fun db => { DBWriteCacher := db }) ∧
        tsm2.snapshots.length = N) := by
  constructor
  · intro tsm2 w2 db h
    obtain ⟨id, hid, hdb, h1, _⟩ := newSnapshotDb_ok fuel tsm w tsm2 w2 db h
    obtain ⟨k, hk, hidk, _, hfree⟩ := findFreeSnapshotId_eq_some w _ fuel _ id hid
    refine ⟨k, id, hk, hidk, hfree, hdb, by rw [h1], by rw [h1], ?_⟩
    intro hlo hhi
    have hadd := nextSnapshotIds_eq_add k tsm.snapshotId hlo (by omega)
    rw [hadd] at hidk
    have hw : wrapInt (id + 1) = id + 1 := by
      unfold wrapInt
      omega
    refine ⟨hidk, by omega, by rw [h1]; exact hw, ?_⟩
    rw [h1]
    show tsm.snapshotId < wrapInt (id + 1)
    rw [hw]
    omega
  · intro N tsm2 w2 dbs hempty hN hmax hlo hhi h
    obtain ⟨ids, hl, hsorted, hrange, _, hall, hreg⟩ :=
      forceNewGenerations_ids fuel N (tsm, w) tsm2 w2 dbs (by simp [hempty]; exact hN) hmax hlo
        hhi h
    simp only [hempty, List.nil_append] at hreg
    refine ⟨ids, hl, hsorted, hrange, hall, hreg, ?_⟩
    rw [hreg, List.length_map, ← hall.length_eq, hl]

/-- C19, amended, at a fresh manager on an empty disk: two forced new
generations leave two entries opened under strictly increasing ids. -/
theorem C19_generation_ids_increase_witness :
    ∃ (tsm2 : trieStorageManager) (dbs : List Persister) (ids : List Int),
      ids.length = 2 ∧ ids.Sorted (· < ·) ∧
      tsm2.snapshots = dbs.map (fun db => { DBWriteCacher := db }) ∧
      tsm2.snapshots.length = 2 := by
  obtain ⟨⟨tsm2, w2, dbs⟩, h2⟩ :
      ∃ x, forceNewGenerations 10 2 (exampleManager, worldWithDisk []) = some x := ⟨_, rfl⟩
  obtain ⟨ids, h1, hs, _, _, h5, h6⟩ :=
    (C19_generation_ids_increase 10 exampleManager (worldWithDisk [])).2 2 tsm2 w2 dbs rfl
      (by decide) (by decide) (by decide) (by decide) h2
  exact ⟨tsm2, dbs, ids, h1, hs, h5, h6⟩


/-- The deferred function of `takeSnapshot` and `takeCheckpoint` changes
neither the registry, nor `snapshotId`, nor the disk. -/
theorem deferredFinish_frame (e : snapshotsQueueEntry) (tsm : trieStorageManager)
    (w : World) :
    (deferredFinish e tsm w).1.snapshots = tsm.snapshots ∧
    (deferredFinish e tsm w).1.snapshotId = tsm.snapshotId ∧
    (deferredFinish e tsm w).2.directoryExists = w.directoryExists ∧
    (deferredFinish e tsm w).2.removeDirectoryCalls = w.removeDirectoryCalls := by
  unfold deferredFinish trieStorageManager.ExitPruningBufferingMode
  refine ⟨?_, ?_, ?_, ?_⟩
  · simp only; split <;> rfl
  · simp only; split <;> rfl
  · simp only; cases e.leavesChan <;> rfl
  · simp only; cases e.leavesChan <;> rfl

/-- With `newDb = false` and a non-empty registry, `getSnapshotDb` returns the
store of the newest entry and changes neither the manager nor the world. -/
theorem getSnapshotDb_reuse (fuel : Nat) (tsm : trieStorageManager) (w : World)
    (h : tsm.snapshots ≠ []) :
    tsm.getSnapshotDb fuel w false
      = some (tsm, w, some (tsm.snapshots.getLast h).DBWriteCacher) := by
  unfold trieStorageManager.getSnapshotDb
  have hc : (false || tsm.snapshots.length == 0) = false := by simp [h]
  simp only [hc, Bool.not_false, if_true]
  rw [List.getLast?_eq_getLast _ h]
  rfl

/-- C11 at three generations with the hash present in generation 1 only: the
handle returned is the one of generation 1. -/
theorem C11_returns_newest_containing_entry_witness :
    (threeGenerations.GetSnapshotThatContainsHash [7]).2
      = some ({ DBWriteCacher := storeWith "snapshots/1" [[7]] } :
          snapshotDb).IncreaseNumReferences ∧
    (threeGenerations.GetSnapshotThatContainsHash [8]).2 = none :=
  ⟨((C11_returns_newest_containing_entry threeGenerations [7]).2.1 1
      { DBWriteCacher := storeWith "snapshots/1" [[7]] } rfl rfl
      (by
        intro j t hj ht
        rcases j with _ | _ | _ | j
        · omega
        · omega
        · simp only [threeGenerations, List.getElem?_cons_succ, List.getElem?_cons_zero,
            Option.some.injEq] at ht
          subst ht
          rfl
        · simp [threeGenerations] at ht)).1,
    (C11_returns_newest_containing_entry threeGenerations [8]).1.2
      (by
        intro s hs
        simp only [threeGenerations, List.mem_cons, List.mem_singleton, List.not_mem_nil,
          or_false] at hs
        rcases hs with rfl | rfl | rfl <;> rfl)⟩

/-- C12 at three generations with the hash present in generation 1 only: the
reference count of generation 1 goes from 0 to 1 and the other two entries
are unchanged. -/
theorem C12_reference_count_frame_witness :
    (threeGenerations.GetSnapshotThatContainsHash [7]).1.snapshots.map
      (fun s => (s.DBWriteCacher.Path, s.numReferences))
      = [("snapshots/0", 0), ("snapshots/1", 1), ("snapshots/2", 0)] ∧
    ∃ (i : Nat) (s : snapshotDb), threeGenerations.snapshots[i]? = some s ∧
      (threeGenerations.GetSnapshotThatContainsHash [7]).1.snapshots[i]?
        = some { s with numReferences := s.numReferences + 1 } := by
  obtain ⟨i, s, h1, h2, h3, _⟩ := (C12_reference_count_frame threeGenerations [7]).2.1
    (({ DBWriteCacher := storeWith "snapshots/1" [[7]] } : snapshotDb).IncreaseNumReferences) rfl
  exact ⟨by decide, i, s, h1, h2 ▸ h3⟩

/-- C14 at a manager whose active store and middle generation fail to close:
the error returned wraps the failure of the middle generation. -/
theorem C14_close_returns_last_failure_witness :
    failingManager.Close.2
      = some (.wrapped "trieStorageManager close failed" (.other "generation 1 failed")) :=
  (C14_close_returns_last_failure failingManager).2.2.1
    [{ DBWriteCacher := emptyStore "snapshots/0" }]
    { DBWriteCacher := failingStore "snapshots/1" (.other "generation 1 failed") }
    [{ DBWriteCacher := emptyStore "snapshots/2" }] (.other "generation 1 failed") rfl rfl
    (by
      intro t ht
      simp only [List.mem_singleton] at ht
      subst ht
      rfl)

/-- C13 at the same manager: every close counter goes from 0 to 1, the ones of
the generations after the failing one included. -/
theorem C13_close_closes_every_handle_witness :
    failingManager.Close.1.db.closeCalls = 1 ∧
    failingManager.Close.1.snapshots.map (fun s => s.DBWriteCacher.closeCalls) = [1, 1, 1] := by
  have h := C13_close_closes_every_handle failingManager
  exact ⟨h.2.1, h.2.2.2.2⟩

/-- Method `disconnectSnapshot` of the manager calls none of the recorded functions. -/
theorem disconnectSnapshot_calls (tsm : trieStorageManager) (w : World) :
    (tsm.disconnectSnapshot w).2.calls = w.calls := by
  unfold trieStorageManager.disconnectSnapshot
  split
  · rfl
  · split <;> rfl

/-- Method `removeSnapshot` of the manager calls none of the recorded functions. -/
theorem removeSnapshot_calls (tsm : trieStorageManager) (w : World) :
    (tsm.removeSnapshot w).2.calls = w.calls := by
  unfold trieStorageManager.removeSnapshot
  split
  · rfl
  · simp only
    split
    · rfl
    · unfold removeSnapshot
      split <;> rfl

/-- Method `newSnapshotDb` touches neither the active store, nor the counter
of pruning-blocking operations, nor the request queues, nor the checkpoint
hashes holder, and calls none of the recorded functions. -/
theorem newSnapshotDb_frame (fuel : Nat) (tsm : trieStorageManager) (w : World)
    (r : trieStorageManager × World × Except Error Persister)
    (h : tsm.newSnapshotDb fuel w = some r) :
    r.1.db = tsm.db ∧ r.1.pruningBlockingOps = tsm.pruningBlockingOps ∧
    r.1.snapshotReq = tsm.snapshotReq ∧ r.1.checkpointReq = tsm.checkpointReq ∧
    r.1.checkpointHashesHolder = tsm.checkpointHashesHolder ∧
    r.2.1.calls = w.calls := by
  unfold trieStorageManager.newSnapshotDb at h
  split at h
  · cases h
  · simp only at h
    split at h <;> (cases h; exact ⟨rfl, rfl, rfl, rfl, rfl, rfl⟩)

/-- Method `getSnapshotDb` touches neither the active store, nor the counter
of pruning-blocking operations, nor the request queues, nor the checkpoint
hashes holder, and calls none of the recorded functions. -/
theorem getSnapshotDb_frame (fuel : Nat) (tsm : trieStorageManager) (w : World)
    (newDb : Bool) (r : trieStorageManager × World × Option Persister)
    (h : tsm.getSnapshotDb fuel w newDb = some r) :
    r.1.db = tsm.db ∧ r.1.pruningBlockingOps = tsm.pruningBlockingOps ∧
    r.1.snapshotReq = tsm.snapshotReq ∧ r.1.checkpointReq = tsm.checkpointReq ∧
    r.1.checkpointHashesHolder = tsm.checkpointHashesHolder ∧
    r.2.1.calls = w.calls := by
  unfold trieStorageManager.getSnapshotDb at h
  simp only at h
  split at h
  · cases h; exact ⟨rfl, rfl, rfl, rfl, rfl, rfl⟩
  · split at h
    · cases h
    · rename_i h2; cases h; exact newSnapshotDb_frame _ _ _ _ h2
    · rename_i t1 w1 db1 h2
      have hn := newSnapshotDb_frame _ _ _ _ h2
      simp only at hn
      split at h
      · split at h
        · cases h
          simp only [(disconnectSnapshot_registry t1 w1).1, disconnectSnapshot_calls]
          exact hn
        · cases h
          simp only [(removeSnapshot_registry t1 w1).1, removeSnapshot_calls]
          exact hn
      · cases h; exact hn

/-- Method `GetSnapshotThatContainsHash` touches the registry only. -/
theorem GetSnapshotThatContainsHash_fields (tsm : trieStorageManager) (rootHash : Bytes) :
    (tsm.GetSnapshotThatContainsHash rootHash).1.db = tsm.db ∧
    (tsm.GetSnapshotThatContainsHash rootHash).1.pruningBlockingOps = tsm.pruningBlockingOps ∧
    (tsm.GetSnapshotThatContainsHash rootHash).1.snapshotReq = tsm.snapshotReq ∧
    (tsm.GetSnapshotThatContainsHash rootHash).1.checkpointReq = tsm.checkpointReq ∧
    (tsm.GetSnapshotThatContainsHash rootHash).1.checkpointHashesHolder
      = tsm.checkpointHashesHolder := by
  unfold trieStorageManager.GetSnapshotThatContainsHash
  split
  · exact ⟨rfl, rfl, rfl, rfl, rfl⟩
  · split <;> exact ⟨rfl, rfl, rfl, rfl, rfl⟩

/-- The deferred function decrements the counter of pruning-blocking
operations when it is positive and touches neither the request queues, nor
the active store, nor the checkpoint hashes holder, nor the recorded calls. -/
theorem deferredFinish_fields (e : snapshotsQueueEntry) (tsm : trieStorageManager)
    (w : World) :
    (deferredFinish e tsm w).1.pruningBlockingOps = tsm.pruningBlockingOps - 1 ∧
    (deferredFinish e tsm w).1.snapshotReq = tsm.snapshotReq ∧
    (deferredFinish e tsm w).1.checkpointReq = tsm.checkpointReq ∧
    (deferredFinish e tsm w).1.db = tsm.db ∧
    (deferredFinish e tsm w).1.checkpointHashesHolder = tsm.checkpointHashesHolder ∧
    (deferredFinish e tsm w).2.calls = w.calls ∧
    (deferredFinish e tsm w).2.evicted = w.evicted := by
  unfold deferredFinish trieStorageManager.ExitPruningBufferingMode
  refine ⟨?_, ?_, ?_, ?_, ?_, ?_, ?_⟩
  · simp only; split
    · rename_i h; simp at h; omega
    · rfl
  · simp only; split <;> rfl
  · simp only; split <;> rfl
  · simp only; split <;> rfl
  · simp only; split <;> rfl
  · simp only; cases e.leavesChan <;> rfl
  · simp only; cases e.leavesChan <;> rfl

/-- The paths of `takeSnapshot`: a call that returns has recorded the load of
the root from the read source, and then either the load failed, or
`getSnapshotDb` returned nil, or the trie was committed from the read source
into the store that `getSnapshotDb` returned; the deferred function ran last
in each case. -/
theorem takeSnapshot_paths (fuel : Nat) (tsm : trieStorageManager) (w : World)
    (e : snapshotsQueueEntry) (st : trieStorageManager × World)
    (found : trieStorageManager × Option snapshotDb)
    (hfound : found = (if tsm.isPresentInLastSnapshotDb e.rootHash then
      tsm.GetSnapshotThatContainsHash e.rootHash else (tsm, none)))
    (h : tsm.takeSnapshot fuel w e = some st) :
    (∃ err, w.getNodeFromDBAndDecode e.rootHash (tsm.readSource e.rootHash) = .error err ∧
      st = deferredFinish e found.1
        (w.record (.getNodeFromDBAndDecode e.rootHash (tsm.readSource e.rootHash)))) ∨
    (∃ newRoot t1 w1,
      w.getNodeFromDBAndDecode e.rootHash (tsm.readSource e.rootHash) = .ok newRoot ∧
      found.1.getSnapshotDb fuel
        (w.record (.getNodeFromDBAndDecode e.rootHash (tsm.readSource e.rootHash))) e.newDb
        = some (t1, w1, none) ∧
      st = deferredFinish e t1 w1) ∨
    (∃ newRoot t1 w1 newDb,
      w.getNodeFromDBAndDecode e.rootHash (tsm.readSource e.rootHash) = .ok newRoot ∧
      found.1.getSnapshotDb fuel
        (w.record (.getNodeFromDBAndDecode e.rootHash (tsm.readSource e.rootHash))) e.newDb
        = some (t1, w1, some newDb) ∧
      st = deferredFinish e t1
        (w1.record (.commitSnapshot newRoot (tsm.readSource e.rootHash) newDb e.leavesChan))) := by
  unfold trieStorageManager.takeSnapshot at h
  unfold trieStorageManager.readSource
  simp only at h ⊢
  rw [← hfound] at h ⊢
  generalize hdb : (match found.2 with
      | some h => DB.snapshot h
      | none => DB.active found.1.db) = db at h ⊢
  have hrec : (w.record (.getNodeFromDBAndDecode e.rootHash db)).getNodeFromDBAndDecode
      = w.getNodeFromDBAndDecode := rfl
  rw [hrec] at h
  split at h
  · rename_i err herr
    left
    simp only [Option.map_some', Option.some.injEq] at h
    exact ⟨err, herr, h.symm⟩
  · rename_i newRoot hok
    right
    split at h
    · simp at h
    · rename_i t1 w1 h2
      left
      simp only [Option.map_some', Option.some.injEq] at h
      exact ⟨newRoot, t1, w1, hok, h2, h.symm⟩
    · rename_i t1 w1 newDb h2
      right
      refine ⟨newRoot, t1, w1, newDb, hok, h2, ?_⟩
      split at h <;>
        (simp only [Option.map_some', Option.some.injEq] at h; exact h.symm)

/-- The paths of `takeCheckpoint`: a call that returns either found the root in
the newest entry and did nothing, or has recorded the load of the root from the
active store, after which either the load failed, or `getSnapshotDb` returned
nil, or the trie was committed from the active store into the store that
`getSnapshotDb` returned; the deferred function ran last in each case. -/
theorem takeCheckpoint_paths (fuel : Nat) (tsm : trieStorageManager) (w : World)
    (e : snapshotsQueueEntry) (st : trieStorageManager × World)
    (h : tsm.takeCheckpoint fuel w e = some st) :
    (tsm.isPresentInLastSnapshotDb e.rootHash = true ∧ st = deferredFinish e tsm w) ∨
    (tsm.isPresentInLastSnapshotDb e.rootHash = false ∧
      ((∃ err, w.getNodeFromDBAndDecode e.rootHash (.active tsm.db) = .error err ∧
        st = deferredFinish e tsm
          (w.record (.getNodeFromDBAndDecode e.rootHash (.active tsm.db)))) ∨
      (∃ newRoot t1 w1,
        w.getNodeFromDBAndDecode e.rootHash (.active tsm.db) = .ok newRoot ∧
        tsm.getSnapshotDb fuel
          (w.record (.getNodeFromDBAndDecode e.rootHash (.active tsm.db))) e.newDb
          = some (t1, w1, none) ∧
        st = deferredFinish e t1 w1) ∨
      (∃ newRoot t1 w1 db,
        w.getNodeFromDBAndDecode e.rootHash (.active tsm.db) = .ok newRoot ∧
        tsm.getSnapshotDb fuel
          (w.record (.getNodeFromDBAndDecode e.rootHash (.active tsm.db))) e.newDb
          = some (t1, w1, some db) ∧
        st = deferredFinish e t1
          (w1.record (.commitCheckpoint newRoot t1.db db e.leavesChan))))) := by
  unfold trieStorageManager.takeCheckpoint at h
  simp only at h
  have hrec : (w.record (.getNodeFromDBAndDecode e.rootHash (.active tsm.db))).getNodeFromDBAndDecode
      = w.getNodeFromDBAndDecode := rfl
  rw [hrec] at h
  split at h
  · rename_i hp
    left
    simp only [Option.map_some', Option.some.injEq] at h
    exact ⟨hp, h.symm⟩
  · rename_i hp
    right
    refine ⟨by simpa using hp, ?_⟩
    split at h
    · rename_i err herr
      left
      simp only [Option.map_some', Option.some.injEq] at h
      exact ⟨err, herr, h.symm⟩
    · rename_i newRoot hok
      right
      split at h
      · simp at h
      · rename_i t1 w1 h2
        left
        simp only [Option.map_some', Option.some.injEq] at h
        exact ⟨newRoot, t1, w1, hok, h2, h.symm⟩
      · rename_i t1 w1 db h2
        right
        refine ⟨newRoot, t1, w1, db, hok, h2, ?_⟩
        split at h <;>
          (simp only [Option.map_some', Option.some.injEq] at h; exact h.symm)

/-- Method `takeCheckpoint` returns when the loop of `newSnapshotDb` finds a
free id within the fuel. -/
theorem takeCheckpoint_isSome (fuel : Nat) (tsm : trieStorageManager) (w : World)
    (e : snapshotsQueueEntry)
    (h : (findFreeSnapshotId w tsm.snapshotDbCfg fuel tsm.snapshotId).isSome = true) :
    (tsm.takeCheckpoint fuel w e).isSome = true := by
  unfold trieStorageManager.takeCheckpoint
  simp only
  split
  · rfl
  · split
    · rfl
    · have hsome := getSnapshotDb_isSome fuel tsm
        (w.record (.getNodeFromDBAndDecode e.rootHash (.active tsm.db))) e.newDb
        (by
          rw [findFreeSnapshotId_congr w
            (w.record (.getNodeFromDBAndDecode e.rootHash (.active tsm.db))) _ rfl]
          exact h)
      split
      · rename_i h2; rw [h2] at hsome; cases hsome
      · rfl
      · split <;> rfl

/-- When `isPresentInLastSnapshotDb` is true the registry has a newest entry
whose `Get` returns no error for the hash, and the loop of
`GetSnapshotThatContainsHash` stops at it. -/
theorem isPresentInLastSnapshotDb_newest (tsm : trieStorageManager) (rootHash : Bytes)
    (h : tsm.isPresentInLastSnapshotDb rootHash = true) :
    ∃ newest, tsm.snapshots.getLast? = some newest ∧
      tsm.snapshots[tsm.snapshots.length - 1]? = some newest ∧
      findSnapshotIndex tsm.snapshots rootHash tsm.snapshots.length
        = some (tsm.snapshots.length - 1) := by
  unfold trieStorageManager.isPresentInLastSnapshotDb at h
  split at h
  · cases h
  · rename_i last hlast
    simp only at h
    have hc : (last.Get rootHash).2.isNone = true := by
      cases hg : (last.Get rootHash).2 with
      | none => rfl
      | some x => rw [hg] at h; simp at h
    have hidx : tsm.snapshots[tsm.snapshots.length - 1]? = some last := by
      rw [← List.getLast?_eq_getElem?]; exact hlast
    refine ⟨last, hlast, hidx, ?_⟩
    have hne : tsm.snapshots ≠ [] := by
      intro hn; rw [hn] at hlast; cases hlast
    obtain ⟨n, hn⟩ : ∃ n, tsm.snapshots.length = n + 1 :=
      ⟨tsm.snapshots.length - 1, by
        have := List.length_pos.2 hne; omega⟩
    rw [hn] at hidx ⊢
    simp only [Nat.add_sub_cancel] at hidx ⊢
    unfold findSnapshotIndex
    rw [hidx]
    simp only [hc, if_true]

/-- C21: when `isPresentInLastSnapshotDb` is true for the root of the entry,
`takeCheckpoint` returns having called neither `getNodeFromDBAndDecode` nor
`commitCheckpoint` (no read of the trie from the active store, no node
written), with the registry, `snapshotId`, the checkpoint hashes holder, the
directories on disk and the evicted handles as they were (no generation
created). Otherwise every call it records reads from the active store
`tsm.db`: the load of the root is from `tsm.db`, and what follows it can only
be one `commitCheckpoint` whose origin is `tsm.db`; and the call returns when
the loop of `newSnapshotDb` finds a free id within the fuel. -/
theorem C21_checkpoint_skips_root_present_in_newest (fuel : Nat) (tsm : trieStorageManager)
    (w : World) (e : snapshotsQueueEntry) :
    (tsm.isPresentInLastSnapshotDb e.rootHash = true →
      ∃ st, tsm.takeCheckpoint fuel w e = some st ∧
        st.2.calls = w.calls ∧
        st.1.snapshots = tsm.snapshots ∧ st.1.snapshotId = tsm.snapshotId ∧
        st.1.checkpointHashesHolder = tsm.checkpointHashesHolder ∧
        st.2.directoryExists = w.directoryExists ∧ st.2.evicted = w.evicted ∧
        st.2.removeDirectoryCalls = w.removeDirectoryCalls) ∧
    (tsm.isPresentInLastSnapshotDb e.rootHash = false →
      ((findFreeSnapshotId w tsm.snapshotDbCfg fuel tsm.snapshotId).isSome = true →
        (tsm.takeCheckpoint fuel w e).isSome = true) ∧
      ∀ st, tsm.takeCheckpoint fuel w e = some st →
        ∃ rest, st.2.calls
            = w.calls ++ ExternalCall.getNodeFromDBAndDecode e.rootHash (.active tsm.db) :: rest ∧
          (rest = [] ∨ ∃ newRoot targetDb,
            rest = [ExternalCall.commitCheckpoint newRoot tsm.db targetDb e.leavesChan])) := by
  refine ⟨?_, ?_⟩
  · intro hp
    have hsome : tsm.takeCheckpoint fuel w e = some (deferredFinish e tsm w) := by
      unfold trieStorageManager.takeCheckpoint
      simp only [hp, if_true, Option.map_some']
    have h1 := deferredFinish_frame e tsm w
    have h2 := deferredFinish_fields e tsm w
    exact ⟨_, hsome, h2.2.2.2.2.2.1, h1.1, h1.2.1, h2.2.2.2.2.1, h1.2.2.1, h2.2.2.2.2.2.2,
      h1.2.2.2⟩
  · intro hp
    refine ⟨takeCheckpoint_isSome fuel tsm w e, ?_⟩
    intro st hst
    rcases takeCheckpoint_paths fuel tsm w e st hst with ⟨hp2, _⟩ | ⟨_, hcase⟩
    · rw [hp] at hp2; cases hp2
    · rcases hcase with ⟨err, _, hst2⟩ | ⟨newRoot, t1, w1, _, hget, hst2⟩ |
        ⟨newRoot, t1, w1, db, _, hget, hst2⟩
      · refine ⟨[], ?_, Or.inl rfl⟩
        rw [hst2, (deferredFinish_fields e tsm _).2.2.2.2.2.1]
        rfl
      · refine ⟨[], ?_, Or.inl rfl⟩
        have hf := getSnapshotDb_frame _ _ _ _ _ hget
        rw [hst2, (deferredFinish_fields e t1 w1).2.2.2.2.2.1]
        exact hf.2.2.2.2.2
      · have hf := getSnapshotDb_frame _ _ _ _ _ hget
        refine ⟨[.commitCheckpoint newRoot tsm.db db e.leavesChan], ?_, Or.inr ⟨_, _, rfl⟩⟩
        rw [hst2, (deferredFinish_fields e t1 _).2.2.2.2.2.1]
        have hc : w1.calls = w.calls ++ [.getNodeFromDBAndDecode e.rootHash (.active tsm.db)] :=
          hf.2.2.2.2.2
        have hdb : t1.db = tsm.db := hf.1
        show w1.calls ++ [ExternalCall.commitCheckpoint newRoot t1.db db e.leavesChan] = _
        rw [hc, hdb]
        simp

/-- C22: when `isPresentInLastSnapshotDb` is true for the root,
`GetSnapshotThatContainsHash` returns the newest registry entry (never nil,
never an older entry), with its reference count incremented, and that handle
is the read source of `takeSnapshot`; when it is false the read source is the
active store `tsm.db`. Every call that `takeSnapshot` records reads from that
source: the load of the root, which is always recorded first, and the one
`commitSnapshot` that may follow it; and the call returns when the loop of
`newSnapshotDb` finds a free id within the fuel. -/
theorem C22_snapshot_read_source (fuel : Nat) (tsm : trieStorageManager) (w : World)
    (e : snapshotsQueueEntry) :
    (tsm.isPresentInLastSnapshotDb e.rootHash = true →
      ∃ newest, tsm.snapshots.getLast? = some newest ∧
        tsm.GetSnapshotThatContainsHash e.rootHash =
          ({ tsm with snapshots :=
              tsm.snapshots.set (tsm.snapshots.length - 1) newest.IncreaseNumReferences },
            some newest.IncreaseNumReferences) ∧
        tsm.readSource e.rootHash = .snapshot newest.IncreaseNumReferences) ∧
    (tsm.isPresentInLastSnapshotDb e.rootHash = false →
      tsm.readSource e.rootHash = .active tsm.db) ∧
    ((findFreeSnapshotId w tsm.snapshotDbCfg fuel tsm.snapshotId).isSome = true →
      (tsm.takeSnapshot fuel w e).isSome = true) ∧
    (∀ st, tsm.takeSnapshot fuel w e = some st →
      ∃ rest, st.2.calls = w.calls ++
          ExternalCall.getNodeFromDBAndDecode e.rootHash (tsm.readSource e.rootHash) :: rest ∧
        (rest = [] ∨ ∃ newRoot newDb,
          rest = [ExternalCall.commitSnapshot newRoot (tsm.readSource e.rootHash) newDb
            e.leavesChan])) := by
  refine ⟨?_, ?_, ?_, ?_⟩
  · intro hp
    obtain ⟨newest, hlast, hidx, hfind⟩ := isPresentInLastSnapshotDb_newest tsm e.rootHash hp
    have hget : tsm.GetSnapshotThatContainsHash e.rootHash =
        ({ tsm with snapshots :=
            tsm.snapshots.set (tsm.snapshots.length - 1) newest.IncreaseNumReferences },
          some newest.IncreaseNumReferences) := by
      unfold trieStorageManager.GetSnapshotThatContainsHash
      rw [hfind]
      simp only [hidx]
    refine ⟨newest, hlast, hget, ?_⟩
    unfold trieStorageManager.readSource
    simp only [hp, if_true, hget]
  · intro hp
    unfold trieStorageManager.readSource
    simp only [hp, Bool.false_eq_true, if_false]
  · intro hfree
    obtain ⟨st, hst, _⟩ := takeSnapshot_closes_leavesChan fuel tsm w e hfree
    rw [hst]; rfl
  · intro st hst
    rcases takeSnapshot_paths fuel tsm w e st _ rfl hst with ⟨err, _, hst2⟩ |
      ⟨newRoot, t1, w1, _, hget, hst2⟩ | ⟨newRoot, t1, w1, newDb, _, hget, hst2⟩
    · refine ⟨[], ?_, Or.inl rfl⟩
      rw [hst2, (deferredFinish_fields e _ _).2.2.2.2.2.1]
      rfl
    · refine ⟨[], ?_, Or.inl rfl⟩
      have hf := getSnapshotDb_frame _ _ _ _ _ hget
      rw [hst2, (deferredFinish_fields e t1 w1).2.2.2.2.2.1]
      exact hf.2.2.2.2.2
    · have hf := getSnapshotDb_frame _ _ _ _ _ hget
      refine ⟨[.commitSnapshot newRoot (tsm.readSource e.rootHash) newDb e.leavesChan], ?_,
        Or.inr ⟨_, _, rfl⟩⟩
      rw [hst2, (deferredFinish_fields e t1 _).2.2.2.2.2.1]
      have hc : w1.calls = w.calls ++
          [.getNodeFromDBAndDecode e.rootHash (tsm.readSource e.rootHash)] := hf.2.2.2.2.2
      show w1.calls ++ [_] = _
      rw [hc]
      simp

/-- Method `takeSnapshot` leaves the counter of pruning-blocking operations
one lower (at zero when it was zero) and touches neither request queue. -/
theorem takeSnapshot_fields (fuel : Nat) (tsm : trieStorageManager) (w : World)
    (e : snapshotsQueueEntry) (st : trieStorageManager × World)
    (h : tsm.takeSnapshot fuel w e = some st) :
    st.1.pruningBlockingOps = tsm.pruningBlockingOps - 1 ∧
    st.1.snapshotReq = tsm.snapshotReq ∧ st.1.checkpointReq = tsm.checkpointReq := by
  have hfound : ∀ found : trieStorageManager × Option snapshotDb,
      found = (if tsm.isPresentInLastSnapshotDb e.rootHash then
        tsm.GetSnapshotThatContainsHash e.rootHash else (tsm, none)) →
      found.1.pruningBlockingOps = tsm.pruningBlockingOps ∧
      found.1.snapshotReq = tsm.snapshotReq ∧ found.1.checkpointReq = tsm.checkpointReq := by
    intro found hf
    rw [hf]
    have hg := GetSnapshotThatContainsHash_fields tsm e.rootHash
    split
    · exact ⟨hg.2.1, hg.2.2.1, hg.2.2.2.1⟩
    · exact ⟨rfl, rfl, rfl⟩
  have hf := hfound _ rfl
  rcases takeSnapshot_paths fuel tsm w e st _ rfl h with ⟨err, _, hst⟩ |
    ⟨newRoot, t1, w1, _, hget, hst⟩ | ⟨newRoot, t1, w1, newDb, _, hget, hst⟩
  · have hd := deferredFinish_fields e
      (if tsm.isPresentInLastSnapshotDb e.rootHash then
        tsm.GetSnapshotThatContainsHash e.rootHash else (tsm, none)).1
      (w.record (.getNodeFromDBAndDecode e.rootHash (tsm.readSource e.rootHash)))
    rw [hst, hd.1, hd.2.1, hd.2.2.1, hf.1, hf.2.1, hf.2.2]
    exact ⟨rfl, rfl, rfl⟩
  · have hg := getSnapshotDb_frame _ _ _ _ _ hget
    have hd := deferredFinish_fields e t1 w1
    rw [hst, hd.1, hd.2.1, hd.2.2.1]
    exact ⟨by rw [hg.2.1, hf.1], by rw [hg.2.2.1, hf.2.1], by rw [hg.2.2.2.1, hf.2.2]⟩
  · have hg := getSnapshotDb_frame _ _ _ _ _ hget
    have hd := deferredFinish_fields e t1
      (w1.record (.commitSnapshot newRoot (tsm.readSource e.rootHash) newDb e.leavesChan))
    rw [hst, hd.1, hd.2.1, hd.2.2.1]
    exact ⟨by rw [hg.2.1, hf.1], by rw [hg.2.2.1, hf.2.1], by rw [hg.2.2.2.1, hf.2.2]⟩

/-- Method `takeCheckpoint` leaves the counter of pruning-blocking operations
one lower (at zero when it was zero) and touches neither request queue. -/
theorem takeCheckpoint_fields (fuel : Nat) (tsm : trieStorageManager) (w : World)
    (e : snapshotsQueueEntry) (st : trieStorageManager × World)
    (h : tsm.takeCheckpoint fuel w e = some st) :
    st.1.pruningBlockingOps = tsm.pruningBlockingOps - 1 ∧
    st.1.snapshotReq = tsm.snapshotReq ∧ st.1.checkpointReq = tsm.checkpointReq := by
  rcases takeCheckpoint_paths fuel tsm w e st h with ⟨_, hst⟩ | ⟨_, hcase⟩
  · have hd := deferredFinish_fields e tsm w
    rw [hst]
    exact ⟨hd.1, hd.2.1, hd.2.2.1⟩
  · rcases hcase with ⟨err, _, hst⟩ | ⟨newRoot, t1, w1, _, hget, hst⟩ |
      ⟨newRoot, t1, w1, db, _, hget, hst⟩
    · have hd := deferredFinish_fields e tsm
        (w.record (.getNodeFromDBAndDecode e.rootHash (.active tsm.db)))
      rw [hst]
      exact ⟨hd.1, hd.2.1, hd.2.2.1⟩
    · have hg := getSnapshotDb_frame _ _ _ _ _ hget
      have hd := deferredFinish_fields e t1 w1
      rw [hst, hd.1, hd.2.1, hd.2.2.1]
      exact ⟨by rw [hg.2.1], hg.2.2.1, hg.2.2.2.1⟩
    · have hg := getSnapshotDb_frame _ _ _ _ _ hget
      have hd := deferredFinish_fields e t1
        (w1.record (.commitCheckpoint newRoot t1.db db e.leavesChan))
      rw [hst, hd.1, hd.2.1, hd.2.2.1]
      exact ⟨by rw [hg.2.1], hg.2.2.1, hg.2.2.2.1⟩

/-- Along the worker loop the counter of pruning-blocking operations stays at
least the number of requests waiting in the two queues, as long as it does not
wrap around: each request was counted when it was queued and is discounted
only after it has been executed. -/
theorem storageProcessLoop_pending (EmptyTrieHash : Bytes) (fuel : Nat) :
    ∀ (events : List LoopEvent) (st : trieStorageManager × World)
      (r : trieStorageManager × World × List Executed),
      st.1.snapshotReq.length + st.1.checkpointReq.length ≤ st.1.pruningBlockingOps →
      st.1.pruningBlockingOps + events.length < 2 ^ 32 →
      trieStorageManager.storageProcessLoop EmptyTrieHash fuel events st = some r →
      r.1.snapshotReq.length + r.1.checkpointReq.length ≤ r.1.pruningBlockingOps := by
  intro events
  induction events with
  | nil =>
    intro st r hinv _ h
    simp only [trieStorageManager.storageProcessLoop, Option.some.injEq] at h
    rw [← h]; exact hinv
  | cons ev events ih =>
    intro st r hinv hb h
    simp only [List.length_cons] at hb
    cases ev with
    | TakeSnapshot rootHash newDb leavesChan =>
      simp only [trieStorageManager.storageProcessLoop] at h
      refine ih _ r ?_ ?_ h
      · simp only [trieStorageManager.TakeSnapshot,
          trieStorageManager.EnterPruningBufferingMode, wrapUint32]
        split
        · exact hinv
        · simp only [List.length_append, List.length_singleton]
          rw [Nat.mod_eq_of_lt (by omega)]
          omega
      · simp only [trieStorageManager.TakeSnapshot,
          trieStorageManager.EnterPruningBufferingMode, wrapUint32]
        split
        · omega
        · simp only
          rw [Nat.mod_eq_of_lt (by omega)]
          omega
    | SetCheckpoint rootHash leavesChan =>
      simp only [trieStorageManager.storageProcessLoop] at h
      refine ih _ r ?_ ?_ h
      · simp only [trieStorageManager.SetCheckpoint,
          trieStorageManager.EnterPruningBufferingMode, wrapUint32]
        split
        · exact hinv
        · simp only [List.length_append, List.length_singleton]
          rw [Nat.mod_eq_of_lt (by omega)]
          omega
      · simp only [trieStorageManager.SetCheckpoint,
          trieStorageManager.EnterPruningBufferingMode, wrapUint32]
        split
        · omega
        · simp only
          rw [Nat.mod_eq_of_lt (by omega)]
          omega
    | receiveSnapshot =>
      simp only [trieStorageManager.storageProcessLoop] at h
      split at h
      · exact ih st r hinv (by omega) h
      · rename_i e rest hq
        split at h
        · cases h
        · rename_i st2 hrun
          obtain ⟨h1, h2, h3⟩ := takeSnapshot_fields _ _ _ _ _ hrun
          simp only at h1 h2 h3
          rw [hq] at hinv
          simp only [List.length_cons] at hinv
          simp only [Option.map_eq_some'] at h
          obtain ⟨r2, hr2, hr⟩ := h
          have := ih st2 r2 (by rw [h1, h2, h3]; omega) (by rw [h1]; omega) hr2
          rw [← hr]; exact this
    | receiveCheckpoint =>
      simp only [trieStorageManager.storageProcessLoop] at h
      split at h
      · exact ih st r hinv (by omega) h
      · rename_i e rest hq
        split at h
        · cases h
        · rename_i st2 hrun
          obtain ⟨h1, h2, h3⟩ := takeCheckpoint_fields _ _ _ _ _ hrun
          simp only at h1 h2 h3
          rw [hq] at hinv
          simp only [List.length_cons] at hinv
          simp only [Option.map_eq_some'] at h
          obtain ⟨r2, hr2, hr⟩ := h
          have := ih st2 r2 (by rw [h1, h2, h3]; omega) (by rw [h1]; omega) hr2
          rw [← hr]; exact this
    | done =>
      simp only [trieStorageManager.storageProcessLoop, Option.some.injEq] at h
      rw [← h]; exact hinv

/-- C23: for a root hash other than `EmptyTrieHash` and a counter below
2^32 - 1, `TakeSnapshot` (resp. `SetCheckpoint`) returns with
`pruningBlockingOps` one higher, `IsPruningBlocked()` true and its entry last
in `snapshotReq` (resp. `checkpointReq`); `takeSnapshot` and `takeCheckpoint`
return (when the loop of `newSnapshotDb` finds a free id within the fuel) and
every return leaves the counter one lower than it found it, whatever path was
taken, so the worker run on a counter as the call left it restores the value
before the call; and along the worker loop the counter stays at least the
number of queued requests, so `IsPruningBlocked()` is true as long as a
request is waiting. -/
theorem C23_request_blocks_pruning_until_executed (EmptyTrieHash rootHash : Bytes)
    (tsm : trieStorageManager) (newDb : Bool) (leavesChan : Option Nat)
    (hroot : rootHash ≠ EmptyTrieHash) (hb : tsm.pruningBlockingOps < 2 ^ 32 - 1) :
    ((tsm.TakeSnapshot EmptyTrieHash rootHash newDb leavesChan).pruningBlockingOps
        = tsm.pruningBlockingOps + 1 ∧
      (tsm.TakeSnapshot EmptyTrieHash rootHash newDb leavesChan).IsPruningBlocked = true ∧
      (tsm.TakeSnapshot EmptyTrieHash rootHash newDb leavesChan).snapshotReq
        = tsm.snapshotReq ++ [{ rootHash := rootHash, newDb := newDb, leavesChan := leavesChan }]) ∧
    ((tsm.SetCheckpoint EmptyTrieHash rootHash leavesChan).pruningBlockingOps
        = tsm.pruningBlockingOps + 1 ∧
      (tsm.SetCheckpoint EmptyTrieHash rootHash leavesChan).IsPruningBlocked = true ∧
      (tsm.SetCheckpoint EmptyTrieHash rootHash leavesChan).checkpointReq
        = tsm.checkpointReq ++
          [{ rootHash := rootHash, newDb := false, leavesChan := leavesChan }]) ∧
    (∀ (fuel : Nat) (t : trieStorageManager) (w : World) (e : snapshotsQueueEntry),
      (findFreeSnapshotId w t.snapshotDbCfg fuel t.snapshotId).isSome = true →
      (t.takeSnapshot fuel w e).isSome = true ∧ (t.takeCheckpoint fuel w e).isSome = true) ∧
    (∀ (fuel : Nat) (t : trieStorageManager) (w : World) (e : snapshotsQueueEntry)
      (st : trieStorageManager × World),
      t.takeSnapshot fuel w e = some st ∨ t.takeCheckpoint fuel w e = some st →
      (0 < t.pruningBlockingOps → st.1.pruningBlockingOps + 1 = t.pruningBlockingOps) ∧
      (t.pruningBlockingOps
          = (tsm.TakeSnapshot EmptyTrieHash rootHash newDb leavesChan).pruningBlockingOps ∨
        t.pruningBlockingOps
          = (tsm.SetCheckpoint EmptyTrieHash rootHash leavesChan).pruningBlockingOps →
        st.1.pruningBlockingOps = tsm.pruningBlockingOps)) ∧
    (∀ (fuel : Nat) (events : List LoopEvent) (st : trieStorageManager × World)
      (r : trieStorageManager × World × List Executed),
      st.1.snapshotReq.length + st.1.checkpointReq.length ≤ st.1.pruningBlockingOps →
      st.1.pruningBlockingOps + events.length < 2 ^ 32 →
      trieStorageManager.storageProcessLoop EmptyTrieHash fuel events st = some r →
      r.1.snapshotReq ≠ [] ∨ r.1.checkpointReq ≠ [] → r.1.IsPruningBlocked = true) := by
  have hw : wrapUint32 (tsm.pruningBlockingOps + 1) = tsm.pruningBlockingOps + 1 := by
    unfold wrapUint32
    exact Nat.mod_eq_of_lt (by omega)
  have hT : (tsm.TakeSnapshot EmptyTrieHash rootHash newDb leavesChan).pruningBlockingOps
      = tsm.pruningBlockingOps + 1 := by
    simp only [trieStorageManager.TakeSnapshot, hroot, if_false,
      trieStorageManager.EnterPruningBufferingMode, hw]
  have hS : (tsm.SetCheckpoint EmptyTrieHash rootHash leavesChan).pruningBlockingOps
      = tsm.pruningBlockingOps + 1 := by
    simp only [trieStorageManager.SetCheckpoint, hroot, if_false,
      trieStorageManager.EnterPruningBufferingMode, hw]
  refine ⟨⟨hT, ?_, ?_⟩, ⟨hS, ?_, ?_⟩, ?_, ?_, ?_⟩
  · simp [trieStorageManager.IsPruningBlocked, hT]
  · simp only [trieStorageManager.TakeSnapshot, hroot, if_false,
      trieStorageManager.EnterPruningBufferingMode]
  · simp [trieStorageManager.IsPruningBlocked, hS]
  · simp only [trieStorageManager.SetCheckpoint, hroot, if_false,
      trieStorageManager.EnterPruningBufferingMode]
  · intro fuel t w e hfree
    obtain ⟨st, hst, _⟩ := takeSnapshot_closes_leavesChan fuel t w e hfree
    exact ⟨by rw [hst]; rfl, takeCheckpoint_isSome fuel t w e hfree⟩
  · intro fuel t w e st hrun
    have hdec : st.1.pruningBlockingOps = t.pruningBlockingOps - 1 := by
      rcases hrun with h | h
      · exact (takeSnapshot_fields fuel t w e st h).1
      · exact (takeCheckpoint_fields fuel t w e st h).1
    refine ⟨fun hpos => by omega, ?_⟩
    intro ht
    rw [hT, hS] at ht
    omega
  · intro fuel events st r hinv hbound hrun hq
    have := storageProcessLoop_pending EmptyTrieHash fuel events st r hinv hbound hrun
    have hpos : 0 < r.1.snapshotReq.length + r.1.checkpointReq.length := by
      rcases hq with h | h
      · have := List.length_pos.2 h; omega
      · have := List.length_pos.2 h; omega
    have hne : r.1.pruningBlockingOps ≠ 0 := by omega
    simp [trieStorageManager.IsPruningBlocked, hne]

/-- C23 at the root hash `[1]` on a fresh manager: the call leaves the counter
at 1 and pruning blocked. -/
theorem C23_request_blocks_pruning_witness :
    ([1] : Bytes) ≠ [] ∧ exampleManager.pruningBlockingOps < 2 ^ 32 - 1 ∧
    (exampleManager.TakeSnapshot [] [1] false none).pruningBlockingOps
      = exampleManager.pruningBlockingOps + 1 ∧
    (exampleManager.TakeSnapshot [] [1] false none).IsPruningBlocked = true :=
  ⟨by decide, by decide,
    (C23_request_blocks_pruning_until_executed [] [1] exampleManager false none
      (by decide) (by decide)).1.1,
    (C23_request_blocks_pruning_until_executed [] [1] exampleManager false none
      (by decide) (by decide)).1.2.1⟩

/-- Incrementing the reference count of one entry changes nothing of the
registry but reference counts. -/
theorem map_set_IncreaseNumReferences (snapshots : List snapshotDb) (i : Nat) (s : snapshotDb)
    (h : snapshots[i]? = some s) :
    (snapshots.set i s.IncreaseNumReferences).map (fun x => { x with numReferences := 0 })
      = snapshots.map (fun x => { x with numReferences := 0 }) := by
  apply List.ext_getElem?
  intro j
  simp only [List.getElem?_map]
  by_cases hj : i = j
  · subst hj
    have hlt : i < snapshots.length := by
      rcases Nat.lt_or_ge i snapshots.length with h1 | h1
      · exact h1
      · rw [List.getElem?_eq_none h1] at h; cases h
    rw [List.getElem?_set_self hlt, h]
    rfl
  · rw [List.getElem?_set_ne hj]

/-- C27: with `maxSnapshots` 0 and an empty registry, `getSnapshotDb` returns
the store it has just opened under `snapshots/0` after having evicted it: the
registry is empty after the call, the store has been closed once and the
removal of its directory `snapshots/0` has been started. Whenever
`maxSnapshots` is at least 1, or the registry is not empty before the call, a
store that is returned is that of the entry that is last in the registry
after the call. -/
theorem C27_zero_maxSnapshots_evicts_the_returned_store :
    (∃ t w db, zeroMaxSnapshotsManager.getSnapshotDb 10 (worldWithDisk []) true
        = some (t, w, some db) ∧
      db.Path = "snapshots/0" ∧ t.snapshots = [] ∧
      w.evicted.map (fun s => (s.DBWriteCacher.Path, s.DBWriteCacher.closeCalls))
        = [("snapshots/0", 1)] ∧
      w.removeDirectoryCalls = ["snapshots/0"]) ∧
    (∀ (fuel : Nat) (tsm : trieStorageManager) (w : World) (newDb : Bool)
      (t2 : trieStorageManager) (w2 : World) (db : Persister),
      1 ≤ tsm.maxSnapshots ∨ tsm.snapshots ≠ [] →
      tsm.getSnapshotDb fuel w newDb = some (t2, w2, some db) →
      t2.snapshots.getLast?.map (fun s => s.DBWriteCacher) = some db) := by
  refine ⟨⟨_, _, _, rfl, rfl, rfl, rfl, rfl⟩, ?_⟩
  intro fuel tsm w newDb t2 w2 db hpos hget
  rcases getSnapshotDb_cases fuel tsm w newDb t2 w2 (some db) hget with
    ⟨_, _, ht, _, hr⟩ | ⟨_, hr, _⟩ | ⟨hc, _⟩
  · rw [ht]; exact hr.symm
  · cases hr
  · obtain ⟨_, hsn, _⟩ := getSnapshotDb_created_registry fuel tsm w newDb t2 w2 db hc hget
    rw [hsn]
    split
    · rename_i hgt
      cases hs : tsm.snapshots with
      | nil =>
        rw [hs] at hgt
        simp only [List.length_nil, Nat.zero_add, wrapUint32] at hgt
        rcases hpos with h1 | h1
        · norm_num at hgt; omega
        · exact absurd hs h1
      | cons a rest =>
        simp
    · simp

/-- Method `newSnapshotDb` when its loop finds the free id `id` and
`storageUnit.NewDB` opens the store: the store is returned, its handle is
appended to the registry, `snapshotId` is the wrapped successor of `id` and
the directory of the store exists. -/
theorem newSnapshotDb_of_opened (fuel : Nat) (tsm : trieStorageManager) (w : World)
    (id : Int) (db : Persister)
    (hid : findFreeSnapshotId w tsm.snapshotDbCfg fuel tsm.snapshotId = some id)
    (hdb : w.NewDB (snapshotArgDB tsm.snapshotDbCfg (Itoa id)) = .ok db) :
    tsm.newSnapshotDb fuel w = some
      ({ tsm with
          snapshotId := wrapInt (id + 1)
          snapshots := tsm.snapshots ++ [{ DBWriteCacher := db }] },
        { w with
          directoryExists := fun p =>
            decide (p = (snapshotArgDB tsm.snapshotDbCfg (Itoa id)).Path) ||
              w.directoryExists p },
        .ok db) := by
  unfold trieStorageManager.newSnapshotDb
  rw [hid]
  simp only [hdb]

/-- Method `newSnapshotDb` when its loop finds the free id `id` and
`storageUnit.NewDB` fails: the error is returned and only `snapshotId`, left
at `id`, has changed. -/
theorem newSnapshotDb_of_failed (fuel : Nat) (tsm : trieStorageManager) (w : World)
    (id : Int) (err : Error)
    (hid : findFreeSnapshotId w tsm.snapshotDbCfg fuel tsm.snapshotId = some id)
    (hdb : w.NewDB (snapshotArgDB tsm.snapshotDbCfg (Itoa id)) = .error err) :
    tsm.newSnapshotDb fuel w = some ({ tsm with snapshotId := id }, w, .error err) := by
  unfold trieStorageManager.newSnapshotDb
  rw [hid]
  simp only [hdb]

/-- Method `getSnapshotDb` on the creation path, when the loop of
`newSnapshotDb` finds the free id `id` and `storageUnit.NewDB` opens the store
`db`: `db` is returned, the registry is the former one with the handle of `db`
appended, less its entry at index 0 when its length, read as a `uint32`,
exceeds `maxSnapshots`, `snapshotId` is the wrapped successor of `id`, and
the directory of the new generation exists. -/
theorem getSnapshotDb_of_opened (fuel : Nat) (tsm : trieStorageManager) (w : World)
    (newDb : Bool) (id : Int) (db : Persister)
    (hcreate : newDb = true ∨ tsm.snapshots = [])
    (hid : findFreeSnapshotId w tsm.snapshotDbCfg fuel tsm.snapshotId = some id)
    (hdb : w.NewDB (snapshotArgDB tsm.snapshotDbCfg (Itoa id)) = .ok db) :
    ∃ tsm2 w2, tsm.getSnapshotDb fuel w newDb = some (tsm2, w2, some db) ∧
      tsm2.snapshots =
        (if wrapUint32 (tsm.snapshots.length + 1) > tsm.maxSnapshots then
          (tsm.snapshots ++ [({ DBWriteCacher := db } : snapshotDb)]).drop 1
        else tsm.snapshots ++ [({ DBWriteCacher := db } : snapshotDb)]) ∧
      tsm2.snapshotId = wrapInt (id + 1) ∧
      w2.directoryExists (pathJoin tsm.snapshotDbCfg.FilePath (Itoa id)) = true ∧
      w2.calls = w.calls ∧ tsm2.db = tsm.db := by
  have hnew := newSnapshotDb_of_opened fuel tsm w id db hid hdb
  have hsome : ∃ r, tsm.getSnapshotDb fuel w newDb = some r ∧ r.2.2 = some db := by
    unfold trieStorageManager.getSnapshotDb
    have hc : (newDb || tsm.snapshots.length == 0) = true := by
      rcases hcreate with h1 | h1
      · simp [h1]
      · simp [h1]
    simp only [hc, Bool.not_true, Bool.false_eq_true, if_false, hnew]
    split
    · split <;> exact ⟨_, rfl, rfl⟩
    · exact ⟨_, rfl, rfl⟩
  obtain ⟨⟨tsm2, w2, r⟩, hget, hr⟩ := hsome
  simp only at hr
  subst hr
  obtain ⟨⟨id2, hid2, _, hsid⟩, hsn, _⟩ :=
    getSnapshotDb_created_registry fuel tsm w newDb tsm2 w2 db hcreate hget
  obtain ⟨tsm1, w1, hnew1, heq⟩ := getSnapshotDb_created fuel tsm w newDb tsm2 w2 db hcreate hget
  have hf := getSnapshotDb_frame fuel tsm w newDb _ hget
  rw [hid] at hid2
  cases hid2
  refine ⟨tsm2, w2, hget, hsn, hsid, ?_, hf.2.2.2.2.2, hf.1⟩
  rw [hnew] at hnew1
  simp only [Option.some.injEq, Prod.mk.injEq, and_true] at hnew1
  have hw1 : w1.directoryExists (pathJoin tsm.snapshotDbCfg.FilePath (Itoa id)) = true := by
    rw [← hnew1.2]
    simp [snapshotArgDB]
  split at heq
  · split at heq
    · have hw : w2 = (tsm1.disconnectSnapshot w1).2 := congrArg Prod.snd heq
      rw [hw, (disconnectSnapshot_registry tsm1 w1).2.2]; exact hw1
    · have hw : w2 = (tsm1.removeSnapshot w1).2 := congrArg Prod.snd heq
      rw [hw, (removeSnapshot_registry tsm1 w1).2.2]; exact hw1
  · have hw : w2 = w1 := congrArg Prod.snd heq
    rw [hw]; exact hw1

/-- C20: `getSnapshotDb` creates a new generation if and only if `newDb` is
true or the registry is empty. With `newDb = false` and a non-empty registry
it returns the newest registry entry and leaves the manager (registry,
`snapshotId`) and the world (the disk) untouched, and the registry changes
only when `newDb` is true or the registry is empty. When `newDb` is true or
the registry is empty and the loop of `newSnapshotDb` finds the free id `id`:
if `storageUnit.NewDB` opens the store under that id, the store is returned,
its handle is appended to the registry (less the entry at index 0 when the
length exceeds `maxSnapshots`), `snapshotId` is the wrapped successor of `id`
and the directory of the generation exists; if `storageUnit.NewDB` fails, nil
is returned and only `snapshotId`, left at `id`, has changed; and when the
loop finds no free id within the fuel the call is still running.
`SetCheckpoint` always enqueues its request with `newDb = false`; a checkpoint
on a non-empty registry leaves the registry, `snapshotId` and the disk
untouched, and when its root is not in the newest entry and can be loaded it
commits from `tsm.db` into the store of the newest entry; a checkpoint on an
empty registry whose root can be loaded commits into the store of the
generation that `getSnapshotDb` creates for it. -/
theorem C20_new_generation_only_when_forced_or_first (fuel : Nat)
    (tsm : trieStorageManager) (w : World) :
    (∀ h : tsm.snapshots ≠ [],
      tsm.getSnapshotDb fuel w false
        = some (tsm, w, some (tsm.snapshots.getLast h).DBWriteCacher)) ∧
    (∀ newDb tsm2 w2 r, tsm.getSnapshotDb fuel w newDb = some (tsm2, w2, r) →
      tsm2.snapshots ≠ tsm.snapshots → newDb = true ∨ tsm.snapshots = []) ∧
    (∀ (newDb : Bool) (id : Int), newDb = true ∨ tsm.snapshots = [] →
      findFreeSnapshotId w tsm.snapshotDbCfg fuel tsm.snapshotId = some id →
      (∀ db, w.NewDB (snapshotArgDB tsm.snapshotDbCfg (Itoa id)) = .ok db →
        ∃ tsm2 w2, tsm.getSnapshotDb fuel w newDb = some (tsm2, w2, some db) ∧
          tsm2.snapshots =
            (if wrapUint32 (tsm.snapshots.length + 1) > tsm.maxSnapshots then
              (tsm.snapshots ++ [({ DBWriteCacher := db } : snapshotDb)]).drop 1
            else tsm.snapshots ++ [({ DBWriteCacher := db } : snapshotDb)]) ∧
          tsm2.snapshotId = wrapInt (id + 1) ∧
          w2.directoryExists (pathJoin tsm.snapshotDbCfg.FilePath (Itoa id)) = true) ∧
      (∀ err, w.NewDB (snapshotArgDB tsm.snapshotDbCfg (Itoa id)) = .error err →
        tsm.getSnapshotDb fuel w newDb = some ({ tsm with snapshotId := id }, w, none))) ∧
    (∀ (newDb : Bool), newDb = true ∨ tsm.snapshots = [] →
      findFreeSnapshotId w tsm.snapshotDbCfg fuel tsm.snapshotId = none →
      tsm.getSnapshotDb fuel w newDb = none) ∧
    (∀ EmptyTrieHash rootHash leavesChan, rootHash ≠ EmptyTrieHash →
      (tsm.SetCheckpoint EmptyTrieHash rootHash leavesChan).checkpointReq
        = tsm.checkpointReq ++
          [{ rootHash := rootHash, newDb := false, leavesChan := leavesChan }]) ∧
    (∀ EmptyTrieHash rootHash leavesChan,
      ∀ e ∈ (tsm.SetCheckpoint EmptyTrieHash rootHash leavesChan).checkpointReq.drop
        tsm.checkpointReq.length, e.newDb = false) ∧
    (∀ (e : snapshotsQueueEntry), e.newDb = false → tsm.snapshots ≠ [] →
      ∃ tsm2 w2, tsm.takeCheckpoint fuel w e = some (tsm2, w2) ∧
        tsm2.snapshots = tsm.snapshots ∧ tsm2.snapshotId = tsm.snapshotId ∧
        w2.directoryExists = w.directoryExists ∧
        w2.removeDirectoryCalls = w.removeDirectoryCalls) ∧
    (∀ (e : snapshotsQueueEntry) (h : tsm.snapshots ≠ []) (newRoot : snapshotNode),
      e.newDb = false → tsm.isPresentInLastSnapshotDb e.rootHash = false →
      w.getNodeFromDBAndDecode e.rootHash (.active tsm.db) = .ok newRoot →
      tsm.takeCheckpoint fuel w e = some (deferredFinish e tsm
        ((w.record (.getNodeFromDBAndDecode e.rootHash (.active tsm.db))).record
          (.commitCheckpoint newRoot tsm.db (tsm.snapshots.getLast h).DBWriteCacher
            e.leavesChan)))) ∧
    (∀ (e : snapshotsQueueEntry) (id : Int) (db : Persister) (newRoot : snapshotNode),
      tsm.snapshots = [] →
      w.getNodeFromDBAndDecode e.rootHash (.active tsm.db) = .ok newRoot →
      findFreeSnapshotId w tsm.snapshotDbCfg fuel tsm.snapshotId = some id →
      w.NewDB (snapshotArgDB tsm.snapshotDbCfg (Itoa id)) = .ok db →
      ∃ st, tsm.takeCheckpoint fuel w e = some st ∧
        st.2.calls = w.calls ++
          [.getNodeFromDBAndDecode e.rootHash (.active tsm.db),
            .commitCheckpoint newRoot tsm.db db e.leavesChan] ∧
        st.1.snapshots =
          (if wrapUint32 1 > tsm.maxSnapshots then []
            else [({ DBWriteCacher := db } : snapshotDb)])) := by
  have hcreate : ∀ newDb : Bool, newDb = true ∨ tsm.snapshots = [] →
      (newDb || tsm.snapshots.length == 0) = true := by
    intro newDb hc
    rcases hc with h1 | h1
    · simp [h1]
    · simp [h1]
  refine ⟨getSnapshotDb_reuse fuel tsm w, ?_, ?_, ?_, ?_, ?_, ?_, ?_, ?_⟩
  · intro newDb tsm2 w2 r hres hne
    rcases getSnapshotDb_cases fuel tsm w newDb tsm2 w2 r hres with
      ⟨_, _, h1, _, _⟩ | ⟨hc, _, _⟩ | ⟨hc, _⟩
    · rw [h1] at hne
      exact absurd rfl hne
    · exact hc
    · exact hc
  · intro newDb id hc hid
    refine ⟨?_, ?_⟩
    · intro db hdb
      obtain ⟨tsm2, w2, h1, h2, h3, h4, _⟩ :=
        getSnapshotDb_of_opened fuel tsm w newDb id db hc hid hdb
      exact ⟨tsm2, w2, h1, h2, h3, h4⟩
    · intro err hdb
      unfold trieStorageManager.getSnapshotDb
      simp only [hcreate newDb hc, Bool.not_true, Bool.false_eq_true, if_false,
        newSnapshotDb_of_failed fuel tsm w id err hid hdb]
  · intro newDb hc hnone
    unfold trieStorageManager.getSnapshotDb trieStorageManager.newSnapshotDb
    simp only [hcreate newDb hc, Bool.not_true, Bool.false_eq_true, if_false, hnone]
  · intro E rootHash leavesChan hne
    simp [trieStorageManager.SetCheckpoint, hne, trieStorageManager.EnterPruningBufferingMode]
  · intro E rootHash leavesChan e he
    by_cases hr : rootHash = E
    · simp [trieStorageManager.SetCheckpoint, hr] at he
    · simp [trieStorageManager.SetCheckpoint, hr,
        trieStorageManager.EnterPruningBufferingMode] at he
      rw [he]
  · intro e hnew hne
    have hfin := deferredFinish_frame e tsm w
    unfold trieStorageManager.takeCheckpoint
    simp only
    split
    · exact ⟨_, _, rfl, hfin⟩
    · split
      · exact ⟨_, _, rfl, deferredFinish_frame e tsm (w.record _)⟩
      · rw [hnew, getSnapshotDb_reuse fuel tsm _ hne]
        simp only
        split <;> exact ⟨_, _, rfl, deferredFinish_frame e tsm ((w.record _).record _)⟩
  · intro e hne newRoot hnew hp hload
    unfold trieStorageManager.takeCheckpoint
    have hrec : (w.record (.getNodeFromDBAndDecode e.rootHash
        (.active tsm.db))).getNodeFromDBAndDecode = w.getNodeFromDBAndDecode := rfl
    simp only [hp, Bool.false_eq_true, if_false, hrec, hload, hnew,
      getSnapshotDb_reuse fuel tsm _ hne, ite_self, Option.map_some']
  · intro e id db newRoot hempty hload hid hdb
    have hp : tsm.isPresentInLastSnapshotDb e.rootHash = false := by
      unfold trieStorageManager.isPresentInLastSnapshotDb
      rw [hempty]; rfl
    have hrec : (w.record (.getNodeFromDBAndDecode e.rootHash
        (.active tsm.db))).getNodeFromDBAndDecode = w.getNodeFromDBAndDecode := rfl
    obtain ⟨tsm2, w2, hget, hsn, _, _, hcalls, hdb2⟩ :=
      getSnapshotDb_of_opened fuel tsm
        (w.record (.getNodeFromDBAndDecode e.rootHash (.active tsm.db))) e.newDb id db
        (Or.inr hempty)
        (by
          rw [findFreeSnapshotId_congr w
            (w.record (.getNodeFromDBAndDecode e.rootHash (.active tsm.db))) _ rfl]
          exact hid)
        hdb
    refine ⟨deferredFinish e tsm2
      (w2.record (.commitCheckpoint newRoot tsm2.db db e.leavesChan)), ?_, ?_, ?_⟩
    · unfold trieStorageManager.takeCheckpoint
      simp only [hp, Bool.false_eq_true, if_false, hrec, hload, hget, ite_self,
        Option.map_some']
    · rw [(deferredFinish_fields e tsm2 _).2.2.2.2.2.1]
      show w2.calls ++ [_] = _
      rw [hcalls, hdb2]
      simp [World.record]
    · rw [(deferredFinish_frame e tsm2 _).1, hsn, hempty]
      simp

/-- C20 at a first request on a fresh manager with `newDb = false`: the
registry is empty, the loop finds the free id 0, the store `snapshots/0` is
opened and returned, and it is the one entry of the registry afterwards. -/
theorem C20_new_generation_witness :
    findFreeSnapshotId (worldWithDisk []) exampleManager.snapshotDbCfg 10
      exampleManager.snapshotId = some 0 ∧
    (worldWithDisk []).NewDB (snapshotArgDB exampleManager.snapshotDbCfg (Itoa 0))
      = .ok (emptyStore "snapshots/0") ∧
    ∃ tsm2 w2, exampleManager.getSnapshotDb 10 (worldWithDisk []) false
        = some (tsm2, w2, some (emptyStore "snapshots/0")) ∧
      tsm2.snapshots = [({ DBWriteCacher := emptyStore "snapshots/0" } : snapshotDb)] ∧
      tsm2.snapshotId = 1 :=
  ⟨rfl, rfl,
    (((C20_new_generation_only_when_forced_or_first 10 exampleManager
      (worldWithDisk [])).2.2.1 false 0 (Or.inr rfl) rfl).1
      (emptyStore "snapshots/0") rfl).imp
      (fun _ h => h.imp (fun _ h2 => ⟨h2.1, h2.2.1, h2.2.2.1⟩))⟩

/-- Method `takeSnapshot`, whenever it returns, has closed the leaves channel of
the entry when it is not nil, and no other channel. -/
theorem takeSnapshot_closedChans (fuel : Nat) (tsm : trieStorageManager) (w : World)
    (e : snapshotsQueueEntry) (st : trieStorageManager × World)
    (h : tsm.takeSnapshot fuel w e = some st) :
    st.2.closedChans = w.closedChans ++ e.leavesChan.toList := by
  rcases takeSnapshot_paths fuel tsm w e st _ rfl h with ⟨err, _, hst⟩ |
    ⟨newRoot, t1, w1, _, hget, hst⟩ | ⟨newRoot, t1, w1, newDb, _, hget, hst⟩
  · rw [hst, deferredFinish_closedChans]; rfl
  · have hg := getSnapshotDb_closedChans _ _ _ _ _ hget
    rw [hst, deferredFinish_closedChans]
    simp only at hg
    rw [hg]; rfl
  · have hg := getSnapshotDb_closedChans _ _ _ _ _ hget
    rw [hst, deferredFinish_closedChans]
    simp only at hg
    show w1.closedChans ++ _ = _
    rw [hg]; rfl

/-- Method `takeCheckpoint`, whenever it returns, has closed the leaves channel
of the entry when it is not nil, and no other channel. -/
theorem takeCheckpoint_closedChans (fuel : Nat) (tsm : trieStorageManager) (w : World)
    (e : snapshotsQueueEntry) (st : trieStorageManager × World)
    (h : tsm.takeCheckpoint fuel w e = some st) :
    st.2.closedChans = w.closedChans ++ e.leavesChan.toList := by
  rcases takeCheckpoint_paths fuel tsm w e st h with ⟨_, hst⟩ | ⟨_, hcase⟩
  · rw [hst, deferredFinish_closedChans]
  · rcases hcase with ⟨err, _, hst⟩ | ⟨newRoot, t1, w1, _, hget, hst⟩ |
      ⟨newRoot, t1, w1, db, _, hget, hst⟩
    · rw [hst, deferredFinish_closedChans]; rfl
    · have hg := getSnapshotDb_closedChans _ _ _ _ _ hget
      rw [hst, deferredFinish_closedChans]
      simp only at hg
      rw [hg]; rfl
    · have hg := getSnapshotDb_closedChans _ _ _ _ _ hget
      rw [hst, deferredFinish_closedChans]
      simp only at hg
      show w1.closedChans ++ _ = _
      rw [hg]; rfl

/-- The snapshot entries of two lists of executed requests, one after the other. -/
theorem executedSnapshots_append (a b : List Executed) :
    executedSnapshots (a ++ b) = executedSnapshots a ++ executedSnapshots b := by
  induction a with
  | nil => rfl
  | cons x rest ih =>
    cases x <;> simp [executedSnapshots, ih]

/-- The checkpoint entries of two lists of executed requests, one after the other. -/
theorem executedCheckpoints_append (a b : List Executed) :
    executedCheckpoints (a ++ b) = executedCheckpoints a ++ executedCheckpoints b := by
  induction a with
  | nil => rfl
  | cons x rest ih =>
    cases x <;> simp [executedCheckpoints, ih]

/-- The leaves channels of two lists of executed requests, one after the other. -/
theorem leavesChansOf_append (a b : List Executed) :
    leavesChansOf (a ++ b) = leavesChansOf a ++ leavesChansOf b := by
  induction a with
  | nil => rfl
  | cons x rest ih =>
    cases x <;> simp [leavesChansOf, ih]

/-- One event of a system with one goroutine leaves one goroutine; the snapshot
entries executed or in progress, followed by those waiting, grow at their end
by the entry that the event sends, and likewise the checkpoint entries; and
the channels that the event closes are the leaves channels of the request
whose execution it ends. -/
theorem step_single (EmptyTrieHash : Bytes) (fuel : Nat) (s : ManagerSystem)
    (l : LoopState) (hl : s.loops = [l]) (ev : SystemEvent) :
    ∃ l2, (s.step EmptyTrieHash fuel ev).loops = [l2] ∧
      executedSnapshots ((s.step EmptyTrieHash fuel ev).executed ++ inProgress [l2]) ++
          (s.step EmptyTrieHash fuel ev).tsm.snapshotReq
        = executedSnapshots (s.executed ++ inProgress [l]) ++ s.tsm.snapshotReq ++
          snapshotSends EmptyTrieHash [ev] ∧
      executedCheckpoints ((s.step EmptyTrieHash fuel ev).executed ++ inProgress [l2]) ++
          (s.step EmptyTrieHash fuel ev).tsm.checkpointReq
        = executedCheckpoints (s.executed ++ inProgress [l]) ++ s.tsm.checkpointReq ++
          checkpointSends EmptyTrieHash [ev] ∧
      ∃ extra, (s.step EmptyTrieHash fuel ev).w.closedChans = s.w.closedChans ++ extra ∧
        leavesChansOf (s.step EmptyTrieHash fuel ev).executed
          = leavesChansOf s.executed ++ extra := by
  have hsame : ∃ l2, s.loops = [l2] ∧
      executedSnapshots (s.executed ++ inProgress [l2]) ++ s.tsm.snapshotReq
        = executedSnapshots (s.executed ++ inProgress [l]) ++ s.tsm.snapshotReq ++ [] ∧
      executedCheckpoints (s.executed ++ inProgress [l2]) ++ s.tsm.checkpointReq
        = executedCheckpoints (s.executed ++ inProgress [l]) ++ s.tsm.checkpointReq ++ [] ∧
      ∃ extra, s.w.closedChans = s.w.closedChans ++ extra ∧
        leavesChansOf s.executed = leavesChansOf s.executed ++ extra :=
    ⟨l, hl, by simp, by simp, [], by simp, by simp⟩
  cases ev with
  | TakeSnapshot rootHash newDb leavesChan =>
    refine ⟨l, hl, ?_, ?_, [], by simp [ManagerSystem.step], by simp [ManagerSystem.step]⟩
    · by_cases hr : rootHash = EmptyTrieHash
      · simp [ManagerSystem.step, trieStorageManager.TakeSnapshot, snapshotSends, hr]
      · simp [ManagerSystem.step, trieStorageManager.TakeSnapshot, snapshotSends, hr,
          trieStorageManager.EnterPruningBufferingMode]
    · by_cases hr : rootHash = EmptyTrieHash
      · simp [ManagerSystem.step, trieStorageManager.TakeSnapshot, checkpointSends, hr]
      · simp [ManagerSystem.step, trieStorageManager.TakeSnapshot, checkpointSends, hr,
          trieStorageManager.EnterPruningBufferingMode]
  | SetCheckpoint rootHash leavesChan =>
    refine ⟨l, hl, ?_, ?_, [], by simp [ManagerSystem.step], by simp [ManagerSystem.step]⟩
    · by_cases hr : rootHash = EmptyTrieHash
      · simp [ManagerSystem.step, trieStorageManager.SetCheckpoint, snapshotSends, hr]
      · simp [ManagerSystem.step, trieStorageManager.SetCheckpoint, snapshotSends, hr,
          trieStorageManager.EnterPruningBufferingMode]
    · by_cases hr : rootHash = EmptyTrieHash
      · simp [ManagerSystem.step, trieStorageManager.SetCheckpoint, checkpointSends, hr]
      · simp [ManagerSystem.step, trieStorageManager.SetCheckpoint, checkpointSends, hr,
          trieStorageManager.EnterPruningBufferingMode]
  | selectSnapshotReq i =>
    simp only [ManagerSystem.step, snapshotSends, checkpointSends]
    split
    · rename_i e rest hi hq
      rw [hl] at hi ⊢
      cases i with
      | zero =>
        simp only [List.getElem?_cons_zero, Option.some.injEq] at hi
        subst hi
        refine ⟨.inTakeSnapshot e, rfl, ?_, ?_, [], by simp, by simp⟩
        · simp [hq, executedSnapshots_append, inProgress, executedSnapshots]
        · simp [executedCheckpoints_append, inProgress, executedCheckpoints]
      | succ i => simp at hi
    · exact hsame
  | selectCheckpointReq i =>
    simp only [ManagerSystem.step, snapshotSends, checkpointSends]
    split
    · rename_i e rest hi hq
      rw [hl] at hi ⊢
      cases i with
      | zero =>
        simp only [List.getElem?_cons_zero, Option.some.injEq] at hi
        subst hi
        refine ⟨.inTakeCheckpoint e, rfl, ?_, ?_, [], by simp, by simp⟩
        · simp [executedSnapshots_append, inProgress, executedSnapshots]
        · simp [hq, executedCheckpoints_append, inProgress, executedCheckpoints]
      | succ i => simp at hi
    · exact hsame
  | selectDone i =>
    simp only [ManagerSystem.step, snapshotSends, checkpointSends]
    split
    · rename_i hi
      split
      · rw [hl] at hi ⊢
        cases i with
        | zero =>
          simp only [List.getElem?_cons_zero, Option.some.injEq] at hi
          subst hi
          refine ⟨.returned, rfl, ?_, ?_, [], by simp, by simp⟩
          · simp [inProgress]
          · simp [inProgress]
        | succ i => simp at hi
      · exact hsame
    · exact hsame
  | callReturns i =>
    simp only [ManagerSystem.step, snapshotSends, checkpointSends]
    split
    · rename_i e hi
      split
      · exact hsame
      · rename_i st hrun
        rw [hl] at hi ⊢
        cases i with
        | zero =>
          simp only [List.getElem?_cons_zero, Option.some.injEq] at hi
          subst hi
          obtain ⟨_, h2, h3⟩ := takeSnapshot_fields _ _ _ _ _ hrun
          have hc := takeSnapshot_closedChans _ _ _ _ _ hrun
          refine ⟨.atSelect, rfl, ?_, ?_, e.leavesChan.toList, hc, ?_⟩
          · simp [h2, executedSnapshots_append, inProgress, executedSnapshots]
          · simp [h3, executedCheckpoints_append, inProgress, executedCheckpoints]
          · simp [leavesChansOf_append, leavesChansOf]
        | succ i => simp at hi
    · rename_i e hi
      split
      · exact hsame
      · rename_i st hrun
        rw [hl] at hi ⊢
        cases i with
        | zero =>
          simp only [List.getElem?_cons_zero, Option.some.injEq] at hi
          subst hi
          obtain ⟨_, h2, h3⟩ := takeCheckpoint_fields _ _ _ _ _ hrun
          have hc := takeCheckpoint_closedChans _ _ _ _ _ hrun
          refine ⟨.atSelect, rfl, ?_, ?_, e.leavesChan.toList, hc, ?_⟩
          · simp [h2, executedSnapshots_append, inProgress, executedSnapshots]
          · simp [h3, executedCheckpoints_append, inProgress, executedCheckpoints]
          · simp [leavesChansOf_append, leavesChansOf]
        | succ i => simp at hi
    · exact hsame

/-- A run of a system with one goroutine leaves one goroutine; the snapshot
entries executed or in progress, followed by those waiting, are those before
the run followed by the entries sent during the run, in sending order, and
likewise the checkpoint entries; and the channels closed during the run are
the leaves channels of the requests whose execution ended during the run, in
the order of the returns. -/
theorem run_single (EmptyTrieHash : Bytes) (fuel : Nat) :
    ∀ (events : List SystemEvent) (s : ManagerSystem) (l : LoopState), s.loops = [l] →
      ∃ l2, (ManagerSystem.run EmptyTrieHash fuel events s).loops = [l2] ∧
        executedSnapshots ((ManagerSystem.run EmptyTrieHash fuel events s).executed ++
            inProgress [l2]) ++
            (ManagerSystem.run EmptyTrieHash fuel events s).tsm.snapshotReq
          = executedSnapshots (s.executed ++ inProgress [l]) ++ s.tsm.snapshotReq ++
            snapshotSends EmptyTrieHash events ∧
        executedCheckpoints ((ManagerSystem.run EmptyTrieHash fuel events s).executed ++
            inProgress [l2]) ++
            (ManagerSystem.run EmptyTrieHash fuel events s).tsm.checkpointReq
          = executedCheckpoints (s.executed ++ inProgress [l]) ++ s.tsm.checkpointReq ++
            checkpointSends EmptyTrieHash events ∧
        ∃ extra,
          (ManagerSystem.run EmptyTrieHash fuel events s).w.closedChans
            = s.w.closedChans ++ extra ∧
          leavesChansOf (ManagerSystem.run EmptyTrieHash fuel events s).executed
            = leavesChansOf s.executed ++ extra := by
  intro events
  induction events with
  | nil =>
    intro s l hl
    exact ⟨l, hl, by simp [ManagerSystem.run, snapshotSends],
      by simp [ManagerSystem.run, checkpointSends], [], by simp [ManagerSystem.run],
      by simp [ManagerSystem.run]⟩
  | cons ev events ih =>
    intro s l hl
    obtain ⟨l1, hl1, hs1, hc1, x1, hx1, hy1⟩ := step_single EmptyTrieHash fuel s l hl ev
    obtain ⟨l2, hl2, hs2, hc2, x2, hx2, hy2⟩ := ih (s.step EmptyTrieHash fuel ev) l1 hl1
    have hss : snapshotSends EmptyTrieHash (ev :: events)
        = snapshotSends EmptyTrieHash [ev] ++ snapshotSends EmptyTrieHash events := by
      cases ev <;> simp only [snapshotSends, List.nil_append]
      split <;> simp
    have hcs : checkpointSends EmptyTrieHash (ev :: events)
        = checkpointSends EmptyTrieHash [ev] ++ checkpointSends EmptyTrieHash events := by
      cases ev <;> simp only [checkpointSends, List.nil_append]
      split <;> simp
    have hrun : ManagerSystem.run EmptyTrieHash fuel (ev :: events) s
        = ManagerSystem.run EmptyTrieHash fuel events (s.step EmptyTrieHash fuel ev) := rfl
    rw [hrun]
    refine ⟨l2, hl2, ?_, ?_, x1 ++ x2, ?_, ?_⟩
    · rw [hs2, hs1, hss]
      simp only [List.append_assoc]
    · rw [hc2, hc1, hcs]
      simp only [List.append_assoc]
    · rw [hx2, hx1, List.append_assoc]
    · rw [hy2, hy1, List.append_assoc]

/-- No event starts or ends a goroutine: the number of goroutines that run the
loop is that of the start. -/
theorem run_loops_length (EmptyTrieHash : Bytes) (fuel : Nat) :
    ∀ (events : List SystemEvent) (s : ManagerSystem),
      (ManagerSystem.run EmptyTrieHash fuel events s).loops.length = s.loops.length := by
  intro events
  induction events with
  | nil => intro s; rfl
  | cons ev events ih =>
    intro s
    have hrun : ManagerSystem.run EmptyTrieHash fuel (ev :: events) s
        = ManagerSystem.run EmptyTrieHash fuel events (s.step EmptyTrieHash fuel ev) := rfl
    rw [hrun, ih]
    cases ev with
    | TakeSnapshot rootHash newDb leavesChan => rfl
    | SetCheckpoint rootHash leavesChan => rfl
    | selectSnapshotReq i =>
      simp only [ManagerSystem.step]
      split <;> simp
    | selectCheckpointReq i =>
      simp only [ManagerSystem.step]
      split <;> simp
    | selectDone i =>
      simp only [ManagerSystem.step]
      split
      · split <;> simp
      · rfl
    | callReturns i =>
      simp only [ManagerSystem.step]
      split
      · split <;> simp
      · split <;> simp
      · rfl

/-- At most one request is in progress in a system with one goroutine. -/
theorem inProgress_single (l : LoopState) : (inProgress [l]).length ≤ 1 := by
  cases l <;> simp [inProgress]

/-- C24: `NewTrieStorageManager` starts one goroutine that runs the storage
process loop, and no event starts another (with two goroutines two requests
can be in progress); with the one goroutine, whatever the callers and the
`select` do, at most one request is in progress at any time, a request being
in progress from the moment the loop receives it to the return of the call of
`takeSnapshot` or `takeCheckpoint` made on it; the snapshot requests executed
or in progress, followed by those still waiting in `snapshotReq`, are the
requests that waited at the start followed by those sent since, in sending
order, and likewise for the checkpoint requests and `checkpointReq`; the
leaves channels closed are those of the requests executed, in the order of
their execution. A `select` that takes a receive case on a channel that holds
a request starts the execution of the request at the head of the channel,
takes no case while a request is in progress, and the return of the call
leaves the manager and the world as `takeSnapshot` or `takeCheckpoint` leaves
them. Between the two queues the order is that of the cases taken: with one
request waiting in each queue, the snapshot is executed first in one run and
the checkpoint first in another. -/
theorem C24_loop_executes_one_request_at_a_time_in_queue_order (EmptyTrieHash : Bytes)
    (fuel : Nat) (events : List SystemEvent) (tsm : trieStorageManager) (w : World) :
    (∀ args tsm0, NewTrieStorageManager w args = (some tsm0, none) →
      NewTrieStorageManager.system w args = some (ManagerSystem.start tsm0 w) ∧
      (ManagerSystem.start tsm0 w).loops = [.atSelect]) ∧
    (∀ s : ManagerSystem,
      (ManagerSystem.run EmptyTrieHash fuel events s).loops.length = s.loops.length) ∧
    (ManagerSystem.run EmptyTrieHash fuel events (ManagerSystem.start tsm w)).loops.length
      = 1 ∧
    (inProgress (ManagerSystem.run [] 10 [.selectSnapshotReq 0, .selectCheckpointReq 1]
      { tsm := queuedManager, w := worldWithDisk [], loops := [.atSelect, .atSelect]
        executed := [] }).loops).length = 2 ∧
    (inProgress
      (ManagerSystem.run EmptyTrieHash fuel events (ManagerSystem.start tsm w)).loops).length
      ≤ 1 ∧
    executedSnapshots
        ((ManagerSystem.run EmptyTrieHash fuel events (ManagerSystem.start tsm w)).executed ++
          inProgress
            (ManagerSystem.run EmptyTrieHash fuel events (ManagerSystem.start tsm w)).loops) ++
        (ManagerSystem.run EmptyTrieHash fuel events
          (ManagerSystem.start tsm w)).tsm.snapshotReq
      = tsm.snapshotReq ++ snapshotSends EmptyTrieHash events ∧
    executedCheckpoints
        ((ManagerSystem.run EmptyTrieHash fuel events (ManagerSystem.start tsm w)).executed ++
          inProgress
            (ManagerSystem.run EmptyTrieHash fuel events (ManagerSystem.start tsm w)).loops) ++
        (ManagerSystem.run EmptyTrieHash fuel events
          (ManagerSystem.start tsm w)).tsm.checkpointReq
      = tsm.checkpointReq ++ checkpointSends EmptyTrieHash events ∧
    (ManagerSystem.run EmptyTrieHash fuel events (ManagerSystem.start tsm w)).w.closedChans
      = w.closedChans ++ leavesChansOf
        (ManagerSystem.run EmptyTrieHash fuel events (ManagerSystem.start tsm w)).executed ∧
    (∀ (s : ManagerSystem) (i : Nat) (e : snapshotsQueueEntry)
      (rest : List snapshotsQueueEntry), s.loops[i]? = some .atSelect →
      (s.tsm.snapshotReq = e :: rest →
        s.step EmptyTrieHash fuel (.selectSnapshotReq i) =
          { s with
            tsm := { s.tsm with snapshotReq := rest }
            loops := s.loops.set i (.inTakeSnapshot e) }) ∧
      (s.tsm.checkpointReq = e :: rest →
        s.step EmptyTrieHash fuel (.selectCheckpointReq i) =
          { s with
            tsm := { s.tsm with checkpointReq := rest }
            loops := s.loops.set i (.inTakeCheckpoint e) })) ∧
    (∀ (s : ManagerSystem) (i : Nat) (e : snapshotsQueueEntry),
      s.loops[i]? = some (.inTakeSnapshot e) ∨ s.loops[i]? = some (.inTakeCheckpoint e) →
      s.step EmptyTrieHash fuel (.selectSnapshotReq i) = s ∧
      s.step EmptyTrieHash fuel (.selectCheckpointReq i) = s ∧
      s.step EmptyTrieHash fuel (.selectDone i) = s) ∧
    (∀ (s : ManagerSystem) (i : Nat) (e : snapshotsQueueEntry)
      (st : trieStorageManager × World),
      (s.loops[i]? = some (.inTakeSnapshot e) → s.tsm.takeSnapshot fuel s.w e = some st →
        s.step EmptyTrieHash fuel (.callReturns i) =
          { tsm := st.1, w := st.2, loops := s.loops.set i .atSelect
            executed := s.executed ++ [.takeSnapshot e] }) ∧
      (s.loops[i]? = some (.inTakeCheckpoint e) → s.tsm.takeCheckpoint fuel s.w e = some st →
        s.step EmptyTrieHash fuel (.callReturns i) =
          { tsm := st.1, w := st.2, loops := s.loops.set i .atSelect
            executed := s.executed ++ [.takeCheckpoint e] })) ∧
    (ManagerSystem.run [] 10
        [.selectSnapshotReq 0, .callReturns 0, .selectCheckpointReq 0, .callReturns 0]
        (ManagerSystem.start queuedManager (worldWithDisk []))).executed
      = [.takeSnapshot { rootHash := [1], newDb := true, leavesChan := none },
          .takeCheckpoint { rootHash := [2], newDb := false, leavesChan := none }] ∧
    (ManagerSystem.run [] 10
        [.selectCheckpointReq 0, .callReturns 0, .selectSnapshotReq 0, .callReturns 0]
        (ManagerSystem.start queuedManager (worldWithDisk []))).executed
      = [.takeCheckpoint { rootHash := [2], newDb := false, leavesChan := none },
          .takeSnapshot { rootHash := [1], newDb := true, leavesChan := none }] := by
  obtain ⟨l2, hl2, hs, hc, extra, hx, hy⟩ :=
    run_single EmptyTrieHash fuel events (ManagerSystem.start tsm w) .atSelect rfl
  refine ⟨?_, run_loops_length EmptyTrieHash fuel events, ?_, rfl, ?_, ?_, ?_, ?_, ?_, ?_, ?_,
    rfl, rfl⟩
  · intro args tsm0 h
    refine ⟨?_, rfl⟩
    unfold NewTrieStorageManager.system
    rw [h]; rfl
  · rw [hl2]; rfl
  · rw [hl2]; exact inProgress_single l2
  · rw [hl2, hs]
    simp [ManagerSystem.start, inProgress, executedSnapshots]
  · rw [hl2, hc]
    simp [ManagerSystem.start, inProgress, executedCheckpoints]
  · rw [hy, hx]
    simp [ManagerSystem.start, leavesChansOf]
  · intro s i e rest hi
    refine ⟨?_, ?_⟩
    · intro hq
      simp only [ManagerSystem.step, hi, hq]
    · intro hq
      simp only [ManagerSystem.step, hi, hq]
  · intro s i e hi
    rcases hi with hi | hi <;>
      (refine ⟨?_, ?_, ?_⟩ <;> simp only [ManagerSystem.step, hi])
  · intro s i e st
    refine ⟨?_, ?_⟩
    · intro hi hrun
      simp only [ManagerSystem.step, hi, hrun]
    · intro hi hrun
      simp only [ManagerSystem.step, hi, hrun]

/-- C24 at two `TakeSnapshot` calls for the roots `[1]` and `[2]`, with the
leaves channels 5 and 6, the second call made while the first request is in
progress: the loop executes the two requests in the order of the calls and
closes the channel 5 before the channel 6. -/
theorem C24_loop_order_witness :
    (ManagerSystem.run [] 10
        [.TakeSnapshot [1] true (some 5), .selectSnapshotReq 0,
          .TakeSnapshot [2] false (some 6), .selectSnapshotReq 0, .callReturns 0,
          .selectSnapshotReq 0, .callReturns 0]
        (ManagerSystem.start exampleManager (worldWithDisk []))).executed
      = [.takeSnapshot { rootHash := [1], newDb := true, leavesChan := some 5 },
          .takeSnapshot { rootHash := [2], newDb := false, leavesChan := some 6 }] ∧
    (ManagerSystem.run [] 10
        [.TakeSnapshot [1] true (some 5), .selectSnapshotReq 0,
          .TakeSnapshot [2] false (some 6), .selectSnapshotReq 0, .callReturns 0,
          .selectSnapshotReq 0, .callReturns 0]
        (ManagerSystem.start exampleManager (worldWithDisk []))).w.closedChans
      = (worldWithDisk []).closedChans ++ leavesChansOf
        (ManagerSystem.run [] 10
          [.TakeSnapshot [1] true (some 5), .selectSnapshotReq 0,
            .TakeSnapshot [2] false (some 6), .selectSnapshotReq 0, .callReturns 0,
            .selectSnapshotReq 0, .callReturns 0]
          (ManagerSystem.start exampleManager (worldWithDisk []))).executed ∧
    (ManagerSystem.run [] 10
        [.TakeSnapshot [1] true (some 5), .selectSnapshotReq 0,
          .TakeSnapshot [2] false (some 6), .selectSnapshotReq 0, .callReturns 0,
          .selectSnapshotReq 0, .callReturns 0]
        (ManagerSystem.start exampleManager (worldWithDisk []))).w.closedChans = [5, 6] :=
  ⟨rfl,
    (C24_loop_executes_one_request_at_a_time_in_queue_order [] 10
      [.TakeSnapshot [1] true (some 5), .selectSnapshotReq 0,
        .TakeSnapshot [2] false (some 6), .selectSnapshotReq 0, .callReturns 0,
        .selectSnapshotReq 0, .callReturns 0]
      exampleManager (worldWithDisk [])).2.2.2.2.2.2.2.1,
    rfl⟩

/-- Method `ExitPruningBufferingMode` changes the counter only, which it leaves
one lower, or at zero when it was zero. -/
theorem ExitPruningBufferingMode_eq (tsm : trieStorageManager) :
    tsm.ExitPruningBufferingMode
      = { tsm with pruningBlockingOps := tsm.pruningBlockingOps - 1 } := by
  unfold trieStorageManager.ExitPruningBufferingMode
  split
  · rename_i h
    have h0 : tsm.pruningBlockingOps = 0 := by omega
    cases tsm
    simp only at h0
    subst h0
    rfl
  · rfl

/-- The deferred function changes the counter of the manager and the closed
channels of the world, and nothing else. -/
theorem deferredFinish_eq (e : snapshotsQueueEntry) (tsm : trieStorageManager) (w : World) :
    deferredFinish e tsm w
      = ({ tsm with pruningBlockingOps := tsm.pruningBlockingOps - 1 },
        { w with closedChans := w.closedChans ++ e.leavesChan.toList }) := by
  unfold deferredFinish
  rw [ExitPruningBufferingMode_eq]
  cases e.leavesChan with
  | none =>
    cases w
    simp
  | some ch => rfl

/-- Method `GetSnapshotThatContainsHash` changes the registry only, and that up
to reference counts. -/
theorem GetSnapshotThatContainsHash_manager (tsm : trieStorageManager) (rootHash : Bytes) :
    (tsm.GetSnapshotThatContainsHash rootHash).1
      = { tsm with snapshots := (tsm.GetSnapshotThatContainsHash rootHash).1.snapshots } ∧
    (tsm.GetSnapshotThatContainsHash rootHash).1.snapshots.map
        (fun s => { s with numReferences := 0 })
      = tsm.snapshots.map (fun s => { s with numReferences := 0 }) := by
  rcases GetSnapshotThatContainsHash_eq tsm rootHash with ⟨_, hg⟩ | ⟨i, s, _, hs, hg⟩
  · rw [hg]
    exact ⟨by cases tsm; rfl, rfl⟩
  · rw [hg]
    exact ⟨rfl, map_set_IncreaseNumReferences tsm.snapshots i s hs⟩

/-- Method `takeSnapshot` when the root cannot be loaded from the read source:
it returns, and it has changed the reference counts of the registry, the
counter of pruning-blocking operations, the closed channels and the recorded
calls, and nothing else. -/
theorem takeSnapshot_of_failed_load (fuel : Nat) (tsm : trieStorageManager) (w : World)
    (e : snapshotsQueueEntry)
    (hfail : ∃ err,
      w.getNodeFromDBAndDecode e.rootHash (tsm.readSource e.rootHash) = .error err) :
    ∃ registry, tsm.takeSnapshot fuel w e = some
        ({ tsm with
            snapshots := registry
            pruningBlockingOps := tsm.pruningBlockingOps - 1 },
          { w with
            closedChans := w.closedChans ++ e.leavesChan.toList
            calls := w.calls ++
              [.getNodeFromDBAndDecode e.rootHash (tsm.readSource e.rootHash)] }) ∧
      registry.map (fun s => { s with numReferences := 0 })
        = tsm.snapshots.map (fun s => { s with numReferences := 0 }) ∧
      (tsm.isPresentInLastSnapshotDb e.rootHash = false → registry = tsm.snapshots) := by
  obtain ⟨err, herr⟩ := hfail
  have hrun : tsm.takeSnapshot fuel w e = some (deferredFinish e
      (if tsm.isPresentInLastSnapshotDb e.rootHash then
        tsm.GetSnapshotThatContainsHash e.rootHash else (tsm, none)).1
      (w.record (.getNodeFromDBAndDecode e.rootHash (tsm.readSource e.rootHash)))) := by
    unfold trieStorageManager.takeSnapshot
    unfold trieStorageManager.readSource at herr ⊢
    simp only at herr ⊢
    generalize (if tsm.isPresentInLastSnapshotDb e.rootHash = true then
      tsm.GetSnapshotThatContainsHash e.rootHash else (tsm, none)) = found at herr ⊢
    generalize (match found.2 with
      | some h => DB.snapshot h
      | none => DB.active found.1.db) = db at herr ⊢
    have hrec : (w.record (.getNodeFromDBAndDecode e.rootHash db)).getNodeFromDBAndDecode
        = w.getNodeFromDBAndDecode := rfl
    rw [hrec, herr]
    rfl
  rw [hrun, deferredFinish_eq]
  by_cases hp : tsm.isPresentInLastSnapshotDb e.rootHash = true
  · obtain ⟨h1, h2⟩ := GetSnapshotThatContainsHash_manager tsm e.rootHash
    refine ⟨(tsm.GetSnapshotThatContainsHash e.rootHash).1.snapshots, ?_, h2, ?_⟩
    · simp only [hp, if_true]
      rw [h1]
      rfl
    · intro hf; rw [hf] at hp; cases hp
  · refine ⟨tsm.snapshots, ?_, rfl, fun _ => rfl⟩
    simp only [hp, if_false]
    cases tsm
    rfl

/-- Method `takeCheckpoint` when the root is in the newest entry or cannot be
loaded from the active store: it returns, and it has changed the counter of
pruning-blocking operations, the closed channels and the recorded calls, and
nothing else. -/
theorem takeCheckpoint_of_failed_load (fuel : Nat) (tsm : trieStorageManager) (w : World)
    (e : snapshotsQueueEntry)
    (hfail : ∃ err, w.getNodeFromDBAndDecode e.rootHash (.active tsm.db) = .error err) :
    tsm.takeCheckpoint fuel w e = some
      ({ tsm with pruningBlockingOps := tsm.pruningBlockingOps - 1 },
        { w with
          closedChans := w.closedChans ++ e.leavesChan.toList
          calls := w.calls ++
            (if tsm.isPresentInLastSnapshotDb e.rootHash then []
              else [.getNodeFromDBAndDecode e.rootHash (.active tsm.db)]) }) := by
  obtain ⟨err, herr⟩ := hfail
  by_cases hp : tsm.isPresentInLastSnapshotDb e.rootHash = true
  · have hrun : tsm.takeCheckpoint fuel w e = some (deferredFinish e tsm w) := by
      unfold trieStorageManager.takeCheckpoint
      simp only [hp, if_true, Option.map_some']
    rw [hrun, deferredFinish_eq]
    simp only [hp, if_true, List.append_nil]
  · have hrun : tsm.takeCheckpoint fuel w e = some (deferredFinish e tsm
        (w.record (.getNodeFromDBAndDecode e.rootHash (.active tsm.db)))) := by
      unfold trieStorageManager.takeCheckpoint
      simp only [hp, if_false]
      have hrec : (w.record (.getNodeFromDBAndDecode e.rootHash
          (.active tsm.db))).getNodeFromDBAndDecode = w.getNodeFromDBAndDecode := rfl
      rw [hrec, herr]
      rfl
    rw [hrun, deferredFinish_eq]
    simp only [hp, if_false]
    rfl

/-- The read source of `takeSnapshot`, in terms of the registry and the active
store. -/
theorem readSource_eq (tsm : trieStorageManager) (rootHash : Bytes) :
    tsm.readSource rootHash =
      (if tsm.isPresentInLastSnapshotDb rootHash then
        match findSnapshotIndex tsm.snapshots rootHash tsm.snapshots.length with
        | none => .active tsm.db
        | some i =>
          match tsm.snapshots[i]? with
          | none => .active tsm.db
          | some s => .snapshot s.IncreaseNumReferences
      else .active tsm.db) := by
  unfold trieStorageManager.readSource
  by_cases hp : tsm.isPresentInLastSnapshotDb rootHash = true
  · simp only [hp, if_true]
    unfold trieStorageManager.GetSnapshotThatContainsHash
    cases hf : findSnapshotIndex tsm.snapshots rootHash tsm.snapshots.length with
    | none => rfl
    | some i =>
      simp only
      cases hs : tsm.snapshots[i]? <;> rfl
  · simp only [hp, Bool.false_eq_true, if_false]

/-- The read source of `takeSnapshot` depends on the registry and on the active
store only. -/
theorem readSource_congr (t tsm : trieStorageManager) (rootHash : Bytes)
    (h1 : t.snapshots = tsm.snapshots) (h2 : t.db = tsm.db) :
    t.readSource rootHash = tsm.readSource rootHash := by
  have hp : t.isPresentInLastSnapshotDb rootHash = tsm.isPresentInLastSnapshotDb rootHash := by
    unfold trieStorageManager.isPresentInLastSnapshotDb
    rw [h1]
  rw [readSource_eq, readSource_eq, hp, h1, h2]

/-- C26, counterexample: on a fresh manager, after the call
`TakeSnapshot([7], true, nil)` and the execution of its request, whose root
cannot be loaded, the checkpoint hashes holder has received
`RemoveCommitted([7])`, which it had not before the request. -/
theorem C26_counterexample :
    (∃ err, (worldWithDisk []).getNodeFromDBAndDecode [7] (exampleManager.readSource [7])
      = .error err) ∧
    (trieStorageManager.storageProcessLoop [] 10
        [.TakeSnapshot [7] true none, .receiveSnapshot]
        (exampleManager, worldWithDisk [])).map
        (fun r => r.1.checkpointHashesHolder.removeCommittedCalls) = some [[7]] ∧
    exampleManager.checkpointHashesHolder.removeCommittedCalls = [] :=
  ⟨⟨_, rfl⟩, rfl, rfl⟩

/-- C26: when the root node of a request cannot be loaded from the read
source, `takeSnapshot` and `takeCheckpoint` return having created no
generation and evicted nothing: every field of the manager is as before
except the counter of pruning-blocking operations, which is one lower, and,
for `takeSnapshot`, the reference counts of the registry (unchanged too when
the read source is the active store); the world is as before except for the
close of the leaves channel and the recorded load. A snapshot request for a
root other than `EmptyTrieHash`, sent on an empty queue with the counter
below 2^32 - 1 and then executed, leaves the manager as it was before the call
except for these reference counts and for the checkpoint hashes holder, which
has received `RemoveCommitted(rootHash)`; a checkpoint request sent and
executed in the same way leaves the manager exactly as it was. -/
theorem C26_failed_root_load_leaves_only_the_holder_changed
    (EmptyTrieHash rootHash : Bytes) (newDb : Bool) (leavesChan : Option Nat) (fuel : Nat)
    (tsm : trieStorageManager) (w : World)
    (hroot : rootHash ≠ EmptyTrieHash) (hb : tsm.pruningBlockingOps < 2 ^ 32 - 1)
    (hfail : ∃ err,
      w.getNodeFromDBAndDecode rootHash (tsm.readSource rootHash) = .error err) :
    (∀ (t : trieStorageManager) (w2 : World) (e : snapshotsQueueEntry),
      (∃ err, w2.getNodeFromDBAndDecode e.rootHash (t.readSource e.rootHash) = .error err) →
      ∃ registry, t.takeSnapshot fuel w2 e = some
          ({ t with
              snapshots := registry
              pruningBlockingOps := t.pruningBlockingOps - 1 },
            { w2 with
              closedChans := w2.closedChans ++ e.leavesChan.toList
              calls := w2.calls ++
                [.getNodeFromDBAndDecode e.rootHash (t.readSource e.rootHash)] }) ∧
        registry.map (fun s => { s with numReferences := 0 })
          = t.snapshots.map (fun s => { s with numReferences := 0 }) ∧
        (t.isPresentInLastSnapshotDb e.rootHash = false → registry = t.snapshots)) ∧
    (∀ (t : trieStorageManager) (w2 : World) (e : snapshotsQueueEntry),
      (∃ err, w2.getNodeFromDBAndDecode e.rootHash (.active t.db) = .error err) →
      t.takeCheckpoint fuel w2 e = some
        ({ t with pruningBlockingOps := t.pruningBlockingOps - 1 },
          { w2 with
            closedChans := w2.closedChans ++ e.leavesChan.toList
            calls := w2.calls ++
              (if t.isPresentInLastSnapshotDb e.rootHash then []
                else [.getNodeFromDBAndDecode e.rootHash (.active t.db)]) })) ∧
    (tsm.snapshotReq = [] →
      ∃ registry, trieStorageManager.storageProcessLoop EmptyTrieHash fuel
          [.TakeSnapshot rootHash newDb leavesChan, .receiveSnapshot] (tsm, w) = some
          ({ tsm with
              snapshots := registry
              checkpointHashesHolder := tsm.checkpointHashesHolder.RemoveCommitted rootHash },
            { w with
              closedChans := w.closedChans ++ leavesChan.toList
              calls := w.calls ++
                [.getNodeFromDBAndDecode rootHash (tsm.readSource rootHash)] },
            [.takeSnapshot
              { rootHash := rootHash, newDb := newDb, leavesChan := leavesChan }]) ∧
        registry.map (fun s => { s with numReferences := 0 })
          = tsm.snapshots.map (fun s => { s with numReferences := 0 }) ∧
        (tsm.isPresentInLastSnapshotDb rootHash = false → registry = tsm.snapshots)) ∧
    (tsm.checkpointReq = [] →
      (∃ err, w.getNodeFromDBAndDecode rootHash (.active tsm.db) = .error err) →
      trieStorageManager.storageProcessLoop EmptyTrieHash fuel
          [.SetCheckpoint rootHash leavesChan, .receiveCheckpoint] (tsm, w) = some
          (tsm,
            { w with
              closedChans := w.closedChans ++ leavesChan.toList
              calls := w.calls ++
                (if tsm.isPresentInLastSnapshotDb rootHash then []
                  else [.getNodeFromDBAndDecode rootHash (.active tsm.db)]) },
            [.takeCheckpoint
              { rootHash := rootHash, newDb := false, leavesChan := leavesChan }])) := by
  have hw : wrapUint32 (tsm.pruningBlockingOps + 1) = tsm.pruningBlockingOps + 1 := by
    unfold wrapUint32
    exact Nat.mod_eq_of_lt (by omega)
  refine ⟨fun t w2 e h => takeSnapshot_of_failed_load fuel t w2 e h,
    fun t w2 e h => takeCheckpoint_of_failed_load fuel t w2 e h, ?_, ?_⟩
  · intro hq
    have hrs := readSource_congr
      { tsm with
        pruningBlockingOps := tsm.pruningBlockingOps + 1
        checkpointHashesHolder := tsm.checkpointHashesHolder.RemoveCommitted rootHash
        snapshotReq := [] } tsm rootHash rfl rfl
    obtain ⟨registry, hrun, hmod, hpres⟩ := takeSnapshot_of_failed_load fuel
      { tsm with
        pruningBlockingOps := tsm.pruningBlockingOps + 1
        checkpointHashesHolder := tsm.checkpointHashesHolder.RemoveCommitted rootHash
        snapshotReq := [] } w
      { rootHash := rootHash, newDb := newDb, leavesChan := leavesChan }
      (by rw [hrs]; exact hfail)
    refine ⟨registry, ?_, hmod, hpres⟩
    simp only [trieStorageManager.storageProcessLoop, trieStorageManager.TakeSnapshot, hroot,
      if_false, trieStorageManager.EnterPruningBufferingMode, hw, hq, List.nil_append]
    rw [hrun]
    simp only [Option.map_some', Nat.add_sub_cancel, hrs]
  · intro hq hfail2
    have hrun := takeCheckpoint_of_failed_load fuel
      { tsm with
        pruningBlockingOps := tsm.pruningBlockingOps + 1
        checkpointReq := [] } w
      { rootHash := rootHash, newDb := false, leavesChan := leavesChan } hfail2
    simp only [trieStorageManager.storageProcessLoop, trieStorageManager.SetCheckpoint, hroot,
      if_false, trieStorageManager.EnterPruningBufferingMode, hw, hq, List.nil_append]
    rw [hrun]
    simp only [Option.map_some', Nat.add_sub_cancel]
    cases tsm
    simp only at hq
    subst hq
    rfl

/-- C26 at a snapshot request for the root `[7]` on three generations, the
newest of which does not hold the root, in a world where no node can be
loaded: after the call and the execution of the request the registry is the
same and only the checkpoint hashes holder has changed. -/
theorem C26_failed_root_load_witness :
    ([7] : Bytes) ≠ [] ∧ threeGenerations.pruningBlockingOps < 2 ^ 32 - 1 ∧
    (∃ err, (worldWithDisk []).getNodeFromDBAndDecode [7]
      (threeGenerations.readSource [7]) = .error err) ∧
    ∃ registry, trieStorageManager.storageProcessLoop [] 10
        [.TakeSnapshot [7] true none, .receiveSnapshot] (threeGenerations, worldWithDisk [])
        = some
          ({ threeGenerations with
              snapshots := registry
              checkpointHashesHolder :=
                threeGenerations.checkpointHashesHolder.RemoveCommitted [7] },
            { worldWithDisk [] with
              closedChans := (worldWithDisk []).closedChans ++ (none : Option Nat).toList
              calls := (worldWithDisk []).calls ++
                [.getNodeFromDBAndDecode [7] (threeGenerations.readSource [7])] },
            [.takeSnapshot { rootHash := [7], newDb := true, leavesChan := none }]) ∧
      registry.map (fun s => { s with numReferences := 0 })
        = threeGenerations.snapshots.map (fun s => { s with numReferences := 0 }) ∧
      (threeGenerations.isPresentInLastSnapshotDb [7] = false →
        registry = threeGenerations.snapshots) :=
  ⟨by decide, by decide, ⟨_, rfl⟩,
    (C26_failed_root_load_leaves_only_the_holder_changed [] [7] true none 10
      threeGenerations (worldWithDisk []) (by decide) (by decide) ⟨_, rfl⟩).2.2.1 rfl⟩

end trie

namespace errors

/-- C25: `IsGetNodeFromDBError` returns false of an error built by
`NewGetNodeFromDBErr` whenever `IsClosingError` holds of that error, although
its dynamic type is `*GetNodeFromDBErr`: whatever function `IsClosingError`
is, the result on `NewGetNodeFromDBErr(key, e)` is the negation of
`IsClosingError` on it, so it is true exactly when `IsClosingError` does not
hold. `NewGetNodeFromDBErr(key, e).GetKey()` is `key`, and
`IsGetNodeFromDBError` is false of `nil` and of every error of another dynamic
type. -/
theorem C25_closing_error_is_not_recognised (IsClosingError : error → Bool)
    (key : trie.Bytes) (e : error) :
    (IsClosingError (.getNodeFromDBErr (NewGetNodeFromDBErr key e)) = true →
      IsGetNodeFromDBError IsClosingError (.getNodeFromDBErr (NewGetNodeFromDBErr key e))
        = false) ∧
    (IsClosingError (.getNodeFromDBErr (NewGetNodeFromDBErr key e)) = false →
      IsGetNodeFromDBError IsClosingError (.getNodeFromDBErr (NewGetNodeFromDBErr key e))
        = true) ∧
    IsGetNodeFromDBError IsClosingError (.getNodeFromDBErr (NewGetNodeFromDBErr key e))
      = !IsClosingError (.getNodeFromDBErr (NewGetNodeFromDBErr key e)) ∧
    (NewGetNodeFromDBErr key e).GetKey = key ∧
    IsGetNodeFromDBError IsClosingError .nil = false ∧
    ∀ msg, IsGetNodeFromDBError IsClosingError (.other msg) = false := by
  refine ⟨?_, ?_, ?_, rfl, rfl, ?_⟩
  · intro h
    simp [IsGetNodeFromDBError, h]
  · intro h
    simp [IsGetNodeFromDBError, h]
  · cases h : IsClosingError (.getNodeFromDBErr (NewGetNodeFromDBErr key e)) <;>
      simp [IsGetNodeFromDBError, h]
  · intro msg
    cases h : IsClosingError (.other msg) <;> simp [IsGetNodeFromDBError, h]

end errors

namespace rating

/-- What a successful `NewBlockSigningRater` has checked and what it returns. -/
theorem NewBlockSigningRater_ok (d : RatingsInfoHandler) (bsr : BlockSigningRater)
    (h : NewBlockSigningRater d = .ok bsr) :
    1 ≤ d.MinRating ∧ d.MinRating ≤ d.StartRating ∧ d.StartRating ≤ d.MaxRating ∧
    d.SelectionChances ≠ [] ∧
    bsr.startRating = d.StartRating ∧ bsr.minRating = d.MinRating ∧
    bsr.maxRating = d.MaxRating ∧
    bsr.shardRatingsStepHandler = d.ShardChainRatingsStepHandler ∧
    bsr.metaRatingsStepHandler = d.MetaChainRatingsStepHandler ∧
    bsr.ratingChances = (d.SelectionChances.map (fun chance =>
        ({ maxThreshold := chance.GetMaxThreshold
           chancePercentage := chance.GetChancePercent } : selectionChance))).insertionSort
        (fun a b => a.GetMaxThreshold ≤ b.GetMaxThreshold) ∧
    hasDuplicateThreshold bsr.ratingChances = false ∧
    ∃ first rest, bsr.ratingChances = first :: rest ∧ first.GetMaxThreshold = 0 ∧
      ((first :: rest).getLast (List.cons_ne_nil first rest)).GetMaxThreshold = d.MaxRating := by
  unfold NewBlockSigningRater at h
  split at h
  · cases h
  · rename_i h1
    split at h
    · cases h
    · rename_i h2
      split at h
      · cases h
      · rename_i h3
        split at h
        · cases h
        · rename_i h4
          simp only at h
          split at h
          · cases h
          · rename_i first rest hsort
            split at h
            · cases h
            · rename_i h5
              split at h
              · cases h
              · rename_i h6
                split at h
                · cases h
                · rename_i h7
                  simp only [Except.ok.injEq] at h
                  subst h
                  refine ⟨by omega, by omega, by omega, ?_, rfl, rfl, rfl, rfl, rfl, rfl,
                    ?_, first, rest, hsort, by omega, ?_⟩
                  · intro hn; rw [hn] at h4; simp at h4
                  · simpa using h6
                  · simpa using h7

/-- C28: for a rater built by `NewBlockSigningRater` from data whose
`MaxRating()` is a `uint32` and whose shard steps are `int32` values, and for
every previous rating `v` that is a `uint32`, each of `ComputeIncreaseProposer`,
`ComputeDecreaseProposer`, `ComputeIncreaseValidator` and
`ComputeDecreaseValidator` returns the exact integer sum of `v` and its step,
clamped to `[minRating, maxRating]`, and the result lies in
`[minRating, maxRating]`. -/
theorem C28_compute_rating_is_the_clamped_sum (d : RatingsInfoHandler)
    (bsr : BlockSigningRater) (v : Nat)
    (hnew : NewBlockSigningRater d = .ok bsr)
    (hmax : d.MaxRating < 2 ^ 32) (hv : v < 2 ^ 32)
    (h1 : isInt32 d.ShardChainRatingsStepHandler.ProposerIncreaseRatingStep)
    (h2 : isInt32 d.ShardChainRatingsStepHandler.ProposerDecreaseRatingStep)
    (h3 : isInt32 d.ShardChainRatingsStepHandler.ValidatorIncreaseRatingStep)
    (h4 : isInt32 d.ShardChainRatingsStepHandler.ValidatorDecreaseRatingStep) :
    ((bsr.ComputeIncreaseProposer v : Int)
        = max (bsr.minRating : Int) (min (bsr.maxRating : Int)
          ((v : Int) + bsr.shardRatingsStepHandler.ProposerIncreaseRatingStep)) ∧
      bsr.minRating ≤ bsr.ComputeIncreaseProposer v ∧
      bsr.ComputeIncreaseProposer v ≤ bsr.maxRating) ∧
    ((bsr.ComputeDecreaseProposer v : Int)
        = max (bsr.minRating : Int) (min (bsr.maxRating : Int)
          ((v : Int) + bsr.shardRatingsStepHandler.ProposerDecreaseRatingStep)) ∧
      bsr.minRating ≤ bsr.ComputeDecreaseProposer v ∧
      bsr.ComputeDecreaseProposer v ≤ bsr.maxRating) ∧
    ((bsr.ComputeIncreaseValidator v : Int)
        = max (bsr.minRating : Int) (min (bsr.maxRating : Int)
          ((v : Int) + bsr.shardRatingsStepHandler.ValidatorIncreaseRatingStep)) ∧
      bsr.minRating ≤ bsr.ComputeIncreaseValidator v ∧
      bsr.ComputeIncreaseValidator v ≤ bsr.maxRating) ∧
    ((bsr.ComputeDecreaseValidator v : Int)
        = max (bsr.minRating : Int) (min (bsr.maxRating : Int)
          ((v : Int) + bsr.shardRatingsStepHandler.ValidatorDecreaseRatingStep)) ∧
      bsr.minRating ≤ bsr.ComputeDecreaseValidator v ∧
      bsr.ComputeDecreaseValidator v ≤ bsr.maxRating) := by
  obtain ⟨hmin, hms, hsm, _, _, hbmin, hbmax, hsteps, _⟩ := NewBlockSigningRater_ok d bsr hnew
  have key : ∀ step : Int, isInt32 step →
      ((bsr.computeRating step v : Int)
          = max (bsr.minRating : Int) (min (bsr.maxRating : Int) ((v : Int) + step)) ∧
        bsr.minRating ≤ bsr.computeRating step v ∧
        bsr.computeRating step v ≤ bsr.maxRating) := by
    intro step hstep
    unfold isInt32 at hstep
    have hw : trie.wrapInt ((v : Int) + step) = (v : Int) + step := by
      unfold trie.wrapInt
      omega
    unfold BlockSigningRater.computeRating
    simp only [hw]
    rw [hbmin, hbmax]
    split
    · refine ⟨?_, le_refl _, by omega⟩
      omega
    · split
      · refine ⟨?_, by omega, le_refl _⟩
        omega
      · have hmod : ((v : Int) + step) % 2 ^ 32 = (v : Int) + step := by
          apply Int.emod_eq_of_lt <;> omega
        rw [hmod]
        refine ⟨?_, ?_, ?_⟩ <;> omega
  rw [← hsteps] at h1 h2 h3 h4
  exact ⟨key _ h1, key _ h2, key _ h3, key _ h4⟩

/-- C28 at the example rater and the previous rating 5: a proposer that loses
10 is left at the minimum rating 1. -/
theorem C28_compute_rating_witness :
    NewBlockSigningRater exampleRatingsData = .ok exampleRater ∧
    (exampleRater.ComputeDecreaseProposer 5 : Int)
      = max (exampleRater.minRating : Int) (min (exampleRater.maxRating : Int)
        (((5 : Nat) : Int) + exampleRater.shardRatingsStepHandler.ProposerDecreaseRatingStep)) ∧
    exampleRater.ComputeDecreaseProposer 5 = 1 :=
  ⟨rfl,
    (C28_compute_rating_is_the_clamped_sum exampleRatingsData exampleRater 5 rfl
      (by decide) (by decide) (by unfold isInt32; decide) (by unfold isInt32; decide)
      (by unfold isInt32; decide) (by unfold isInt32; decide)).2.1.1,
    by decide⟩


/-- The insertion sort by max threshold leaves no element with a smaller max
threshold than an element before it. -/
theorem insertionSort_pairwise_le (l : List selectionChance) :
    (l.insertionSort (fun a b => a.GetMaxThreshold ≤ b.GetMaxThreshold)).Pairwise
      (fun a b => a.GetMaxThreshold ≤ b.GetMaxThreshold) := by
  haveI : IsTotal selectionChance (fun a b => a.GetMaxThreshold ≤ b.GetMaxThreshold) :=
    ⟨fun a b => Nat.le_total _ _⟩
  haveI : IsTrans selectionChance (fun a b => a.GetMaxThreshold ≤ b.GetMaxThreshold) :=
    ⟨fun _ _ _ h1 h2 => Nat.le_trans h1 h2⟩
  exact List.sorted_insertionSort _ l

/-- In a slice sorted by max threshold in which no two neighbours have the same
max threshold, the max thresholds are strictly increasing. -/
theorem pairwise_lt_of_hasDuplicateThreshold_false :
    ∀ l : List selectionChance,
      l.Pairwise (fun a b => a.GetMaxThreshold ≤ b.GetMaxThreshold) →
      hasDuplicateThreshold l = false →
      l.Pairwise (fun a b => a.GetMaxThreshold < b.GetMaxThreshold)
  | [], _, _ => List.Pairwise.nil
  | [a], _, _ => List.pairwise_singleton _ a
  | a :: b :: rest, hp, hd => by
    unfold hasDuplicateThreshold at hd
    split at hd
    · cases hd
    · rename_i hne
      have hp2 := List.pairwise_cons.1 hp
      have ih := pairwise_lt_of_hasDuplicateThreshold_false (b :: rest) hp2.2 hd
      refine List.pairwise_cons.2 ⟨?_, ih⟩
      intro c hc
      have hab : a.GetMaxThreshold ≤ b.GetMaxThreshold := hp2.1 b (List.mem_cons_self _ _)
      rcases List.mem_cons.1 hc with h | h
      · subst h; omega
      · have := (List.pairwise_cons.1 ih).1 c h
        omega

/-- With strictly increasing max thresholds no two neighbours have the same
max threshold. -/
theorem hasDuplicateThreshold_false_of_pairwise_lt :
    ∀ l : List selectionChance,
      l.Pairwise (fun a b => a.GetMaxThreshold < b.GetMaxThreshold) →
      hasDuplicateThreshold l = false
  | [], _ => rfl
  | [_], _ => rfl
  | a :: b :: rest, hp => by
    have hp2 := List.pairwise_cons.1 hp
    have hab := hp2.1 b (List.mem_cons_self _ _)
    unfold hasDuplicateThreshold
    rw [if_neg (by omega)]
    exact hasDuplicateThreshold_false_of_pairwise_lt (b :: rest) hp2.2

/-- In a slice sorted by max threshold the last element has the largest max
threshold. -/
theorem le_getLast_of_pairwise_le :
    ∀ (l : List selectionChance) (hne : l ≠ []),
      l.Pairwise (fun a b => a.GetMaxThreshold ≤ b.GetMaxThreshold) →
      ∀ c ∈ l, c.GetMaxThreshold ≤ (l.getLast hne).GetMaxThreshold
  | [], hne, _ => absurd rfl hne
  | [a], _, _ => by
    intro c hc
    simp only [List.mem_singleton] at hc
    subst hc
    simp
  | a :: b :: rest, _, hp => by
    intro c hc
    have hp2 := List.pairwise_cons.1 hp
    rw [List.getLast_cons (List.cons_ne_nil b rest)]
    rcases List.mem_cons.1 hc with h | h
    · subst h
      exact hp2.1 _ (List.getLast_mem _)
    · exact le_getLast_of_pairwise_le (b :: rest) (List.cons_ne_nil b rest) hp2.2 c h

/-- The loop of `GetChance` over strictly increasing max thresholds returns the
chance of the entry with the smallest max threshold that is at least the
rating. -/
theorem getChanceLoop_eq (r chance : Nat) :
    ∀ (l : List selectionChance) (c : selectionChance),
      l.Pairwise (fun a b => a.GetMaxThreshold < b.GetMaxThreshold) →
      c ∈ l → r ≤ c.GetMaxThreshold →
      (∀ c2 ∈ l, r ≤ c2.GetMaxThreshold → c.GetMaxThreshold ≤ c2.GetMaxThreshold) →
      getChanceLoop r chance l = c.GetChancePercentage
  | [], c, _, hc, _, _ => by cases hc
  | a :: rest, c, hp, hc, hr, hmin => by
    have hp2 := List.pairwise_cons.1 hp
    unfold getChanceLoop
    split
    · rename_i hgt
      rcases List.mem_cons.1 hc with h | h
      · subst h; omega
      · exact getChanceLoop_eq r chance rest c hp2.2 h hr
          (fun c2 h2 => hmin c2 (List.mem_cons_of_mem _ h2))
    · rename_i hle
      rcases List.mem_cons.1 hc with h | h
      · subst h; rfl
      · have h1 := hp2.1 c h
        have h2 := hmin a (List.mem_cons_self _ _) (by omega)
        omega

/-- The loop of `GetChance` returns the value it started with when the rating
is above every max threshold. -/
theorem getChanceLoop_above (r chance : Nat) :
    ∀ (l : List selectionChance), (∀ c ∈ l, c.GetMaxThreshold < r) →
      getChanceLoop r chance l = chance
  | [], _ => rfl
  | a :: rest, h => by
    unfold getChanceLoop
    rw [if_pos (h a (List.mem_cons_self _ _))]
    exact getChanceLoop_above r chance rest (fun c hc => h c (List.mem_cons_of_mem _ hc))

/-- Among strictly increasing max thresholds one of which is at least the
rating, there is an entry with the smallest max threshold that is at least the
rating. -/
theorem exists_smallest_threshold (r : Nat) :
    ∀ (l : List selectionChance),
      l.Pairwise (fun a b => a.GetMaxThreshold < b.GetMaxThreshold) →
      (∃ c ∈ l, r ≤ c.GetMaxThreshold) →
      ∃ c ∈ l, r ≤ c.GetMaxThreshold ∧
        ∀ c2 ∈ l, r ≤ c2.GetMaxThreshold → c.GetMaxThreshold ≤ c2.GetMaxThreshold
  | [], _, h => by obtain ⟨c, hc, _⟩ := h; cases hc
  | a :: rest, hp, h => by
    have hp2 := List.pairwise_cons.1 hp
    by_cases ha : r ≤ a.GetMaxThreshold
    · refine ⟨a, List.mem_cons_self _ _, ha, ?_⟩
      intro c2 hc2 _
      rcases List.mem_cons.1 hc2 with h2 | h2
      · subst h2; exact le_refl _
      · exact Nat.le_of_lt (hp2.1 c2 h2)
    · obtain ⟨c, hc, hr⟩ := h
      have hct : c ∈ rest := by
        rcases List.mem_cons.1 hc with h2 | h2
        · subst h2; exact absurd hr ha
        · exact h2
      obtain ⟨m, hm, hmr, hmin⟩ := exists_smallest_threshold r rest hp2.2 ⟨c, hct, hr⟩
      refine ⟨m, List.mem_cons_of_mem _ hm, hmr, ?_⟩
      intro c2 hc2 hr2
      rcases List.mem_cons.1 hc2 with h2 | h2
      · subst h2; exact absurd hr2 ha
      · exact hmin c2 h2 hr2

/-- The stored chances of a rater built by `NewBlockSigningRater`: non-empty,
with strictly increasing max thresholds, the first 0 and the last
`maxRating`. -/
theorem NewBlockSigningRater_chances (d : RatingsInfoHandler) (bsr : BlockSigningRater)
    (h : NewBlockSigningRater d = .ok bsr) :
    bsr.ratingChances.Pairwise (fun a b => a.GetMaxThreshold < b.GetMaxThreshold) ∧
    ∃ first rest, bsr.ratingChances = first :: rest ∧ first.GetMaxThreshold = 0 ∧
      ((first :: rest).getLast (List.cons_ne_nil first rest)).GetMaxThreshold
        = bsr.maxRating := by
  obtain ⟨_, _, _, _, _, _, hmax, _, _, hsort, hdup, first, rest, hcons, hfirst, hlast⟩ :=
    NewBlockSigningRater_ok d bsr h
  refine ⟨?_, first, rest, hcons, hfirst, by rw [hmax]; exact hlast⟩
  apply pairwise_lt_of_hasDuplicateThreshold_false _ _ hdup
  rw [hsort]
  exact insertionSort_pairwise_le _


/-- C29: whenever `NewBlockSigningRater` returns a rater, 1 <= minRating <=
startRating <= maxRating, and the stored chances are non-empty, have strictly
increasing max thresholds, the first 0 and the last `maxRating`, and are a
permutation of the chances supplied; and the constructor returns a rater
exactly when the ratings data can meet these conditions, that is when
1 <= MinRating <= StartRating <= MaxRating, the chances supplied are non-empty,
no two of them have the same max threshold, one has the max threshold 0, one
has the max threshold MaxRating and none has a larger one; otherwise it returns
an error. -/
theorem C29_constructor_accepts_exactly_consistent_data (d : RatingsInfoHandler) :
    (∀ bsr, NewBlockSigningRater d = .ok bsr →
      1 ≤ bsr.minRating ∧ bsr.minRating ≤ bsr.startRating ∧
      bsr.startRating ≤ bsr.maxRating ∧ bsr.ratingChances ≠ [] ∧
      bsr.ratingChances.Pairwise (fun a b => a.GetMaxThreshold < b.GetMaxThreshold) ∧
      bsr.ratingChances.head?.map (fun c => c.GetMaxThreshold) = some 0 ∧
      bsr.ratingChances.getLast?.map (fun c => c.GetMaxThreshold) = some bsr.maxRating ∧
      List.Perm bsr.ratingChances (d.SelectionChances.map (fun chance =>
        ({ maxThreshold := chance.GetMaxThreshold
           chancePercentage := chance.GetChancePercent } : selectionChance)))) ∧
    ((∃ bsr, NewBlockSigningRater d = .ok bsr) ↔
      (1 ≤ d.MinRating ∧ d.MinRating ≤ d.StartRating ∧ d.StartRating ≤ d.MaxRating ∧
        d.SelectionChances ≠ [] ∧
        (d.SelectionChances.map (fun c => c.GetMaxThreshold)).Nodup ∧
        0 ∈ d.SelectionChances.map (fun c => c.GetMaxThreshold) ∧
        d.MaxRating ∈ d.SelectionChances.map (fun c => c.GetMaxThreshold) ∧
        ∀ t ∈ d.SelectionChances.map (fun c => c.GetMaxThreshold), t ≤ d.MaxRating)) ∧
    ((∃ err, NewBlockSigningRater d = .error err) ↔ ¬ ∃ bsr, NewBlockSigningRater d = .ok bsr) := by
  have hthr : (d.SelectionChances.map (fun chance =>
        ({ maxThreshold := chance.GetMaxThreshold
           chancePercentage := chance.GetChancePercent } : selectionChance))).map
        (fun c => c.GetMaxThreshold)
      = d.SelectionChances.map (fun c => c.GetMaxThreshold) := by
    rw [List.map_map]; rfl
  have hperm := List.perm_insertionSort (fun a b : selectionChance =>
      a.GetMaxThreshold ≤ b.GetMaxThreshold)
    (d.SelectionChances.map (fun chance =>
        ({ maxThreshold := chance.GetMaxThreshold
           chancePercentage := chance.GetChancePercent } : selectionChance)))
  have hpermT := (hperm.map (fun c => c.GetMaxThreshold))
  rw [hthr] at hpermT
  have hle := insertionSort_pairwise_le (d.SelectionChances.map (fun chance =>
        ({ maxThreshold := chance.GetMaxThreshold
           chancePercentage := chance.GetChancePercent } : selectionChance)))
  refine ⟨?_, ⟨?_, ?_⟩, ?_⟩
  · intro bsr h
    obtain ⟨h1, h2, h3, _, hs, hmin, hmax, _, _, hsort, _, _⟩ := NewBlockSigningRater_ok d bsr h
    obtain ⟨hlt, first, rest, hcons, hfirst, hlast⟩ := NewBlockSigningRater_chances d bsr h
    refine ⟨by omega, by omega, by omega, ?_, hlt, ?_, ?_, ?_⟩
    · rw [hcons]; exact List.cons_ne_nil _ _
    · rw [hcons]; simp [hfirst]
    · rw [hcons, List.getLast?_eq_getLast _ (List.cons_ne_nil first rest)]
      simp only [Option.map_some', hlast]
    · rw [hsort]; exact hperm
  · rintro ⟨bsr, h⟩
    obtain ⟨h1, h2, h3, hne, _, _, hmax, _, _, hsort, _, _⟩ := NewBlockSigningRater_ok d bsr h
    obtain ⟨hlt, first, rest, hcons, hfirst, hlast⟩ := NewBlockSigningRater_chances d bsr h
    rw [hmax] at hlast
    rw [hsort] at hlt hcons
    have hnodup : ((d.SelectionChances.map (fun chance =>
        ({ maxThreshold := chance.GetMaxThreshold
           chancePercentage := chance.GetChancePercent } : selectionChance))).insertionSort
        (fun a b => a.GetMaxThreshold ≤ b.GetMaxThreshold)).map
        (fun c => c.GetMaxThreshold) |>.Nodup := by
      unfold List.Nodup
      rw [List.pairwise_map]
      exact hlt.imp (fun hab => Nat.ne_of_lt hab)
    refine ⟨h1, h2, h3, hne, hpermT.nodup_iff.1 hnodup, ?_, ?_, ?_⟩
    · apply hpermT.mem_iff.1
      rw [hcons]
      simp [hfirst]
    · apply hpermT.mem_iff.1
      rw [hcons, ← hlast]
      exact List.mem_map_of_mem _ (List.getLast_mem _)
    · intro t ht
      have ht2 := hpermT.mem_iff.2 ht
      obtain ⟨c, hc, hct⟩ := List.mem_map.1 ht2
      rw [← hct, ← hlast]
      rw [hcons] at hc hle
      exact le_getLast_of_pairwise_le _ _ hle c hc
  · rintro ⟨h1, h2, h3, hne, hnodup, hzero, hmaxmem, hall⟩
    unfold NewBlockSigningRater
    rw [if_neg (by omega), if_neg (by omega), if_neg (by omega),
      if_neg (by intro hl; exact hne (List.length_eq_zero.1 hl))]
    simp only
    split
    · rename_i hnil
      have := hperm.length_eq
      rw [hnil] at this
      simp only [List.length_nil, List.length_map] at this
      exact absurd (List.length_eq_zero.1 this.symm) hne
    · rename_i first rest hcons
      rw [hcons] at hle hpermT
      have hfirst : first.GetMaxThreshold = 0 := by
        obtain ⟨c, hc, hc0⟩ := List.mem_map.1 (hpermT.mem_iff.2 hzero)
        rcases List.mem_cons.1 hc with h | h
        · rw [← h]; exact hc0
        · have := (List.pairwise_cons.1 hle).1 c h
          omega
      have hlt : (first :: rest).Pairwise
          (fun a b => a.GetMaxThreshold < b.GetMaxThreshold) := by
        have hn2 : ((first :: rest).map (fun c => c.GetMaxThreshold)).Nodup :=
          hpermT.nodup_iff.2 hnodup
        unfold List.Nodup at hn2
        rw [List.pairwise_map] at hn2
        exact (hle.and hn2).imp (fun hab => Nat.lt_of_le_of_ne hab.1 hab.2)
      have hdup := hasDuplicateThreshold_false_of_pairwise_lt _ hlt
      have hlast : ((first :: rest).getLast (List.cons_ne_nil first rest)).GetMaxThreshold
          = d.MaxRating := by
        apply Nat.le_antisymm
        · apply hall
          apply hpermT.mem_iff.1
          exact List.mem_map_of_mem _ (List.getLast_mem _)
        · obtain ⟨c, hc, hcm⟩ := List.mem_map.1 (hpermT.mem_iff.2 hmaxmem)
          rw [← hcm]
          exact le_getLast_of_pairwise_le _ _ hle c hc
      rw [if_neg (by omega), hcons, hdup]
      simp only [Bool.false_eq_true, if_false]
      rw [if_neg (by simpa using hlast)]
      exact ⟨_, rfl⟩
  · constructor
    · rintro ⟨err, herr⟩ ⟨bsr, hok⟩
      rw [herr] at hok; cases hok
    · intro hno
      cases hres : NewBlockSigningRater d with
      | error err => exact ⟨err, rfl⟩
      | ok bsr => exact absurd ⟨bsr, hres⟩ hno

/-- C29 at the example data, whose chances are given out of order: the
constructor returns the example rater, whose thresholds are 0, 50 and 100. -/
theorem C29_constructor_witness :
    NewBlockSigningRater exampleRatingsData = .ok exampleRater ∧
    exampleRater.ratingChances.head?.map (fun c => c.GetMaxThreshold) = some 0 ∧
    exampleRater.ratingChances.getLast?.map (fun c => c.GetMaxThreshold)
      = some exampleRater.maxRating :=
  ⟨rfl,
    ((C29_constructor_accepts_exactly_consistent_data exampleRatingsData).1
      exampleRater rfl).2.2.2.2.2.1,
    ((C29_constructor_accepts_exactly_consistent_data exampleRatingsData).1
      exampleRater rfl).2.2.2.2.2.2.1⟩

/-- C30: for a rater built by `NewBlockSigningRater` and a rating `r`,
`GetChance(r)` returns the chance percentage of the entry with the smallest
max threshold that is at least `r`, whenever there is such an entry; there is
one for every `r <= maxRating`; and for `r` above `maxRating`, where there is
none, `GetChance(r)` returns the chance percentage of the first entry, whose
max threshold is 0. -/
theorem C30_chance_of_the_threshold_band (d : RatingsInfoHandler) (bsr : BlockSigningRater)
    (r : Nat) (hnew : NewBlockSigningRater d = .ok bsr) :
    (∀ c ∈ bsr.ratingChances, r ≤ c.GetMaxThreshold →
      (∀ c2 ∈ bsr.ratingChances, r ≤ c2.GetMaxThreshold →
        c.GetMaxThreshold ≤ c2.GetMaxThreshold) →
      bsr.GetChance r = some c.GetChancePercentage) ∧
    (r ≤ bsr.maxRating →
      ∃ c ∈ bsr.ratingChances, r ≤ c.GetMaxThreshold ∧
        (∀ c2 ∈ bsr.ratingChances, r ≤ c2.GetMaxThreshold →
          c.GetMaxThreshold ≤ c2.GetMaxThreshold) ∧
        bsr.GetChance r = some c.GetChancePercentage) ∧
    (bsr.maxRating < r →
      bsr.GetChance r = bsr.ratingChances.head?.map (fun c => c.GetChancePercentage)) := by
  obtain ⟨hlt, first, rest, hcons, hfirst, hlast⟩ := NewBlockSigningRater_chances d bsr hnew
  have hget : ∀ c ∈ bsr.ratingChances, r ≤ c.GetMaxThreshold →
      (∀ c2 ∈ bsr.ratingChances, r ≤ c2.GetMaxThreshold →
        c.GetMaxThreshold ≤ c2.GetMaxThreshold) →
      bsr.GetChance r = some c.GetChancePercentage := by
    intro c hc hr hmin
    unfold BlockSigningRater.GetChance
    rw [hcons] at hc hmin hlt ⊢
    simp only [Option.some.injEq]
    exact getChanceLoop_eq r _ _ c hlt hc hr hmin
  refine ⟨hget, ?_, ?_⟩
  · intro hr
    have hex : ∃ c ∈ bsr.ratingChances, r ≤ c.GetMaxThreshold := by
      refine ⟨(first :: rest).getLast (List.cons_ne_nil first rest), ?_, by omega⟩
      rw [hcons]; exact List.getLast_mem _
    obtain ⟨c, hc, hcr, hmin⟩ := exists_smallest_threshold r _ hlt hex
    exact ⟨c, hc, hcr, hmin, hget c hc hcr hmin⟩
  · intro hr
    have hle : ∀ c ∈ bsr.ratingChances, c.GetMaxThreshold < r := by
      intro c hc
      rw [hcons] at hc hlt
      have hp : (first :: rest).Pairwise
          (fun a b => a.GetMaxThreshold ≤ b.GetMaxThreshold) :=
        hlt.imp (fun hab => Nat.le_of_lt hab)
      have := le_getLast_of_pairwise_le _ (List.cons_ne_nil first rest) hp c hc
      omega
    unfold BlockSigningRater.GetChance
    rw [hcons] at hle ⊢
    simp only [List.head?_cons, Option.map_some', Option.some.injEq]
    exact getChanceLoop_above r _ _ hle

/-- C30 at the example rater and the rating 51, which falls in the band of the
threshold 100 and gets its chance 20. -/
theorem C30_chance_witness :
    NewBlockSigningRater exampleRatingsData = .ok exampleRater ∧
    ∃ c ∈ exampleRater.ratingChances, 51 ≤ c.GetMaxThreshold ∧
      (∀ c2 ∈ exampleRater.ratingChances, 51 ≤ c2.GetMaxThreshold →
        c.GetMaxThreshold ≤ c2.GetMaxThreshold) ∧
      exampleRater.GetChance 51 = some c.GetChancePercentage :=
  ⟨rfl, (C30_chance_of_the_threshold_band exampleRatingsData exampleRater 51 rfl).2.1
    (by decide)⟩

end rating
